import Mathlib

/-!
Button tracking and timed waits of `src/lib/user-io.c`, and the scripts of
`src/bdsp/bdsp.c`.

A shallow embedding of the button tracker (`track_button`,
`get_tracked_presses`), of the three timed wait primitives
(`wait_for_button_timeout`, `count_button_presses`, `delay`), of the
interrupt-driven `select_number` and `wait_for_confirm`, and of `main` and
the scripts it runs.

Modelling conventions.

* `uint8_t` and `uint16_t` values are natural numbers, every C operation that
  can overflow is followed by an explicit `% 256` or `% 65536`; the decrement
  of the `uint16_t` counter of `count_button_presses` is `dec16`.
* The input register `PINB` is the list of the values that the successive
  reads of `PINB` return.  Every loop of the file reads `PINB` once per
  iteration, so every loop is a structural recursion on that list (or on its
  tick counter).  A function returns `none` exactly when the list is used up
  before the C function returns.
* `_delay_ms(1)` inside `track_button` is one tick.  The log of a wait holds
  the value of `PORTB` during each elapsed tick, newest first, so its length
  is the number of `track_button` calls performed.
* `sleep_mode()` returns once per element of a list of wake-ups.  The
  handler `PCINT0_vect` runs to completion before the loop body that follows
  the wake-up.  Handler runs served inside one evaluation of the polling
  condition, between its two volatile reads, are an input of `polled_reads`.
* The calls of `bdsp.c` into the automation library, whose code is not among
  the sources, are events of a trace.  A run keeps the events emitted so far
  when it blocks on the operator, and the loops `while` of `bdsp.c` take a
  bound on their number of iterations.
-/

namespace SwitchController

/-! ## Constants -/

/-- LED (digital pin 13) on port B: `#define PORTB_LED (1 << 5)`. -/
def PORTB_LED : Nat := 1 <<< 5

/-- Button on digital pin 12 of port B: `#define PORTB_BUTTON_0 (1 << 4)`. -/
def PORTB_BUTTON_0 : Nat := 1 <<< 4

/-- Button minimum hold time in ms: `#define BUTTON_HOLD_TIME_MS 20`. -/
def BUTTON_HOLD_TIME_MS : Nat := 20

/-! ## Data model -/

/-- Structure to track button presses; both fields are `uint8_t`. -/
structure button_info where
  hold_time : Nat
  count : Nat
deriving DecidableEq, Repr

/-- State of the local variables and of `PORTB` inside a wait loop. -/
structure LoopState where
  led_cycle_pos : Nat
  info : button_info
  PORTB : Nat
  log : List Nat
deriving DecidableEq, Repr

/-- What a wait primitive leaves behind when it returns: its return value,
the output register, the reads of `PINB` not yet consumed and the tick log. -/
structure Outcome (α : Type) where
  ret : α
  PORTB : Nat
  PINB : List Nat
  log : List Nat
deriving DecidableEq, Repr

/-- Number of ticks (calls of `track_button`) a wait performed. -/
def Outcome.ticks {α : Type} (r : Outcome α) : Nat := r.log.length

/-! ## The tracker -/

/-- The test `(PINB & PORTB_BUTTON_0) == 0` on one value read from `PINB`. -/
def button_held (pinb : Nat) : Bool := (pinb &&& PORTB_BUTTON_0) == 0

/-- One call of `track_button`, `pinb` being the value its read of `PINB`
returns. -/
def track_button (pinb : Nat) (info : button_info) : button_info :=
  if button_held pinb then
    { info with hold_time := (info.hold_time + 1) % 256 }
  else
    { hold_time := 0
      count := if info.hold_time > BUTTON_HOLD_TIME_MS then (info.count + 1) % 256
               else info.count }

/-- The tracker fed tick by tick with a trace of `PINB` values. -/
def track_all : List Nat → button_info → button_info
  | [], info => info
  | p :: rest, info => track_all rest (track_button p info)

/-- The busy loop `while ((PINB & PORTB_BUTTON_0) == 0) {}`: it consumes the
reads up to and including the first one on which the button is released. -/
def wait_release : List Nat → Option (List Nat)
  | [] => none
  | p :: rest => if button_held p then wait_release rest else some rest

/-- Function `get_tracked_presses`: the count, the wait for the release, then
the flush of a press still held at the last `track_button` call. -/
def get_tracked_presses (info : button_info) (pins : List Nat) : Option (Nat × List Nat) :=
  let count := info.count
  match wait_release pins with
  | none => none
  | some rest =>
    some (if info.hold_time > BUTTON_HOLD_TIME_MS then (count + 1) % 256 else count, rest)

/-! ## The shared tick of the wait loops -/

/-- The statement `PORTB |= PORTB_LED` on the 8-bit register. -/
def led_on (portb : Nat) : Nat := (portb ||| PORTB_LED) % 256

/-- The statement `PORTB &= ~PORTB_LED` on the 8-bit register. -/
def led_off (portb : Nat) : Nat := portb &&& (255 - PORTB_LED)

/-- The LED cascade at the head of a loop body:
`if (pos == 1) on; else if (pos == led_on_time_ms) off;
else if (pos == led_cycle_time_ms) pos = 0;`. -/
def led_cycle (led_on_time_ms led_cycle_time_ms : Nat) (s : LoopState) : LoopState :=
  if s.led_cycle_pos = 1 then { s with PORTB := led_on s.PORTB }
  else if s.led_cycle_pos = led_on_time_ms then { s with PORTB := led_off s.PORTB }
  else if s.led_cycle_pos = led_cycle_time_ms then { s with led_cycle_pos := 0 }
  else s

/-- The call `track_button(&info)` inside a loop: the tracker step on the
value read and one elapsed tick, logged with the current `PORTB`. -/
def tick (pinb : Nat) (s : LoopState) : LoopState :=
  { s with info := track_button pinb s.info, log := s.PORTB :: s.log }

/-- The statement `led_cycle_pos += 1` on a `uint16_t`. -/
def next_pos (s : LoopState) : LoopState :=
  { s with led_cycle_pos := (s.led_cycle_pos + 1) % 65536 }

/-- Locals at the entry of every wait: `led_cycle_pos = 1`, `info = {0, 0}`. -/
def init_state (portb : Nat) : LoopState :=
  { led_cycle_pos := 1, info := { hold_time := 0, count := 0 }, PORTB := portb, log := [] }

/-! ## `wait_for_button_timeout` -/

/-- The loop `while (timeout_ms > 0)` of `wait_for_button_timeout`, with its
`break` on `info.count`. -/
def wait_for_button_timeout_loop (led_on_time_ms led_cycle_time_ms : Nat) :
    Nat → List Nat → LoopState → Option (LoopState × List Nat)
  | 0, pins, s => some (s, pins)
  | _ + 1, [], _ => none
  | t + 1, p :: rest, s =>
    let s1 := tick p (led_cycle led_on_time_ms led_cycle_time_ms s)
    if s1.info.count ≠ 0 then some (s1, rest)
    else wait_for_button_timeout_loop led_on_time_ms led_cycle_time_ms t rest (next_pos s1)

/-- Function `wait_for_button_timeout`. -/
def wait_for_button_timeout (led_on_time_ms led_off_time_ms timeout_ms : Nat)
    (portb : Nat) (pins : List Nat) : Option (Outcome Bool) :=
  let led_cycle_time_ms := (led_on_time_ms + led_off_time_ms) % 65536
  match wait_for_button_timeout_loop led_on_time_ms led_cycle_time_ms timeout_ms pins
      (init_state portb) with
  | none => none
  | some (s, rest) =>
    match get_tracked_presses s.info rest with
    | none => none
    | some (presses, rest1) =>
      some { ret := decide (presses > 0), PORTB := led_off s.PORTB, PINB := rest1, log := s.log }

/-! ## `count_button_presses` -/

/-- The statement `timeout_ms -= 1` on a `uint16_t`: 0 wraps to 65535. -/
def dec16 (n : Nat) : Nat := if n = 0 then 65535 else n - 1

/-- The loop `while ((info.count == 0) || (timeout_ms > 0))` of
`count_button_presses`; `timeout_ms` is a `uint16_t`, so `timeout_ms -= 1`
is `dec16`. -/
def count_button_presses_loop (led_on_time_ms led_cycle_time_ms : Nat) :
    List Nat → Nat → LoopState → Option (LoopState × List Nat)
  | [], timeout_ms, s =>
    if s.info.count = 0 ∨ timeout_ms > 0 then none else some (s, [])
  | p :: rest, timeout_ms, s =>
    if s.info.count = 0 ∨ timeout_ms > 0 then
      let s1 := tick p (led_cycle led_on_time_ms led_cycle_time_ms s)
      let timeout1 := if s1.info.hold_time ≠ 0 then 500 else timeout_ms
      count_button_presses_loop led_on_time_ms led_cycle_time_ms rest
        (dec16 timeout1) (next_pos s1)
    else some (s, p :: rest)

/-- Function `count_button_presses`. -/
def count_button_presses (led_on_time_ms led_off_time_ms : Nat)
    (portb : Nat) (pins : List Nat) : Option (Outcome Nat) :=
  let led_cycle_time_ms := (led_on_time_ms + led_off_time_ms) % 65536
  match count_button_presses_loop led_on_time_ms led_cycle_time_ms pins 0 (init_state portb) with
  | none => none
  | some (s, rest) =>
    let portb1 := led_off s.PORTB
    match get_tracked_presses s.info rest with
    | none => none
    | some (presses, rest1) =>
      some { ret := presses, PORTB := portb1, PINB := rest1, log := s.log }

/-! ## `delay` -/

/-- The loop `while (remaining > 0)` of `delay`; the LED cascade runs only
when `led_on_time_ms != 0`. -/
def delay_loop (led_on_time_ms led_cycle_time_ms : Nat) :
    Nat → List Nat → LoopState → Option (LoopState × List Nat)
  | 0, pins, s => some (s, pins)
  | _ + 1, [], _ => none
  | r + 1, p :: rest, s =>
    let s0 := if led_on_time_ms ≠ 0 then led_cycle led_on_time_ms led_cycle_time_ms s else s
    delay_loop led_on_time_ms led_cycle_time_ms r rest (next_pos (tick p s0))

/-- Function `delay`. -/
def delay (led_on_time_ms led_off_time_ms delay_ms : Nat)
    (portb : Nat) (pins : List Nat) : Option (Outcome Nat) :=
  let led_cycle_time_ms := (led_on_time_ms + led_off_time_ms) % 65536
  match delay_loop led_on_time_ms led_cycle_time_ms delay_ms pins (init_state portb) with
  | none => none
  | some (s, rest) =>
    let portb1 := led_off s.PORTB
    if delay_ms ≤ BUTTON_HOLD_TIME_MS then
      some { ret := if s.info.hold_time > 0 then 1 else 0, PORTB := portb1, PINB := rest,
             log := s.log }
    else
      match get_tracked_presses s.info rest with
      | none => none
      | some (presses, rest1) =>
        some { ret := presses, PORTB := portb1, PINB := rest1, log := s.log }

/-! ## Traces used in the examples -/

/-- A value of `PINB` on which button 0 reads active (bit 4 low). -/
def ACTIVE : Nat := 0x00

/-- A value of `PINB` on which button 0 reads inactive (bit 4 high). -/
def INACTIVE : Nat := 0x10

/-- The state of a zeroed `struct button_info info = {0, 0}`. -/
def zero_info : button_info := { hold_time := 0, count := 0 }

/-! ## Trace predicates and proof-side views of the loops -/

/-- No hold episode longer than 20 ticks: every block of consecutive
active reads of the trace has at most `BUTTON_HOLD_TIME_MS` elements. -/
def NoLongHold (l : List Nat) : Prop :=
  ∀ pre H post : List Nat, l = pre ++ H ++ post →
    (∀ x ∈ H, button_held x = true) → H.length ≤ BUTTON_HOLD_TIME_MS

/-- Bits of `PORTB` other than the LED bit are the same in `p` and `q`. -/
def SameOtherBits (p q : Nat) : Prop :=
  ∀ i, i ≠ 5 → q.testBit i = p.testBit i

/-- The tracker's `hold_time` after the first `j` ticks of a trace. -/
def hold_after (trace : List Nat) (j : Nat) : Nat :=
  (track_all (trace.take j) zero_info).hold_time

/-- The tracker's `count` after the first `j` ticks of a trace. -/
def count_after (trace : List Nat) (j : Nat) : Nat :=
  (track_all (trace.take j) zero_info).count

/-- The pair `(timeout_ms, info)` after one body of the loop of
`count_button_presses` reading `p`. -/
def count_step (p : Nat) (σ : Nat × button_info) : Nat × button_info :=
  let info1 := track_button p σ.2
  (dec16 (if info1.hold_time ≠ 0 then 500 else σ.1), info1)

/-- The pair `(timeout_ms, info)` after the loop body ran over `seg`. -/
def count_run : List Nat → Nat × button_info → Nat × button_info
  | [], σ => σ
  | p :: rest, σ => count_run rest (count_step p σ)

/-- The loop test of `count_button_presses` holds before every read of `seg`. -/
def count_stays : List Nat → Nat × button_info → Prop
  | [], _ => True
  | p :: rest, σ => (σ.2.count = 0 ∨ σ.1 > 0) ∧ count_stays rest (count_step p σ)

/-- The flush rule in the spec's words, on 8-bit values: the confirmed count
plus one more press when the hold in progress exceeds the threshold. -/
def flushed (info : button_info) : Nat :=
  if info.hold_time > BUTTON_HOLD_TIME_MS then (info.count + 1) % 256 else info.count

/-- A trace of 255 presses of 21 ticks, each released for one tick, then a
press of 21 ticks still held after 5631 ticks and released on the next read. -/
def presses255 : List Nat :=
  (List.replicate 255 (List.replicate 21 ACTIVE ++ [INACTIVE])).flatten ++
    List.replicate 21 ACTIVE ++ [INACTIVE]

/-- A press of 25 ticks, 400 ticks released, a second press of 25 ticks, then
500 reads released. -/
def two_presses_far_apart : List Nat :=
  List.replicate 25 ACTIVE ++ List.replicate 400 INACTIVE ++ List.replicate 25 ACTIVE ++
    List.replicate 500 INACTIVE

/-! ## Pin-change interrupt, `select_number` and `wait_for_confirm` -/

/-- The second button, bit 3 of port B: `#define PORTB_BUTTON_1 (1 << 3)`. -/
def PORTB_BUTTON_1 : Nat := 1 <<< 3

/-- One return of `sleep_mode()`: the CPU was woken by the pin-change
interrupt, whose handler read the value `pinb` from `PINB`, or by some other
interrupt, in which case the handler `PCINT0_vect` did not run. -/
inductive Wake where
  | pin_change (pinb : Nat)
  | other
deriving DecidableEq, Repr

/-- The two globals `volatile uint8_t changedbits` and
`volatile uint8_t portbhistory`. -/
structure PinState where
  changedbits : Nat
  portbhistory : Nat
deriving DecidableEq, Repr

/-- The globals at start-up: `changedbits` is zero-initialised,
`portbhistory = 0xFF`. -/
def PinState.boot : PinState := { changedbits := 0, portbhistory := 0xFF }

/-- Interrupt routine `ISR(PCINT0_vect)`:
`changedbits = PINB ^ portbhistory; portbhistory = PINB;`. -/
def PCINT0_vect (pinb : Nat) (st : PinState) : PinState :=
  { changedbits := pinb ^^^ st.portbhistory, portbhistory := pinb }

/-- The globals when `sleep_mode()` returns. -/
def wake_up (w : Wake) (st : PinState) : PinState :=
  match w with
  | Wake.pin_change pinb => PCINT0_vect pinb st
  | Wake.other => st

/-- The condition `changedbits & mask && portbhistory & mask` of
`wait_for_confirm` and `select_number`. -/
def changed_and_high (mask : Nat) (st : PinState) : Bool :=
  (st.changedbits &&& mask != 0) && (st.portbhistory &&& mask != 0)

/-! ## Events of the automation layer -/

/-- Button constants of `automation-utils.h` used by `bdsp.c`. -/
inductive Button where
  | BT_NONE | BT_A | BT_B | BT_X | BT_Y | BT_R | BT_P
deriving DecidableEq, Repr

/-- D-pad constants of `automation-utils.h` used by `bdsp.c`. -/
inductive DPad where
  | DP_NEUTRAL | DP_TOP | DP_BOTTOM | DP_LEFT | DP_RIGHT
deriving DecidableEq, Repr

/-- Stick constants of `automation-utils.h` used by `bdsp.c`. -/
inductive Stick where
  | S_NEUTRAL | S_RIGHT | S_TOPRIGHT | S_TOP | S_TOPLEFT | S_LEFT | S_BOTLEFT | S_BOTTOM
  | S_BOTRIGHT
deriving DecidableEq, Repr

/-- Arguments of `set_leds`. -/
inductive Leds where
  | NO_LEDS | TX_LED | RX_LED | BOTH_LEDS
deriving DecidableEq, Repr

/-- Arguments of `switch_controller`. -/
inductive SwitchDir where
  | VIRT_TO_REAL | REAL_TO_VIRT
deriving DecidableEq, Repr

/-- Sequence modes; `bdsp.c` only uses `SEQ_HOLD`. -/
inductive SeqMode where
  | SEQ_HOLD
deriving DecidableEq, Repr

/-- One entry `{ button, dpad, mode, count }` of a `SEND_BUTTON_SEQUENCE`. -/
structure Step where
  button : Button
  dpad : DPad
  mode : SeqMode
  count : Nat
deriving DecidableEq, Repr

/-- The observable calls: the calls of `bdsp.c` into the automation library
(whose code is not part of the sources), the beeps, and the returns of
`select_number` and `wait_for_confirm`. -/
inductive Event where
  | init_automation
  | set_leds (leds : Leds)
  | send_update (button : Button) (dpad : DPad) (left right : Stick)
  | send_button_sequence (steps : List Step)
  | pause_automation
  | switch_controller (dir : SwitchDir)
  | beep (tone : Nat)
  | select_number (val : Nat)
  | wait_for_confirm
deriving DecidableEq, Repr

/-- A run of a blocking piece of code: the events it emitted and, when it
returned, its result; `result = none` when it is still blocked (or still
looping) at the end of the inputs. -/
structure Run (α : Type) where
  events : List Event
  result : Option α

/-- A run that emits `events` and returns `a`. -/
def Run.emit {α : Type} (events : List Event) (a : α) : Run α :=
  { events := events, result := some a }

/-- The run of `r` followed, when `r` returns, by the run of `f` on its result. -/
def Run.andThen {α β : Type} (r : Run α) (f : α → Run β) : Run β :=
  match r.result with
  | none => { events := r.events, result := none }
  | some a => { events := r.events ++ (f a).events, result := (f a).result }

/-- The loop `while (1)` of `select_number`, one iteration per return of
`sleep_mode()`; `val` is a `uint8_t`. -/
def select_number_loop : List Wake → PinState → Nat → Run (Nat × PinState × List Wake)
  | [], _, _ => { events := [], result := none }
  | w :: rest, st, val =>
    let st1 := wake_up w st
    let acc := changed_and_high PORTB_BUTTON_0 st1
    let val1 := if acc then (val + 1) % 256 else val
    let ev := if acc then [Event.beep 0] else []
    if changed_and_high PORTB_BUTTON_1 st1 then
      { events := ev ++ [Event.beep 1], result := some (val1, st1, rest) }
    else
      { events := ev ++ (select_number_loop rest st1 val1).events
        result := (select_number_loop rest st1 val1).result }

/-- Function `select_number`: the loop, then `val` beeps of tone 2; its return
is recorded by the event `select_number val`. -/
def select_number (wakes : List Wake) (st : PinState) : Run (Nat × PinState × List Wake) :=
  (select_number_loop wakes st 0).andThen fun q =>
    Run.emit (List.replicate q.1 (Event.beep 2) ++ [Event.select_number q.1]) q

/-- The loop `while (1)` of `wait_for_confirm`. -/
def wait_for_confirm_loop : List Wake → PinState → Run (PinState × List Wake)
  | [], _ => { events := [], result := none }
  | w :: rest, st =>
    let st1 := wake_up w st
    if changed_and_high PORTB_BUTTON_1 st1 then
      { events := [Event.beep 1], result := some (st1, rest) }
    else wait_for_confirm_loop rest st1

/-- Function `wait_for_confirm`; its return is recorded by the event
`wait_for_confirm`. -/
def wait_for_confirm (wakes : List Wake) (st : PinState) : Run (PinState × List Wake) :=
  (wait_for_confirm_loop wakes st).andThen fun q => Run.emit [Event.wait_for_confirm] q

/-- The pin `mask` goes from low (button pressed) to high (button released)
between two successive values of `PINB`. -/
def rose (mask prev cur : Nat) : Bool := (prev &&& mask == 0) && (cur &&& mask != 0)

/-- Number of releases of the button `mask` in a sequence of values of `PINB`
that follows the value `prev`. -/
def releases (mask : Nat) : Nat → List Nat → Nat
  | _, [] => 0
  | prev, cur :: rest => (if rose mask prev cur then 1 else 0) + releases mask cur rest

/-- The last value of `PINB` in a sequence that follows the value `prev`. -/
def last_pinb : Nat → List Nat → Nat
  | prev, [] => prev
  | _, cur :: rest => last_pinb cur rest

/-! ## The scripts of `bdsp.c` -/

open Button DPad Stick Leds SwitchDir SeqMode

/-- The machine seen by `main`: the future returns of `sleep_mode()`, the
globals of the interrupt handler, the future polled reads of `PINB`, the
register `PORTB`, the globals `CUR_BOX, MAX_BOX, CUR_COL, MAX_COL` (all
`uint8_t`) and, for a read of `egg_cycles` at an index outside the table,
the value `stray i` that the memory holds there. -/
structure Machine where
  wakes : List Wake
  pins : PinState
  PINB : List Nat
  PORTB : Nat
  CUR_BOX : Nat
  MAX_BOX : Nat
  CUR_COL : Nat
  MAX_COL : Nat
  stray : Nat → Nat

/-- A loop `for (i = 0; i < n; ++i) body` whose body does not depend on `i`. -/
def repeat_events (n : Nat) (body : List Event) : List Event :=
  (List.replicate n body).flatten

/-- A loop `for (uint8_t i = 0; i < bound; ++i) body` whose bound is an `int`
expression: no iteration when `bound ≤ 0`, and no termination (`none`) when
`bound > 255`, which the `uint8_t` counter never reaches. -/
def for_uint8 (bound : Int) (body : List Event) : Option (List Event) :=
  if bound > 255 then none else some (repeat_events bound.toNat body)

/-- The call `select_number()` on the machine. -/
def call_select_number (m : Machine) : Run (Nat × Machine) :=
  (select_number m.wakes m.pins).andThen fun q =>
    Run.emit [] (q.1, { m with pins := q.2.1, wakes := q.2.2 })

/-- The call `wait_for_confirm()` on the machine. -/
def call_wait_for_confirm (m : Machine) : Run Machine :=
  (wait_for_confirm m.wakes m.pins).andThen fun q =>
    Run.emit [] { m with pins := q.1, wakes := q.2 }

/-- The call `delay(on, off, ms)` on the machine, its result being unused. -/
def call_delay (led_on_time_ms led_off_time_ms delay_ms : Nat) (m : Machine) : Run Machine :=
  match delay led_on_time_ms led_off_time_ms delay_ms m.PORTB m.PINB with
  | none => { events := [], result := none }
  | some r => Run.emit [] { m with PORTB := r.PORTB, PINB := r.PINB }

/-- Function `temporary_control`. -/
def temporary_control (m : Machine) : Run Machine :=
  (Run.emit [Event.set_leds NO_LEDS, Event.switch_controller VIRT_TO_REAL] m).andThen fun m1 =>
    (call_wait_for_confirm m1).andThen fun m2 =>
      Run.emit [Event.switch_controller REAL_TO_VIRT] m2

/-- Function `release_pokemon`. -/
def release_pokemon : List Event :=
  [Event.send_button_sequence
    [⟨BT_A, DP_NEUTRAL, SEQ_HOLD, 1⟩,
     ⟨BT_NONE, DP_NEUTRAL, SEQ_HOLD, 6⟩,
     ⟨BT_NONE, DP_TOP, SEQ_HOLD, 1⟩,
     ⟨BT_NONE, DP_NEUTRAL, SEQ_HOLD, 6⟩,
     ⟨BT_NONE, DP_TOP, SEQ_HOLD, 1⟩,
     ⟨BT_NONE, DP_NEUTRAL, SEQ_HOLD, 6⟩,
     ⟨BT_A, DP_NEUTRAL, SEQ_HOLD, 1⟩,
     ⟨BT_NONE, DP_NEUTRAL, SEQ_HOLD, 6⟩,
     ⟨BT_NONE, DP_TOP, SEQ_HOLD, 1⟩,
     ⟨BT_NONE, DP_NEUTRAL, SEQ_HOLD, 6⟩,
     ⟨BT_A, DP_NEUTRAL, SEQ_HOLD, 1⟩,
     ⟨BT_NONE, DP_NEUTRAL, SEQ_HOLD, 20⟩,
     ⟨BT_A, DP_NEUTRAL, SEQ_HOLD, 1⟩,
     ⟨BT_NONE, DP_NEUTRAL, SEQ_HOLD, 6⟩]]

/-- Function `release_box`. -/
def release_box : List Event :=
  ((List.range 5).flatMap fun i =>
    let direction := if i % 2 = 0 then DP_RIGHT else DP_LEFT
    repeat_events 5
      (release_pokemon ++
        [Event.send_button_sequence
          [⟨BT_NONE, direction, SEQ_HOLD, 1⟩, ⟨BT_NONE, DP_NEUTRAL, SEQ_HOLD, 6⟩]]) ++
    release_pokemon ++
    [Event.send_button_sequence
      [⟨BT_NONE, DP_BOTTOM, SEQ_HOLD, 1⟩, ⟨BT_NONE, DP_NEUTRAL, SEQ_HOLD, 6⟩]]) ++
  [Event.send_button_sequence
    [⟨BT_R, DP_NEUTRAL, SEQ_HOLD, 1⟩,
     ⟨BT_NONE, DP_NEUTRAL, SEQ_HOLD, 12⟩,
     ⟨BT_NONE, DP_BOTTOM, SEQ_HOLD, 1⟩,
     ⟨BT_NONE, DP_NEUTRAL, SEQ_HOLD, 6⟩,
     ⟨BT_NONE, DP_BOTTOM, SEQ_HOLD, 1⟩,
     ⟨BT_NONE, DP_NEUTRAL, SEQ_HOLD, 6⟩,
     ⟨BT_NONE, DP_RIGHT, SEQ_HOLD, 1⟩,
     ⟨BT_NONE, DP_NEUTRAL, SEQ_HOLD, 6⟩,
     ⟨BT_NONE, DP_RIGHT, SEQ_HOLD, 1⟩,
     ⟨BT_NONE, DP_NEUTRAL, SEQ_HOLD, 6⟩]]

/-- Function `release_box_sequence`. -/
def release_box_sequence (m : Machine) : Run Machine :=
  (call_select_number m).andThen fun q =>
    (Run.emit (repeat_events q.1 release_box) q.2).andThen temporary_control

/-- Function `fly_to_solaceon`. -/
def fly_to_solaceon : List Event :=
  [Event.send_button_sequence
    [⟨BT_X, DP_NEUTRAL, SEQ_HOLD, 1⟩,
     ⟨BT_NONE, DP_NEUTRAL, SEQ_HOLD, 25⟩,
     ⟨BT_P, DP_NEUTRAL, SEQ_HOLD, 1⟩]] ++
  repeat_events 100 [Event.send_update BT_NONE DP_NEUTRAL S_BOTRIGHT S_NEUTRAL] ++
  repeat_events 11 [Event.send_update BT_NONE DP_NEUTRAL S_TOP S_NEUTRAL] ++
  repeat_events 15 [Event.send_update BT_NONE DP_NEUTRAL S_LEFT S_NEUTRAL] ++
  [Event.send_update BT_NONE DP_NEUTRAL S_NEUTRAL S_NEUTRAL] ++
  [Event.send_button_sequence
    [⟨BT_A, DP_NEUTRAL, SEQ_HOLD, 1⟩,
     ⟨BT_NONE, DP_NEUTRAL, SEQ_HOLD, 25⟩,
     ⟨BT_A, DP_NEUTRAL, SEQ_HOLD, 1⟩,
     ⟨BT_NONE, DP_NEUTRAL, SEQ_HOLD, 180⟩]]

/-- One pass of the loop body of `move_in_circles`, for the counter `i`. -/
def move_in_circles_body (i : Nat) : List Event :=
  [Event.set_leds
    (match i % 4 with
     | 0 => NO_LEDS
     | 1 => TX_LED
     | 2 => BOTH_LEDS
     | _ => RX_LED),
   Event.send_update BT_NONE DP_NEUTRAL S_RIGHT S_NEUTRAL,
   Event.send_update BT_NONE DP_NEUTRAL S_TOPRIGHT S_NEUTRAL,
   Event.send_update BT_NONE DP_NEUTRAL S_TOP S_NEUTRAL,
   Event.send_update BT_NONE DP_NEUTRAL S_TOPLEFT S_NEUTRAL,
   Event.send_update BT_NONE DP_NEUTRAL S_LEFT S_NEUTRAL,
   Event.send_update BT_NONE DP_NEUTRAL S_BOTLEFT S_NEUTRAL,
   Event.send_update BT_NONE DP_NEUTRAL S_BOTTOM S_NEUTRAL,
   Event.send_update BT_NONE DP_NEUTRAL S_BOTRIGHT S_NEUTRAL]

/-- Function `move_in_circles`; `cycles` and the counter are `uint16_t`. -/
def move_in_circles (cycles : Nat) : List Event :=
  [Event.set_leds RX_LED] ++
  (List.range cycles).flatMap move_in_circles_body ++
  [Event.pause_automation]

/-- Function `hatch_eggs`. -/
def hatch_eggs (cycles : Nat) : List Event :=
  [Event.send_button_sequence
    [⟨BT_B, DP_LEFT, SEQ_HOLD, 24⟩,
     ⟨BT_B, DP_BOTTOM, SEQ_HOLD, 40⟩,
     ⟨BT_P, DP_NEUTRAL, SEQ_HOLD, 1⟩,
     ⟨BT_NONE, DP_NEUTRAL, SEQ_HOLD, 10⟩]] ++
  move_in_circles cycles ++
  repeat_events 135
    [Event.send_button_sequence
      [⟨BT_A, DP_NEUTRAL, SEQ_HOLD, 1⟩, ⟨BT_NONE, DP_NEUTRAL, SEQ_HOLD, 20⟩]] ++
  fly_to_solaceon

/-- A step of the cursor in `swap_eggs`. -/
def cursor_step (direction : DPad) : List Event :=
  [Event.send_button_sequence
    [⟨BT_NONE, direction, SEQ_HOLD, 1⟩, ⟨BT_NONE, DP_NEUTRAL, SEQ_HOLD, 6⟩]]

/-- The body of the loop `for (uint8_t k = 0; k < 5; ++k)` of `swap_eggs`. -/
def swap_eggs_body (column : Nat) (m : Machine) : Option (List Event) :=
  let bound : Int :=
    if m.CUR_COL < 3 then (column : Int) + 1 else (m.MAX_COL : Int) - (m.CUR_COL : Int) + 1
  match for_uint8 bound (cursor_step (if m.CUR_COL < 3 then DP_RIGHT else DP_LEFT)),
        for_uint8 bound (cursor_step (if m.CUR_COL < 3 then DP_LEFT else DP_RIGHT)) with
  | some there, some back =>
    some (there ++
      [Event.send_button_sequence
        [⟨BT_A, DP_NEUTRAL, SEQ_HOLD, 1⟩, ⟨BT_NONE, DP_NEUTRAL, SEQ_HOLD, 6⟩]] ++
      back ++
      [Event.send_button_sequence
        [⟨BT_NONE, DP_BOTTOM, SEQ_HOLD, 1⟩,
         ⟨BT_NONE, DP_NEUTRAL, SEQ_HOLD, 6⟩,
         ⟨BT_A, DP_NEUTRAL, SEQ_HOLD, 1⟩,
         ⟨BT_NONE, DP_NEUTRAL, SEQ_HOLD, 6⟩]])
  | _, _ => none

/-- The events of `swap_eggs` before its loop over `k`. -/
def swap_eggs_enter : List Event :=
  repeat_events 5
    [Event.send_button_sequence
      [⟨BT_A, DP_NEUTRAL, SEQ_HOLD, 1⟩, ⟨BT_NONE, DP_NEUTRAL, SEQ_HOLD, 25⟩]] ++
  [Event.send_button_sequence
    [⟨BT_NONE, DP_NEUTRAL, SEQ_HOLD, 10⟩,
     ⟨BT_Y, DP_NEUTRAL, SEQ_HOLD, 1⟩,
     ⟨BT_NONE, DP_NEUTRAL, SEQ_HOLD, 6⟩]] ++
  [Event.send_button_sequence
    [⟨BT_NONE, DP_LEFT, SEQ_HOLD, 1⟩, ⟨BT_NONE, DP_NEUTRAL, SEQ_HOLD, 6⟩]]

/-- The events of the last loop of `swap_eggs`, which leaves the PC menu. -/
def swap_eggs_leave : List Event :=
  repeat_events 5
    [Event.send_button_sequence
      [⟨BT_B, DP_NEUTRAL, SEQ_HOLD, 1⟩, ⟨BT_NONE, DP_NEUTRAL, SEQ_HOLD, 25⟩]]

/-- Function `swap_eggs`; `CUR_COL++` and `CUR_BOX++` are on `uint8_t`.  When a
cursor loop does not end, the run is cut after the events that precede the
loop over `k`. -/
def swap_eggs (column : Nat) (m : Machine) : Run Machine :=
  match swap_eggs_body column m with
  | none => { events := swap_eggs_enter, result := none }
  | some body =>
    let m1 := { m with CUR_COL := (m.CUR_COL + 1) % 256 }
    if m1.CUR_COL > m1.MAX_COL then
      Run.emit
        (swap_eggs_enter ++ repeat_events 5 body ++
          [Event.send_button_sequence
            [⟨BT_R, DP_NEUTRAL, SEQ_HOLD, 1⟩, ⟨BT_NONE, DP_NEUTRAL, SEQ_HOLD, 25⟩]] ++
          swap_eggs_leave)
        { m1 with CUR_COL := 0, CUR_BOX := (m1.CUR_BOX + 1) % 256 }
    else Run.emit (swap_eggs_enter ++ repeat_events 5 body ++ swap_eggs_leave) m1

/-- Function `leave_PC_at_PC`. -/
def leave_PC_at_PC : List Event :=
  [Event.send_button_sequence
    [⟨BT_B, DP_BOTTOM, SEQ_HOLD, 10⟩,
     ⟨BT_B, DP_LEFT, SEQ_HOLD, 14⟩,
     ⟨BT_B, DP_BOTTOM, SEQ_HOLD, 80⟩,
     ⟨BT_NONE, DP_NEUTRAL, SEQ_HOLD, 70⟩]]

/-- Function `go_to_PC_at_PC`. -/
def go_to_PC_at_PC : List Event :=
  [Event.send_button_sequence
    [⟨BT_B, DP_TOP, SEQ_HOLD, 130⟩,
     ⟨BT_B, DP_RIGHT, SEQ_HOLD, 14⟩,
     ⟨BT_B, DP_TOP, SEQ_HOLD, 10⟩,
     ⟨BT_NONE, DP_NEUTRAL, SEQ_HOLD, 4⟩]]

/-- The table `uint16_t egg_cycles[]` of `hatch_eggs_sequence`. -/
def egg_cycles : List Nat := [180, 0, 0, 590, 0, 800, 0, 0]

/-- The value of `sizeof(egg_cycles)`: 8 entries of 2 bytes. -/
def sizeof_egg_cycles : Nat := egg_cycles.length * 2

/-- The read `egg_cycles[i]`. -/
def read_egg_cycles (m : Machine) (i : Nat) : Nat :=
  match egg_cycles[i]? with
  | some v => v
  | none => m.stray i

/-- The loop `while (num_egg_cycles > sizeof(egg_cycles))
num_egg_cycles = select_number();` of `hatch_eggs_sequence`; `budget` bounds
the number of iterations of the model. -/
def select_egg_cycles : Nat → Nat → Machine → Run (Nat × Machine)
  | 0, num_egg_cycles, m =>
    if num_egg_cycles > sizeof_egg_cycles then { events := [], result := none }
    else Run.emit [] (num_egg_cycles, m)
  | budget + 1, num_egg_cycles, m =>
    if num_egg_cycles > sizeof_egg_cycles then
      (call_select_number m).andThen fun q => select_egg_cycles budget q.1 q.2
    else Run.emit [] (num_egg_cycles, m)

/-- The loop `while (CUR_BOX < MAX_BOX)` of `hatch_eggs_sequence`; `budget`
bounds the number of iterations of the model. -/
def hatch_loop (num_egg_cycles : Nat) : Nat → Machine → Run Machine
  | 0, m => if m.CUR_BOX < m.MAX_BOX then { events := [], result := none } else Run.emit [] m
  | budget + 1, m =>
    if m.CUR_BOX < m.MAX_BOX then
      (Run.emit go_to_PC_at_PC m).andThen fun m1 =>
        (swap_eggs m1.CUR_COL m1).andThen fun m2 =>
          (Run.emit (leave_PC_at_PC ++ hatch_eggs (read_egg_cycles m2 num_egg_cycles))
            m2).andThen fun m3 =>
              hatch_loop num_egg_cycles budget m3
    else Run.emit [] m

/-- Function `hatch_eggs_sequence`; `num_egg_cycles` starts at
`(uint8_t) -1 = 255`. -/
def hatch_eggs_sequence (budget : Nat) (m : Machine) : Run Machine :=
  (call_select_number m).andThen fun q =>
    (select_egg_cycles budget 255 { q.2 with MAX_BOX := q.1 }).andThen fun s =>
      (Run.emit fly_to_solaceon { s.2 with CUR_BOX := 0, CUR_COL := 0, MAX_COL := 5 }).andThen
        fun m1 => (hatch_loop s.1 budget m1).andThen temporary_control

/-- Function `move_to_daycare_man`. -/
def move_to_daycare_man : List Event :=
  [Event.send_button_sequence
    [⟨BT_B, DP_LEFT, SEQ_HOLD, 33⟩,
     ⟨BT_B, DP_TOP, SEQ_HOLD, 26⟩,
     ⟨BT_B, DP_LEFT, SEQ_HOLD, 32⟩,
     ⟨BT_B, DP_BOTTOM, SEQ_HOLD, 10⟩,
     ⟨BT_B, DP_TOP, SEQ_HOLD, 6⟩,
     ⟨BT_B, DP_RIGHT, SEQ_HOLD, 10⟩,
     ⟨BT_NONE, DP_NEUTRAL, SEQ_HOLD, 4⟩]]

/-- Function `get_egg`. -/
def get_egg : List Event :=
  repeat_events 8
    [Event.send_button_sequence
      [⟨BT_A, DP_NEUTRAL, SEQ_HOLD, 1⟩, ⟨BT_NONE, DP_NEUTRAL, SEQ_HOLD, 20⟩]] ++
  repeat_events 6
    [Event.send_button_sequence
      [⟨BT_B, DP_NEUTRAL, SEQ_HOLD, 1⟩, ⟨BT_NONE, DP_NEUTRAL, SEQ_HOLD, 20⟩]]

/-- Function `wait_for_another_egg`. -/
def wait_for_another_egg : List Event :=
  [Event.send_button_sequence
    [⟨BT_B, DP_LEFT, SEQ_HOLD, 6⟩,
     ⟨BT_P, DP_NEUTRAL, SEQ_HOLD, 1⟩,
     ⟨BT_NONE, DP_NEUTRAL, SEQ_HOLD, 4⟩]] ++
  move_in_circles 50 ++
  [Event.send_button_sequence
    [⟨BT_P, DP_NEUTRAL, SEQ_HOLD, 1⟩,
     ⟨BT_NONE, DP_NEUTRAL, SEQ_HOLD, 4⟩,
     ⟨BT_B, DP_LEFT, SEQ_HOLD, 15⟩,
     ⟨BT_B, DP_BOTTOM, SEQ_HOLD, 10⟩,
     ⟨BT_B, DP_TOP, SEQ_HOLD, 6⟩,
     ⟨BT_B, DP_RIGHT, SEQ_HOLD, 10⟩,
     ⟨BT_NONE, DP_NEUTRAL, SEQ_HOLD, 4⟩]]

/-- Function `farm_eggs_sequence`; `cycles = select_number() * 30`. -/
def farm_eggs_sequence (m : Machine) : Run Machine :=
  (call_select_number m).andThen fun q =>
    (Run.emit
      ((List.range (q.1 * 30)).flatMap fun i =>
        (if i % 10 = 0 then fly_to_solaceon ++ move_to_daycare_man else []) ++
        get_egg ++ wait_for_another_egg)
      q.2).andThen temporary_control

/-- Function `init_interrupts`, as far as `PORTB` goes: the pull-ups of the
two button pins are enabled. -/
def init_interrupts (m : Machine) : Machine :=
  { m with PORTB := (m.PORTB ||| (PORTB_BUTTON_0 ||| PORTB_BUTTON_1)) % 256 }

/-- The loop `while (1)` of `main`, cut after `iterations` passes. -/
def main_loop (budget : Nat) : Nat → Machine → Run Machine
  | 0, _ => { events := [], result := none }
  | iterations + 1, m =>
    (Run.emit [Event.set_leds BOTH_LEDS, Event.pause_automation] m).andThen fun m1 =>
      (call_select_number m1).andThen fun q =>
        (match q.1 with
         | 0 => farm_eggs_sequence q.2
         | 1 => hatch_eggs_sequence budget q.2
         | 2 => release_box_sequence q.2
         | _ => call_delay 100 200 1500 q.2).andThen fun m2 =>
          main_loop budget iterations m2

/-- Function `main`, its endless loop cut after `iterations` passes. -/
def main (budget iterations : Nat) (m : Machine) : Run Machine :=
  (Run.emit [Event.init_automation, Event.beep 2] (init_interrupts m)).andThen fun m1 =>
    (call_select_number m1).andThen fun q =>
      (if q.1 > 0 then
        (Run.emit [Event.switch_controller VIRT_TO_REAL] q.2).andThen call_wait_for_confirm
       else Run.emit [] q.2).andThen fun m2 =>
        (Run.emit
          [Event.switch_controller REAL_TO_VIRT, Event.set_leds BOTH_LEDS,
           Event.pause_automation] m2).andThen fun m3 =>
          main_loop budget iterations m3

/-- The fixed table of stick directions of a circle, in the spec's order. -/
def circle_table : List Stick :=
  [S_RIGHT, S_TOPRIGHT, S_TOP, S_TOPLEFT, S_LEFT, S_BOTLEFT, S_BOTTOM, S_BOTRIGHT]

/-- The event is a `send_update`. -/
def Event.is_send_update : Event → Bool
  | Event.send_update _ _ _ _ => true
  | _ => false

/-- The event is a controller frame (group): `SEND_BUTTON_SEQUENCE`,
`send_update` or `pause_automation`. -/
def Event.is_frame : Event → Bool
  | Event.send_update _ _ _ _ => true
  | Event.send_button_sequence _ => true
  | Event.pause_automation => true
  | _ => false

/-- A machine on which the operator releases the accumulator button ten times
and then the confirm button. -/
def ten_then_confirm : Machine :=
  { wakes :=
      ((List.replicate 10 [0xEF, 0xFF]).flatten ++ [0xF7, 0xFF]).map Wake.pin_change
    pins := PinState.boot
    PINB := []
    PORTB := 0
    CUR_BOX := 0
    MAX_BOX := 0
    CUR_COL := 0
    MAX_COL := 0
    stray := fun _ => 0 }

/-! ## Ownership of the console along a trace of events -/

/-- Who drives the console: the automation, or the human after a
`switch_controller(VIRT_TO_REAL)`, before or after a completed
`wait_for_confirm`. -/
inductive Owner where
  | automation
  | human_waiting
  | human_confirmed
deriving DecidableEq, Repr

/-- The event is a call of `switch_controller`. -/
def Event.is_switch : Event → Bool
  | Event.switch_controller _ => true
  | _ => false

/-- One step of the hand-over protocol; `none` when the event breaks it: a
frame emitted while the human owns the console, or a
`switch_controller(REAL_TO_VIRT)` before `wait_for_confirm` has completed. -/
def handoff_step (o : Owner) (e : Event) : Option Owner :=
  match e with
  | Event.switch_controller VIRT_TO_REAL => some Owner.human_waiting
  | Event.switch_controller REAL_TO_VIRT =>
    match o with
    | Owner.human_waiting => none
    | _ => some Owner.automation
  | Event.wait_for_confirm =>
    match o with
    | Owner.human_waiting => some Owner.human_confirmed
    | _ => some o
  | _ =>
    if e.is_frame then
      match o with
      | Owner.automation => some Owner.automation
      | _ => none
    else some o

/-- The hand-over protocol along a trace. -/
def handoff : Owner → List Event → Option Owner
  | o, [] => some o
  | o, e :: rest =>
    match handoff_step o e with
    | none => none
    | some o1 => handoff o1 rest

/-- A list of events without any call of `switch_controller`. -/
def Quiet (es : List Event) : Prop := ∀ e ∈ es, e.is_switch = false

/-- The events of the run follow the hand-over protocol from the owner `o`,
and when the run returns the owner is `o1`. -/
def Run.Leads {α : Type} (o : Owner) (r : Run α) (o1 : Owner) : Prop :=
  ∃ o2, handoff o r.events = some o2 ∧ (r.result.isSome = true → o2 = o1)

/-- Chronological runs `(value, length)` of a tick log stored newest first. -/
def led_runs : List Nat → List (Nat × Nat) → List (Nat × Nat)
  | [], acc => acc
  | x :: rest, [] => led_runs rest [(x, 1)]
  | x :: rest, (y, n) :: tl =>
    if x = y then led_runs rest ((y, n + 1) :: tl) else led_runs rest ((x, 1) :: (y, n) :: tl)

/-- A machine on which the operator selects 1 at start-up, confirms, selects
the program 2 and 0 boxes, and confirms again. -/
def menu_session : Machine :=
  { wakes :=
      [0xEF, 0xFF, 0xF7, 0xFF, 0xF7, 0xFF, 0xEF, 0xFF, 0xEF, 0xFF, 0xF7, 0xFF, 0xF7, 0xFF,
        0xF7, 0xFF].map Wake.pin_change
    pins := PinState.boot
    PINB := []
    PORTB := 0
    CUR_BOX := 0
    MAX_BOX := 0
    CUR_COL := 0
    MAX_COL := 0
    stray := fun _ => 0 }

/-! ## The calls of `swap_eggs` in the loop of `hatch_eggs_sequence` -/

/-- The machine at the entry of the loop `while (CUR_BOX < MAX_BOX)` of
`hatch_eggs_sequence`, after `CUR_BOX = 0; CUR_COL = 0; MAX_COL = 5;`, when
`MAX_BOX` holds `n`. -/
def hatch_entry (n : Nat) (m : Machine) : Machine :=
  { m with CUR_BOX := 0, CUR_COL := 0, MAX_COL := 5, MAX_BOX := n }

/-- The calls `swap_eggs(CUR_COL)` made by the loop `while (CUR_BOX < MAX_BOX)`
of `hatch_eggs_sequence`, in order: the machine at each call.  The loop is the
one of `hatch_loop`; its other calls leave the machine as it is. -/
def hatch_loop_calls : Nat → Machine → List Machine
  | 0, _ => []
  | budget + 1, m =>
    if m.CUR_BOX < m.MAX_BOX then
      match (swap_eggs m.CUR_COL m).result with
      | none => [m]
      | some m2 => m :: hatch_loop_calls budget m2
    else []

/-- The events of the iteration of the loop `while (CUR_BOX < MAX_BOX)` that
calls `swap_eggs` on the machine `m`. -/
def hatch_iteration (num_egg_cycles : Nat) (m : Machine) : List Event :=
  go_to_PC_at_PC ++ (swap_eggs m.CUR_COL m).events ++
    match (swap_eggs m.CUR_COL m).result with
    | none => []
    | some m2 => leave_PC_at_PC ++ hatch_eggs (read_egg_cycles m2 num_egg_cycles)

/-- The machine at the head of the loop after `k` calls of `swap_eggs`. -/
def after_calls (n : Nat) (m : Machine) (k : Nat) : Machine :=
  { m with CUR_BOX := k / 6, CUR_COL := k % 6, MAX_COL := 5, MAX_BOX := n }

/-! ## Presses confirmed, as a natural number -/

/-- The number of presses the tracker confirms along a trace, counted as a
natural number: the ticks at which `track_button` reads the button inactive
while `hold_time` exceeds the threshold, that is the ticks at which it runs
`info->count += 1`. -/
def presses_confirmed : List Nat → button_info → Nat
  | [], _ => 0
  | p :: rest, info =>
    (if button_held p = false ∧ info.hold_time > BUTTON_HOLD_TIME_MS then 1 else 0) +
      presses_confirmed rest (track_button p info)

/-- A trace of 257 presses of 21 ticks, each released for one tick, then 500
reads released. -/
def presses257 : List Nat :=
  (List.replicate 257 (List.replicate 21 ACTIVE ++ [INACTIVE])).flatten ++
    List.replicate 500 INACTIVE

/-! ## The polling reads with interrupts enabled -/

/-- The handler `PCINT0_vect` served once for each of the values `pinbs` read
from `PINB`, in order. -/
def handler_runs (pinbs : List Nat) (st : PinState) : PinState :=
  pinbs.foldl (fun s v => PCINT0_vect v s) st

/-- The volatile reads of one evaluation of the condition
`changedbits & mask && portbhistory & mask` of `wait_for_confirm` and
`select_number`, which run with interrupts enabled: `changedbits` is read
first; when `changedbits & mask` is non-zero `portbhistory` is read, after the
handler was served for the pin changes `between`.  The result is the pair of
the values read. -/
def polled_reads (mask : Nat) (between : List Nat) (st : PinState) : Nat × Option Nat :=
  let c := st.changedbits
  if c &&& mask = 0 then (c, none) else (c, some (handler_runs between st).portbhistory)

/-- The value of the condition `changedbits & mask && portbhistory & mask` on
the values read by `polled_reads`. -/
def polled_condition (mask : Nat) (between : List Nat) (st : PinState) : Bool :=
  match (polled_reads mask between st).2 with
  | none => false
  | some h => h &&& mask != 0

/-! ## Basic facts -/

theorem button_held_ACTIVE : button_held ACTIVE = true := by decide

theorem button_held_INACTIVE : button_held INACTIVE = false := by decide

theorem led_on_lt (p : Nat) : led_on p < 256 := by
  unfold led_on
  exact Nat.mod_lt _ (by decide)

theorem led_off_lt (p : Nat) : led_off p < 256 := by
  unfold led_off PORTB_LED
  have h : p &&& (255 - 1 <<< 5) < 2 ^ 8 := Nat.and_lt_two_pow p (by decide)
  simpa using h

theorem testBit_223 (i : Nat) (hi : i < 8) : Nat.testBit 223 i = decide (i ≠ 5) := by
  interval_cases i <;> decide

theorem led_off_testBit_5 (p : Nat) : (led_off p).testBit 5 = false := by
  unfold led_off PORTB_LED
  rw [Nat.testBit_and]
  have : Nat.testBit (255 - 1 <<< 5) 5 = false := by decide
  rw [this, Bool.and_false]

theorem led_off_same (p : Nat) (hp : p < 256) : SameOtherBits p (led_off p) := by
  intro i hi
  unfold led_off PORTB_LED
  rw [Nat.testBit_and]
  by_cases h8 : i < 8
  · have h := testBit_223 i h8
    have e : (255 - 1 <<< 5) = 223 := by decide
    rw [e, h]
    simp [hi]
  · have hlt : p < 2 ^ i :=
      lt_of_lt_of_le hp (by
        have : (2 : Nat) ^ 8 ≤ 2 ^ i := Nat.pow_le_pow_right (by decide) (by omega)
        simpa using this)
    rw [Nat.testBit_lt_two_pow hlt, Bool.false_and]

theorem led_on_same (p : Nat) (hp : p < 256) : SameOtherBits p (led_on p) := by
  intro i hi
  unfold led_on PORTB_LED
  have hlt : p ||| 1 <<< 5 < 2 ^ 8 := Nat.or_lt_two_pow (by simpa using hp) (by decide)
  rw [Nat.mod_eq_of_lt (by simpa using hlt), Nat.testBit_or]
  have e : (1 <<< 5 : Nat) = 2 ^ 5 := by decide
  rw [e, Nat.testBit_two_pow_of_ne (Ne.symm hi), Bool.or_false]

theorem SameOtherBits.refl (p : Nat) : SameOtherBits p p := fun _ _ => rfl

theorem SameOtherBits.trans {p q r : Nat} (h1 : SameOtherBits p q) (h2 : SameOtherBits q r) :
    SameOtherBits p r := fun i hi => (h2 i hi).trans (h1 i hi)

/-! ## The tracker over a trace -/

theorem track_all_append (a b : List Nat) (info : button_info) :
    track_all (a ++ b) info = track_all b (track_all a info) := by
  induction a generalizing info with
  | nil => rfl
  | cons p a ih => simp [track_all, ih]

theorem track_all_snoc (a : List Nat) (p : Nat) (info : button_info) :
    track_all (a ++ [p]) info = track_button p (track_all a info) := by
  rw [track_all_append]; rfl

theorem track_button_held (p : Nat) (info : button_info) (hp : button_held p = true) :
    track_button p info = { hold_time := (info.hold_time + 1) % 256, count := info.count } := by
  simp [track_button, hp]

theorem track_button_released (p : Nat) (info : button_info) (hp : button_held p = false) :
    track_button p info =
      { hold_time := 0
        count := if info.hold_time > 20 then (info.count + 1) % 256 else info.count } := by
  simp [track_button, hp, BUTTON_HOLD_TIME_MS]

theorem track_all_held (seg : List Nat) (h c : Nat) (hh : h < 256)
    (hs : ∀ x ∈ seg, button_held x = true) :
    track_all seg ⟨h, c⟩ = ⟨(h + seg.length) % 256, c⟩ := by
  induction seg generalizing h with
  | nil => simp [track_all, Nat.mod_eq_of_lt hh]
  | cons p seg ih =>
    have hp : button_held p = true := hs p (List.mem_cons_self _ _)
    have hs1 : ∀ x ∈ seg, button_held x = true := fun x hx => hs x (List.mem_cons_of_mem _ hx)
    simp only [track_all, track_button_held p _ hp]
    rw [ih ((h + 1) % 256) (Nat.mod_lt _ (by decide)) hs1]
    simp only [List.length_cons]
    congr 1
    omega

theorem track_all_released (seg : List Nat) (c : Nat)
    (hs : ∀ x ∈ seg, button_held x = false) :
    track_all seg ⟨0, c⟩ = ⟨0, c⟩ := by
  induction seg with
  | nil => rfl
  | cons p seg ih =>
    have hp : button_held p = false := hs p (List.mem_cons_self _ _)
    have hs1 : ∀ x ∈ seg, button_held x = false := fun x hx => hs x (List.mem_cons_of_mem _ hx)
    simp only [track_all, track_button_released p _ hp]
    simpa using ih hs1

/-! ## The wait for the release -/

theorem wait_release_some (pins rest : List Nat) (h : wait_release pins = some rest) :
    ∃ pre x, pins = pre ++ x :: rest ∧ (∀ y ∈ pre, button_held y = true) ∧
      button_held x = false := by
  induction pins with
  | nil => simp [wait_release] at h
  | cons p pins ih =>
    unfold wait_release at h
    by_cases hp : button_held p = true
    · rw [if_pos hp] at h
      obtain ⟨pre, x, e, hpre, hx⟩ := ih h
      refine ⟨p :: pre, x, by simp [e], ?_, hx⟩
      intro y hy
      rcases List.mem_cons.mp hy with rfl | hy
      · exact hp
      · exact hpre y hy
    · rw [if_neg hp] at h
      refine ⟨[], p, by simpa using h, by simp, by simpa using hp⟩

theorem wait_release_total (pins : List Nat) (h : ∃ x ∈ pins, button_held x = false) :
    ∃ rest, wait_release pins = some rest := by
  induction pins with
  | nil => simp at h
  | cons p pins ih =>
    unfold wait_release
    by_cases hp : button_held p = true
    · rw [if_pos hp]
      apply ih
      obtain ⟨x, hx, hx2⟩ := h
      rcases List.mem_cons.mp hx with rfl | hx
      · rw [hp] at hx2; cases hx2
      · exact ⟨x, hx, hx2⟩
    · rw [if_neg hp]; exact ⟨pins, rfl⟩

theorem wait_release_released (z : Nat) (rest : List Nat) (hz : button_held z = false) :
    wait_release (z :: rest) = some rest := by
  simp [wait_release, hz]

theorem get_tracked_presses_some (info : button_info) (pins : List Nat) (c : Nat)
    (rest : List Nat) (h : get_tracked_presses info pins = some (c, rest)) :
    wait_release pins = some rest ∧
      c = if info.hold_time > 20 then (info.count + 1) % 256 else info.count := by
  unfold get_tracked_presses at h
  cases hw : wait_release pins with
  | none => simp [hw] at h
  | some r =>
    simp only [hw, Option.some.injEq, Prod.mk.injEq, BUTTON_HOLD_TIME_MS] at h
    exact ⟨by rw [h.2], h.1.symm⟩

theorem get_tracked_presses_of_release (info : button_info) (pins rest : List Nat)
    (h : wait_release pins = some rest) :
    get_tracked_presses info pins =
      some (if info.hold_time > 20 then (info.count + 1) % 256 else info.count, rest) := by
  simp [get_tracked_presses, h, BUTTON_HOLD_TIME_MS]

/-! ## One loop body -/

theorem led_cycle_info (a b : Nat) (s : LoopState) : (led_cycle a b s).info = s.info := by
  unfold led_cycle; split_ifs <;> rfl

theorem led_cycle_log (a b : Nat) (s : LoopState) : (led_cycle a b s).log = s.log := by
  unfold led_cycle; split_ifs <;> rfl

theorem led_cycle_lt (a b : Nat) (s : LoopState) (h : s.PORTB < 256) :
    (led_cycle a b s).PORTB < 256 := by
  unfold led_cycle
  split_ifs
  · exact led_on_lt _
  · exact led_off_lt _
  · exact h
  · exact h

theorem led_cycle_same (a b : Nat) (s : LoopState) (h : s.PORTB < 256) :
    SameOtherBits s.PORTB (led_cycle a b s).PORTB := by
  unfold led_cycle
  split_ifs
  · exact led_on_same _ h
  · exact led_off_same _ h
  · exact SameOtherBits.refl _
  · exact SameOtherBits.refl _

theorem body_info (a b p : Nat) (s : LoopState) :
    (next_pos (tick p (led_cycle a b s))).info = track_button p s.info := by
  simp [next_pos, tick, led_cycle_info]

theorem body_log (a b p : Nat) (s : LoopState) :
    (next_pos (tick p (led_cycle a b s))).log.length = s.log.length + 1 := by
  simp [next_pos, tick, led_cycle_log]

theorem body_lt (a b p : Nat) (s : LoopState) (h : s.PORTB < 256) :
    (next_pos (tick p (led_cycle a b s))).PORTB < 256 := by
  simpa [next_pos, tick] using led_cycle_lt a b s h

theorem body_same (a b p : Nat) (s : LoopState) (h : s.PORTB < 256) :
    SameOtherBits s.PORTB (next_pos (tick p (led_cycle a b s))).PORTB := by
  simpa [next_pos, tick] using led_cycle_same a b s h

/-! ## The loop of `delay` -/

theorem delay_loop_total (a b : Nat) (D : Nat) (pins : List Nat) (s : LoopState)
    (hlen : D ≤ pins.length) :
    ∃ s1, delay_loop a b D pins s = some (s1, pins.drop D) ∧
      s1.info = track_all (pins.take D) s.info ∧ s1.log.length = s.log.length + D := by
  induction D generalizing pins s with
  | zero => exact ⟨s, by simp [delay_loop], by simp [track_all], by simp⟩
  | succ D ih =>
    cases pins with
    | nil => simp at hlen
    | cons p rest =>
      have hlen1 : D ≤ rest.length := by simpa using hlen
      by_cases ha : a ≠ 0
      · obtain ⟨s1, e, hi, hl⟩ := ih rest (next_pos (tick p (led_cycle a b s))) hlen1
        refine ⟨s1, ?_, ?_, ?_⟩
        · simp only [delay_loop, if_pos ha, List.drop_succ_cons]; exact e
        · rw [hi, body_info]; simp [track_all]
        · rw [hl, body_log]; omega
      · obtain ⟨s1, e, hi, hl⟩ := ih rest (next_pos (tick p s)) hlen1
        refine ⟨s1, ?_, ?_, ?_⟩
        · simp only [delay_loop, if_neg ha, List.drop_succ_cons]; exact e
        · rw [hi]; simp [track_all, next_pos, tick]
        · rw [hl]; simp [next_pos, tick]; omega

theorem delay_loop_shape (a b : Nat) (D : Nat) (pins : List Nat) (s s1 : LoopState)
    (rest : List Nat) (h : delay_loop a b D pins s = some (s1, rest)) :
    D ≤ pins.length ∧ rest = pins.drop D ∧ s1.info = track_all (pins.take D) s.info ∧
      s1.log.length = s.log.length + D := by
  by_cases hlen : D ≤ pins.length
  · obtain ⟨s2, e, hi, hl⟩ := delay_loop_total a b D pins s hlen
    rw [e] at h
    simp only [Option.some.injEq, Prod.mk.injEq] at h
    obtain ⟨rfl, rfl⟩ := h
    exact ⟨hlen, rfl, hi, hl⟩
  · exfalso
    induction D generalizing pins s with
    | zero => exact hlen (Nat.zero_le _)
    | succ D ih =>
      cases pins with
      | nil => simp [delay_loop] at h
      | cons p rest1 =>
        simp only [delay_loop] at h
        exact ih _ _ h (by simpa using hlen)

theorem delay_loop_frame (a b : Nat) (D : Nat) (pins : List Nat) (s s1 : LoopState)
    (rest : List Nat) (h : delay_loop a b D pins s = some (s1, rest)) (hp : s.PORTB < 256) :
    s1.PORTB < 256 ∧ SameOtherBits s.PORTB s1.PORTB := by
  induction D generalizing pins s with
  | zero =>
    simp only [delay_loop, Option.some.injEq, Prod.mk.injEq] at h
    obtain ⟨rfl, -⟩ := h
    exact ⟨hp, SameOtherBits.refl _⟩
  | succ D ih =>
    cases pins with
    | nil => simp [delay_loop] at h
    | cons p rest1 =>
      simp only [delay_loop] at h
      by_cases ha : a ≠ 0
      · rw [if_pos ha] at h
        obtain ⟨h1, h2⟩ := ih _ _ h (body_lt a b p s hp)
        exact ⟨h1, (body_same a b p s hp).trans h2⟩
      · rw [if_neg ha] at h
        obtain ⟨h1, h2⟩ := ih rest1 (next_pos (tick p s)) h (by simpa [next_pos, tick] using hp)
        exact ⟨h1, by simpa [next_pos, tick] using h2⟩

/-! ## The loop of `wait_for_button_timeout` -/

theorem wait_loop_shape (a b : Nat) (T : Nat) (pins : List Nat) (s s1 : LoopState)
    (rest : List Nat) (h : wait_for_button_timeout_loop a b T pins s = some (s1, rest)) :
    ∃ k, k ≤ T ∧ k ≤ pins.length ∧ rest = pins.drop k ∧
      s1.info = track_all (pins.take k) s.info ∧ s1.log.length = s.log.length + k ∧
      (∀ j, 0 < j → j < k → (track_all (pins.take j) s.info).count = 0) ∧
      (k = T ∨ (0 < k ∧ s1.info.count ≠ 0)) := by
  induction T generalizing pins s with
  | zero =>
    simp only [wait_for_button_timeout_loop, Option.some.injEq, Prod.mk.injEq] at h
    obtain ⟨rfl, rfl⟩ := h
    exact ⟨0, le_refl _, Nat.zero_le _, by simp, by simp [track_all], by simp,
      fun j h1 h2 => absurd h2 (by omega), Or.inl rfl⟩
  | succ T ih =>
    cases pins with
    | nil => simp [wait_for_button_timeout_loop] at h
    | cons p rest1 =>
      simp only [wait_for_button_timeout_loop] at h
      by_cases hc : (tick p (led_cycle a b s)).info.count ≠ 0
      · rw [if_pos hc] at h
        simp only [Option.some.injEq, Prod.mk.injEq] at h
        obtain ⟨rfl, rfl⟩ := h
        refine ⟨1, by omega, by simp, by simp, ?_, ?_, fun j h1 h2 => absurd h2 (by omega),
          Or.inr ⟨by omega, hc⟩⟩
        · simp [tick, led_cycle_info, track_all]
        · simp [tick, led_cycle_log]
      · rw [if_neg hc] at h
        obtain ⟨k, hk1, hk2, hr, hi, hl, hz, hend⟩ := ih _ _ h
        have hc0 : (track_button p s.info).count = 0 := by
          simpa [tick, led_cycle_info] using hc
        refine ⟨k + 1, by omega, by simpa using hk2, by simpa using hr, ?_, ?_, ?_, ?_⟩
        · rw [hi, body_info]; simp [track_all]
        · rw [hl, body_log]; omega
        · intro j hj1 hj2
          cases j with
          | zero => omega
          | succ j =>
            simp only [List.take_succ_cons, track_all]
            by_cases hj0 : j = 0
            · subst hj0; simpa [track_all] using hc0
            · have := hz j (by omega) (by omega)
              rwa [body_info] at this
        · rcases hend with rfl | ⟨_, hne⟩
          · exact Or.inl rfl
          · exact Or.inr ⟨by omega, hne⟩

theorem wait_loop_frame (a b : Nat) (T : Nat) (pins : List Nat) (s s1 : LoopState)
    (rest : List Nat) (h : wait_for_button_timeout_loop a b T pins s = some (s1, rest))
    (hp : s.PORTB < 256) : s1.PORTB < 256 ∧ SameOtherBits s.PORTB s1.PORTB := by
  induction T generalizing pins s with
  | zero =>
    simp only [wait_for_button_timeout_loop, Option.some.injEq, Prod.mk.injEq] at h
    obtain ⟨rfl, -⟩ := h
    exact ⟨hp, SameOtherBits.refl _⟩
  | succ T ih =>
    cases pins with
    | nil => simp [wait_for_button_timeout_loop] at h
    | cons p rest1 =>
      simp only [wait_for_button_timeout_loop] at h
      by_cases hc : (tick p (led_cycle a b s)).info.count ≠ 0
      · rw [if_pos hc] at h
        simp only [Option.some.injEq, Prod.mk.injEq] at h
        obtain ⟨rfl, -⟩ := h
        exact ⟨by simpa [tick] using led_cycle_lt a b s hp,
          by simpa [tick] using led_cycle_same a b s hp⟩
      · rw [if_neg hc] at h
        obtain ⟨h1, h2⟩ := ih _ _ h (body_lt a b p s hp)
        exact ⟨h1, (body_same a b p s hp).trans h2⟩

theorem wait_loop_total (a b : Nat) (T : Nat) (pins : List Nat) (s : LoopState)
    (h : T ≤ pins.length ∨
      ∃ j, 0 < j ∧ j ≤ pins.length ∧ (track_all (pins.take j) s.info).count ≠ 0) :
    ∃ r, wait_for_button_timeout_loop a b T pins s = some r := by
  induction T generalizing pins s with
  | zero => exact ⟨(s, pins), by simp [wait_for_button_timeout_loop]⟩
  | succ T ih =>
    cases pins with
    | nil =>
      rcases h with h | ⟨j, h1, h2, -⟩
      · simp at h
      · simp at h2; omega
    | cons p rest1 =>
      simp only [wait_for_button_timeout_loop]
      by_cases hc : (tick p (led_cycle a b s)).info.count ≠ 0
      · rw [if_pos hc]; exact ⟨_, rfl⟩
      · rw [if_neg hc]
        have hc0 : (track_button p s.info).count = 0 := by
          simpa [tick, led_cycle_info] using hc
        apply ih
        rcases h with h | ⟨j, h1, h2, h3⟩
        · exact Or.inl (by simpa using h)
        · right
          cases j with
          | zero => omega
          | succ j =>
            by_cases hj0 : j = 0
            · subst hj0; simp [track_all] at h3; exact absurd hc0 h3
            · refine ⟨j, by omega, by simpa using h2, ?_⟩
              rw [body_info]
              simpa [track_all] using h3

/-! ## Traces without a long hold -/

theorem NoLongHold.take {l : List Nat} (h : NoLongHold l) (j : Nat) : NoLongHold (l.take j) := by
  intro pre H post e hH
  apply h pre H (post ++ l.drop j) _ hH
  rw [← List.append_assoc, ← e, List.take_append_drop]

theorem NoLongHold.track {l : List Nat} (h : NoLongHold l) :
    (track_all l zero_info).count = 0 ∧ (track_all l zero_info).hold_time ≤ 20 := by
  have key : ∀ l : List Nat, NoLongHold l →
      ∃ pre H, l = pre ++ H ∧ (∀ x ∈ H, button_held x = true) ∧
        track_all l zero_info = ⟨H.length, 0⟩ := by
    intro l
    induction l using List.reverseRecOn with
    | nil => intro _; exact ⟨[], [], rfl, by simp, rfl⟩
    | append_singleton l p ih =>
      intro hl
      have hl1 : NoLongHold l := by simpa using hl.take l.length
      obtain ⟨pre, H, e, hH, ht⟩ := ih hl1
      have hlen : H.length ≤ 20 := hl1 pre H [] (by simpa using e) hH
      rw [track_all_snoc, ht]
      by_cases hp : button_held p = true
      · have hH1 : ∀ x ∈ H ++ [p], button_held x = true := by
          intro x hx
          rcases List.mem_append.mp hx with hx | hx
          · exact hH x hx
          · rw [List.mem_singleton.mp hx]; exact hp
        have hlen1 : (H ++ [p]).length ≤ 20 :=
          hl pre (H ++ [p]) [] (by simp [e]) hH1
        refine ⟨pre, H ++ [p], by simp [e], hH1, ?_⟩
        rw [track_button_held p _ hp]
        simp only [List.length_append, List.length_singleton] at hlen1 ⊢
        rw [Nat.mod_eq_of_lt (by omega)]
      · have hp0 : button_held p = false := by simpa using hp
        refine ⟨l ++ [p], [], by simp, by simp, ?_⟩
        rw [track_button_released p _ hp0]
        simp only [List.length_nil]
        rw [if_neg (by omega)]
  obtain ⟨pre, H, e, hH, ht⟩ := key l h
  have hlen : H.length ≤ 20 := h pre H [] (by simpa using e) hH
  rw [ht]
  exact ⟨rfl, hlen⟩

/-! ## Unfolding the three primitives -/

theorem wait_for_button_timeout_eq (a o T portb : Nat) (pins : List Nat) (s1 : LoopState)
    (rest rest1 : List Nat)
    (hl : wait_for_button_timeout_loop a ((a + o) % 65536) T pins (init_state portb)
      = some (s1, rest))
    (hw : wait_release rest = some rest1) :
    wait_for_button_timeout a o T portb pins =
      some { ret := decide (flushed s1.info > 0), PORTB := led_off s1.PORTB, PINB := rest1,
             log := s1.log } := by
  simp [wait_for_button_timeout, hl, get_tracked_presses, hw, flushed]

theorem wait_for_button_timeout_inv (a o T portb : Nat) (pins : List Nat) (r : Outcome Bool)
    (h : wait_for_button_timeout a o T portb pins = some r) :
    ∃ s1 rest, wait_for_button_timeout_loop a ((a + o) % 65536) T pins (init_state portb)
        = some (s1, rest) ∧ wait_release rest = some r.PINB ∧
      r.ret = decide (flushed s1.info > 0) ∧ r.PORTB = led_off s1.PORTB ∧ r.log = s1.log := by
  unfold wait_for_button_timeout at h
  simp only at h
  cases hl : wait_for_button_timeout_loop a ((a + o) % 65536) T pins (init_state portb) with
  | none => simp [hl] at h
  | some q =>
    obtain ⟨s1, rest⟩ := q
    simp only [hl] at h
    cases hg : get_tracked_presses s1.info rest with
    | none => simp [hg] at h
    | some q1 =>
      obtain ⟨c, rest1⟩ := q1
      simp only [hg, Option.some.injEq] at h
      obtain ⟨hw, hc⟩ := get_tracked_presses_some _ _ _ _ hg
      subst h
      exact ⟨s1, rest, rfl, hw, by simp [flushed, hc, BUTTON_HOLD_TIME_MS], rfl, rfl⟩

theorem count_button_presses_eq (a o portb : Nat) (pins : List Nat) (s1 : LoopState)
    (rest rest1 : List Nat)
    (hl : count_button_presses_loop a ((a + o) % 65536) pins 0 (init_state portb)
      = some (s1, rest))
    (hw : wait_release rest = some rest1) :
    count_button_presses a o portb pins =
      some { ret := flushed s1.info, PORTB := led_off s1.PORTB, PINB := rest1,
             log := s1.log } := by
  simp [count_button_presses, hl, get_tracked_presses, hw, flushed]

theorem count_button_presses_inv (a o portb : Nat) (pins : List Nat) (r : Outcome Nat)
    (h : count_button_presses a o portb pins = some r) :
    ∃ s1 rest, count_button_presses_loop a ((a + o) % 65536) pins 0 (init_state portb)
        = some (s1, rest) ∧ wait_release rest = some r.PINB ∧
      r.ret = flushed s1.info ∧ r.PORTB = led_off s1.PORTB ∧ r.log = s1.log := by
  unfold count_button_presses at h
  simp only at h
  cases hl : count_button_presses_loop a ((a + o) % 65536) pins 0 (init_state portb) with
  | none => simp [hl] at h
  | some q =>
    obtain ⟨s1, rest⟩ := q
    simp only [hl] at h
    cases hg : get_tracked_presses s1.info rest with
    | none => simp [hg] at h
    | some q1 =>
      obtain ⟨c, rest1⟩ := q1
      simp only [hg, Option.some.injEq] at h
      obtain ⟨hw, hc⟩ := get_tracked_presses_some _ _ _ _ hg
      subst h
      exact ⟨s1, rest, rfl, hw, by simp [flushed, hc, BUTTON_HOLD_TIME_MS], rfl, rfl⟩

theorem delay_long_eq (a o D portb : Nat) (pins : List Nat) (s1 : LoopState)
    (rest rest1 : List Nat) (hD : 20 < D)
    (hl : delay_loop a ((a + o) % 65536) D pins (init_state portb) = some (s1, rest))
    (hw : wait_release rest = some rest1) :
    delay a o D portb pins =
      some { ret := flushed s1.info, PORTB := led_off s1.PORTB, PINB := rest1,
             log := s1.log } := by
  have hD1 : ¬ D ≤ BUTTON_HOLD_TIME_MS := by simp [BUTTON_HOLD_TIME_MS]; omega
  simp [delay, hl, get_tracked_presses, hw, flushed, hD1]

theorem delay_short_eq (a o D portb : Nat) (pins : List Nat) (s1 : LoopState)
    (rest : List Nat) (hD : D ≤ 20)
    (hl : delay_loop a ((a + o) % 65536) D pins (init_state portb) = some (s1, rest)) :
    delay a o D portb pins =
      some { ret := if s1.info.hold_time > 0 then 1 else 0, PORTB := led_off s1.PORTB,
             PINB := rest, log := s1.log } := by
  have hD1 : D ≤ BUTTON_HOLD_TIME_MS := by simpa [BUTTON_HOLD_TIME_MS] using hD
  simp [delay, hl, hD1]

theorem delay_inv (a o D portb : Nat) (pins : List Nat) (r : Outcome Nat)
    (h : delay a o D portb pins = some r) :
    ∃ s1 rest, delay_loop a ((a + o) % 65536) D pins (init_state portb) = some (s1, rest) ∧
      r.PORTB = led_off s1.PORTB ∧ r.log = s1.log ∧
      ((D ≤ 20 ∧ r.PINB = rest ∧ r.ret = if s1.info.hold_time > 0 then 1 else 0) ∨
       (20 < D ∧ wait_release rest = some r.PINB ∧ r.ret = flushed s1.info)) := by
  cases hl : delay_loop a ((a + o) % 65536) D pins (init_state portb) with
  | none => simp [delay, hl] at h
  | some q =>
    obtain ⟨s1, rest⟩ := q
    refine ⟨s1, rest, rfl, ?_⟩
    by_cases hD : D ≤ 20
    · rw [delay_short_eq a o D portb pins s1 rest hD hl] at h
      simp only [Option.some.injEq] at h
      subst h
      exact ⟨rfl, rfl, Or.inl ⟨hD, rfl, rfl⟩⟩
    · have hD1 : ¬ D ≤ BUTTON_HOLD_TIME_MS := by simpa [BUTTON_HOLD_TIME_MS] using hD
      unfold delay at h
      simp only [hl, if_neg hD1] at h
      cases hg : get_tracked_presses s1.info rest with
      | none => simp [hg] at h
      | some q1 =>
        obtain ⟨c, rest1⟩ := q1
        simp only [hg, Option.some.injEq] at h
        obtain ⟨hw, hc⟩ := get_tracked_presses_some _ _ _ _ hg
        subst h
        exact ⟨rfl, rfl, Or.inr ⟨by omega, hw, by simp [flushed, hc, BUTTON_HOLD_TIME_MS]⟩⟩

theorem released_from (l : List Nat) (k n : Nat) (hkn : k ≤ n)
    (h : ∃ x ∈ l.drop n, button_held x = false) : ∃ x ∈ l.drop k, button_held x = false := by
  obtain ⟨x, hx, hx2⟩ := h
  refine ⟨x, ?_, hx2⟩
  have e : l.drop n = (l.drop k).drop (n - k) := by
    rw [List.drop_drop]; congr 1; omega
  rw [e] at hx
  exact List.mem_of_mem_drop hx

theorem le_length_of_released (l : List Nat) (n : Nat)
    (h : ∃ x ∈ l.drop n, button_held x = false) : n < l.length := by
  obtain ⟨x, hx, -⟩ := h
  by_contra hlt
  rw [List.drop_eq_nil_of_le (by omega)] at hx
  simp at hx

theorem take_succ_snoc (l : List Nat) (j : Nat) (h : j < l.length) :
    ∃ x, l.take (j + 1) = l.take j ++ [x] := by
  induction l generalizing j with
  | nil => simp at h
  | cons p l ih =>
    cases j with
    | zero => exact ⟨p, by simp⟩
    | succ j =>
      obtain ⟨x, e⟩ := ih j (by simpa using h)
      exact ⟨x, by simp [e]⟩

theorem first_press_state (p : Nat) (info : button_info) (h0 : info.count = 0)
    (h1 : (track_button p info).count ≠ 0) :
    track_button p info = { hold_time := 0, count := 1 } := by
  by_cases hp : button_held p = true
  · rw [track_button_held p info hp] at h1
    exact absurd h0 h1
  · have hp0 : button_held p = false := by simpa using hp
    rw [track_button_released p info hp0] at h1 ⊢
    by_cases hh : info.hold_time > 20
    · simp [hh, h0]
    · simp [hh, h0] at h1

/-- The tracker on one hold episode: after any beginning of the trace that
leaves `hold_time = 0`, a block `H` of active reads followed by an inactive
read adds one press exactly when `H.length % 256 > 20`. -/
theorem track_all_episode (pre H : List Nat) (z : Nat)
    (hpre : (track_all pre zero_info).hold_time = 0)
    (hH : ∀ x ∈ H, button_held x = true) (hz : button_held z = false) :
    track_all (pre ++ H ++ [z]) zero_info =
      { hold_time := 0
        count := if H.length % 256 > 20 then ((track_all pre zero_info).count + 1) % 256
                 else (track_all pre zero_info).count } := by
  rw [track_all_snoc, track_all_append]
  have e : track_all pre zero_info = ⟨0, (track_all pre zero_info).count⟩ := by
    cases h : track_all pre zero_info with
    | mk ht c => rw [h] at hpre; simp at hpre; simp [hpre]
  rw [e, track_all_held H 0 _ (by decide) hH, track_button_released _ _ hz]
  simp

/-! ## Claims on the tracker and on the bounded wait -/

set_option maxRecDepth 100000

/-- C1 (defect of the code): a hold episode of 256 consecutive active ticks,
longer than `BUTTON_HOLD_TIME_MS`, followed by an inactive tick leaves the
confirmed-press count at 0, because the 8-bit `hold_time` is back at 0 when
the release is seen. -/
theorem track_button_drops_256_tick_hold :
    (∀ x ∈ List.replicate 256 ACTIVE, button_held x = true) ∧ button_held INACTIVE = false ∧
      BUTTON_HOLD_TIME_MS < 256 ∧
      track_all (List.replicate 256 ACTIVE ++ [INACTIVE]) zero_info
        = { hold_time := 0, count := 0 } := by
  refine ⟨?_, by decide, by decide, by decide⟩
  intro x hx
  rw [List.eq_of_mem_replicate hx]
  decide

/-- Scenario 1 of the spec: 25 active ticks followed by 10 inactive ticks give
one confirmed press. -/
theorem track_all_scenario_1 :
    track_all (List.replicate 25 ACTIVE ++ List.replicate 10 INACTIVE) zero_info
      = { hold_time := 0, count := 1 } := by
  decide

/-- C2: when no block of more than 20 consecutive active reads lies within the
first `T` ticks and the button is released at some read from tick `T` on,
`wait_for_button_timeout on off T` returns `false` after exactly `T` calls of
`track_button`. -/
theorem wait_for_button_timeout_no_press (on_ms off_ms T portb : Nat) (trace : List Nat)
    (hquiet : NoLongHold (trace.take T))
    (hrel : ∃ x ∈ trace.drop T, button_held x = false) :
    ∃ r, wait_for_button_timeout on_ms off_ms T portb trace = some r ∧
      r.ret = false ∧ r.ticks = T := by
  have hlen : T < trace.length := le_length_of_released trace T hrel
  obtain ⟨⟨s1, rest⟩, hl⟩ := wait_loop_total on_ms ((on_ms + off_ms) % 65536) T trace
    (init_state portb) (Or.inl (le_of_lt hlen))
  obtain ⟨k, hk1, hk2, hr, hi, hlog, -, hend⟩ := wait_loop_shape _ _ _ _ _ _ _ hl
  have hq : NoLongHold (trace.take k) := by
    have := hquiet.take k
    rwa [List.take_take, min_eq_left hk1] at this
  obtain ⟨hc, hh⟩ := hq.track
  have hinfo : s1.info = track_all (trace.take k) zero_info := hi
  have hkT : k = T := by
    rcases hend with h | ⟨-, h⟩
    · exact h
    · rw [hinfo] at h; exact absurd hc h
  subst hkT
  obtain ⟨rest1, hw⟩ := wait_release_total rest (by rw [hr]; exact hrel)
  refine ⟨_, wait_for_button_timeout_eq _ _ _ _ _ _ _ _ hl hw, ?_, ?_⟩
  · have hf : flushed s1.info = 0 := by
      rw [hinfo, flushed, if_neg (by simp [BUTTON_HOLD_TIME_MS]; exact hh), hc]
    simp [hf]
  · simp [Outcome.ticks, hlog, init_state]

theorem wait_for_button_timeout_no_press_witness :
    ∃ r, wait_for_button_timeout 100 100 3 0 [INACTIVE, ACTIVE, INACTIVE, INACTIVE] = some r ∧
      r.ret = false ∧ r.ticks = 3 :=
  wait_for_button_timeout_no_press 100 100 3 0 [INACTIVE, ACTIVE, INACTIVE, INACTIVE]
    (by
      intro pre H post e _
      have := congrArg List.length e
      simp at this
      simp [BUTTON_HOLD_TIME_MS]
      omega)
    ⟨INACTIVE, by simp, by decide⟩

/-- C3: when the tracker records its first confirmed press at tick `k ≤ T`
and the button is released at some later read, `wait_for_button_timeout on
off T` leaves its loop at that tick, after exactly `k` calls of
`track_button`, and returns `true`. -/
theorem wait_for_button_timeout_first_press (on_ms off_ms T portb : Nat) (trace : List Nat)
    (k : Nat) (hk : k ≤ T) (hpress : count_after trace k ≠ 0)
    (hfirst : ∀ j, j < k → count_after trace j = 0)
    (hrel : ∃ x ∈ trace.drop k, button_held x = false) :
    ∃ r, wait_for_button_timeout on_ms off_ms T portb trace = some r ∧
      r.ret = true ∧ r.ticks = k := by
  have hlen : k < trace.length := le_length_of_released trace k hrel
  have hk0 : 0 < k := by
    rcases Nat.eq_zero_or_pos k with h | h
    · subst h; simp [count_after, track_all, zero_info] at hpress
    · exact h
  obtain ⟨⟨s1, rest⟩, hl⟩ := wait_loop_total on_ms ((on_ms + off_ms) % 65536) T trace
    (init_state portb) (Or.inr ⟨k, hk0, le_of_lt hlen, hpress⟩)
  obtain ⟨k1, hk1, hk2, hr, hi, hlog, hz, hend⟩ := wait_loop_shape _ _ _ _ _ _ _ hl
  have hinfo : s1.info = track_all (trace.take k1) zero_info := hi
  have hkk : k1 = k := by
    rcases Nat.lt_trichotomy k1 k with h | h | h
    · exfalso
      rcases hend with h1 | ⟨-, h1⟩
      · omega
      · rw [hinfo] at h1; exact h1 (hfirst k1 h)
    · exact h
    · exact absurd (hz k hk0 h) hpress
  subst hkk
  obtain ⟨x, ex⟩ := take_succ_snoc trace (k1 - 1) (by omega)
  have e1 : k1 - 1 + 1 = k1 := by omega
  rw [e1] at ex
  have hst : s1.info = { hold_time := 0, count := 1 } := by
    rw [hinfo, ex, track_all_snoc]
    apply first_press_state
    · exact hfirst (k1 - 1) (by omega)
    · have := hpress
      rw [count_after, ex, track_all_snoc] at this
      exact this
  obtain ⟨rest1, hw⟩ := wait_release_total rest (by rw [hr]; exact hrel)
  refine ⟨_, wait_for_button_timeout_eq _ _ _ _ _ _ _ _ hl hw, ?_, ?_⟩
  · simp [hst, flushed, BUTTON_HOLD_TIME_MS]
  · simp [Outcome.ticks, hlog, init_state]

theorem wait_for_button_timeout_first_press_witness :
    ∃ r, wait_for_button_timeout 100 100 30 0
        (List.replicate 21 ACTIVE ++ [INACTIVE, INACTIVE]) = some r ∧
      r.ret = true ∧ r.ticks = 22 :=
  wait_for_button_timeout_first_press 100 100 30 0
    (List.replicate 21 ACTIVE ++ [INACTIVE, INACTIVE]) 22 (by decide) (by decide) (by decide)
    ⟨INACTIVE, by decide, by decide⟩

/-! ## Claims on `delay` and on the flush -/

/-- C4: on every trace with at least `D` reads the timed loop of
`delay on off D` runs to its end after exactly `D` calls of `track_button`,
consuming the first `D` reads whatever their values; and whenever `delay`
returns it has performed exactly `D` ticks. -/
theorem delay_consumes_exactly (on_ms off_ms D portb : Nat) (trace : List Nat) :
    (D ≤ trace.length →
      ∃ s, delay_loop on_ms ((on_ms + off_ms) % 65536) D trace (init_state portb)
          = some (s, trace.drop D) ∧ s.log.length = D) ∧
    (∀ r, delay on_ms off_ms D portb trace = some r → r.ticks = D) := by
  constructor
  · intro hlen
    obtain ⟨s1, e, -, hl⟩ := delay_loop_total on_ms ((on_ms + off_ms) % 65536) D trace
      (init_state portb) hlen
    exact ⟨s1, e, by simpa [init_state] using hl⟩
  · intro r hr
    obtain ⟨s1, rest, hl, -, hlog, -⟩ := delay_inv _ _ _ _ _ _ hr
    obtain ⟨-, -, -, h4⟩ := delay_loop_shape _ _ _ _ _ _ _ hl
    simp [Outcome.ticks, hlog, h4, init_state]

theorem delay_consumes_exactly_witness :
    (∃ s, delay_loop 100 ((100 + 200) % 65536) 3 [ACTIVE, INACTIVE, ACTIVE, INACTIVE]
        (init_state 0) = some (s, [INACTIVE]) ∧ s.log.length = 3) ∧
    (∃ r, delay 100 200 3 0 [ACTIVE, INACTIVE, ACTIVE, INACTIVE] = some r ∧ r.ticks = 3) :=
  ⟨(delay_consumes_exactly 100 200 3 0 [ACTIVE, INACTIVE, ACTIVE, INACTIVE]).1 (by decide),
   let ⟨r, hr⟩ := Option.isSome_iff_exists.mp
     (by decide : (delay 100 200 3 0 [ACTIVE, INACTIVE, ACTIVE, INACTIVE]).isSome = true)
   ⟨r, hr, (delay_consumes_exactly 100 200 3 0 [ACTIVE, INACTIVE, ACTIVE, INACTIVE]).2 r hr⟩⟩

/-- C5 (defect of the code): `delay(0, 0, 2)` on a trace whose first tick
reads the button active and whose second tick reads it inactive returns 0,
although the button was held during the delay: the short-delay branch looks
only at `hold_time` after the last tick. -/
theorem delay_short_forgets_earlier_hold :
    button_held ACTIVE = true ∧
      delay 0 0 2 0 [ACTIVE, INACTIVE]
        = some { ret := 0, PORTB := 0, PINB := [], log := [0, 0] } := by
  decide

/-- C6 (counterexample): the trace `presses255` brings the tracker to
`hold_time = 21`, `count = 255` at the end of the 5631 ticks of
`delay(0, 0, 5631)`; there `get_tracked_presses` returns 0, not
`info.count + 1 = 256`, and so does `delay`. -/
theorem flush_wraps_at_255_presses :
    track_all (presses255.take 5631) zero_info = { hold_time := 21, count := 255 } ∧
      get_tracked_presses { hold_time := 21, count := 255 } (presses255.drop 5631)
        = some (0, []) ∧
      (delay 0 0 5631 0 presses255).map (fun r => r.ret) = some 0 := by
  decide

/-- C6 (amended): `get_tracked_presses` returns `(info.count + 1) % 256` when
`info.hold_time > 20` and `info.count` otherwise, which is `info.count` plus
the flushed press whenever `info.count < 255`; `delay` with `n > 20` returns
this value for the tracker state after its `n` ticks, and
`wait_for_button_timeout` returns `true` exactly when this value for the
tracker state at the end of its loop is positive. -/
theorem flush_rule_mod_256 (on_ms off_ms n portb : Nat) (trace : List Nat)
    (info : button_info) (pins : List Nat)
    (hpins : ∃ x ∈ pins, button_held x = false)
    (hrel : ∃ x ∈ trace.drop n, button_held x = false) :
    (∃ c rest, get_tracked_presses info pins = some (c, rest) ∧
      c = (if info.hold_time > 20 then (info.count + 1) % 256 else info.count) ∧
      (info.count < 255 → c = info.count + if info.hold_time > 20 then 1 else 0)) ∧
    (20 < n → ∃ r, delay on_ms off_ms n portb trace = some r ∧
      r.ret = flushed (track_all (trace.take n) zero_info)) ∧
    (∃ r, wait_for_button_timeout on_ms off_ms n portb trace = some r ∧
      (r.ret = true ↔ 0 < flushed (track_all (trace.take r.ticks) zero_info))) := by
  have hlen : n < trace.length := le_length_of_released trace n hrel
  refine ⟨?_, ?_, ?_⟩
  · obtain ⟨rest, hw⟩ := wait_release_total pins hpins
    refine ⟨_, rest, get_tracked_presses_of_release info pins rest hw, rfl, ?_⟩
    intro hc
    by_cases hh : info.hold_time > 20
    · simp only [if_pos hh]; rw [Nat.mod_eq_of_lt (by omega)]
    · simp only [if_neg hh]; rfl
  · intro hn
    obtain ⟨s1, hl, hi, -⟩ := delay_loop_total on_ms ((on_ms + off_ms) % 65536) n trace
      (init_state portb) (le_of_lt hlen)
    obtain ⟨rest1, hw⟩ := wait_release_total (trace.drop n) hrel
    refine ⟨_, delay_long_eq _ _ _ _ _ _ _ _ hn hl hw, ?_⟩
    show flushed s1.info = _
    rw [hi]; rfl
  · obtain ⟨⟨s1, rest⟩, hl⟩ := wait_loop_total on_ms ((on_ms + off_ms) % 65536) n trace
      (init_state portb) (Or.inl (le_of_lt hlen))
    obtain ⟨k, hk1, -, hr, hi, hlog, -, -⟩ := wait_loop_shape _ _ _ _ _ _ _ hl
    obtain ⟨rest1, hw⟩ := wait_release_total rest
      (by rw [hr]; exact released_from trace k n hk1 hrel)
    refine ⟨_, wait_for_button_timeout_eq _ _ _ _ _ _ _ _ hl hw, ?_⟩
    have hk : s1.log.length = k := by simpa [init_state] using hlog
    have hi1 : s1.info = track_all (trace.take k) zero_info := hi
    simp [Outcome.ticks, hk, hi1]

theorem flush_rule_mod_256_witness :
    (∃ c rest, get_tracked_presses { hold_time := 21, count := 3 } [ACTIVE, INACTIVE]
        = some (c, rest) ∧
      c = (if 21 > 20 then (3 + 1) % 256 else 3) ∧
      (3 < 255 → c = 3 + if 21 > 20 then 1 else 0)) ∧
    (20 < 22 → ∃ r, delay 100 200 22 0 (List.replicate 23 ACTIVE ++ [INACTIVE]) = some r ∧
      r.ret = flushed (track_all ((List.replicate 23 ACTIVE ++ [INACTIVE]).take 22) zero_info)) ∧
    (∃ r, wait_for_button_timeout 100 200 22 0 (List.replicate 23 ACTIVE ++ [INACTIVE])
        = some r ∧
      (r.ret = true ↔
        0 < flushed (track_all ((List.replicate 23 ACTIVE ++ [INACTIVE]).take r.ticks)
          zero_info))) :=
  flush_rule_mod_256 100 200 22 0 (List.replicate 23 ACTIVE ++ [INACTIVE])
    { hold_time := 21, count := 3 } [ACTIVE, INACTIVE]
    ⟨INACTIVE, by decide, by decide⟩ ⟨INACTIVE, by decide, by decide⟩

/-! ## The loop of `count_button_presses` -/

theorem count_run_append (x y : List Nat) (σ : Nat × button_info) :
    count_run (x ++ y) σ = count_run y (count_run x σ) := by
  induction x generalizing σ with
  | nil => rfl
  | cons p x ih => simp [count_run, ih]

theorem count_stays_append (x y : List Nat) (σ : Nat × button_info) :
    count_stays (x ++ y) σ ↔ count_stays x σ ∧ count_stays y (count_run x σ) := by
  induction x generalizing σ with
  | nil => simp [count_stays, count_run]
  | cons p x ih => simp [count_stays, count_run, ih, and_assoc]

theorem count_run_info (seg : List Nat) (σ : Nat × button_info) :
    (count_run seg σ).2 = track_all seg σ.2 := by
  induction seg generalizing σ with
  | nil => rfl
  | cons p seg ih => simp [count_run, track_all, ih, count_step]

theorem count_loop_exit (a b : Nat) (pins : List Nat) (s : LoopState)
    (hc : s.info.count ≠ 0) : count_button_presses_loop a b pins 0 s = some (s, pins) := by
  cases pins <;> simp [count_button_presses_loop, hc]

theorem count_loop_cons (a b p : Nat) (rest : List Nat) (t : Nat) (s : LoopState)
    (hc : s.info.count = 0 ∨ t > 0) :
    count_button_presses_loop a b (p :: rest) t s =
      count_button_presses_loop a b rest
        (dec16 (if (track_button p s.info).hold_time ≠ 0 then 500 else t))
        (next_pos (tick p (led_cycle a b s))) := by
  simp only [count_button_presses_loop]
  rw [if_pos hc]
  simp only [tick, led_cycle_info]

theorem count_loop_cons_exit (a b p : Nat) (rest : List Nat) (t : Nat) (s : LoopState)
    (hc : ¬ (s.info.count = 0 ∨ t > 0)) :
    count_button_presses_loop a b (p :: rest) t s = some (s, p :: rest) := by
  simp only [count_button_presses_loop]
  rw [if_neg hc]

theorem count_loop_nil (a b : Nat) (t : Nat) (s s1 : LoopState) (rest : List Nat)
    (h : count_button_presses_loop a b [] t s = some (s1, rest)) :
    ¬ (s.info.count = 0 ∨ t > 0) ∧ s1 = s ∧ rest = [] := by
  simp only [count_button_presses_loop] at h
  by_cases hc : s.info.count = 0 ∨ t > 0
  · rw [if_pos hc] at h; cases h
  · rw [if_neg hc] at h
    cases h
    exact ⟨hc, rfl, rfl⟩

theorem count_loop_through (a b : Nat) (seg rest : List Nat) (t : Nat) (s : LoopState)
    (h : count_stays seg (t, s.info)) :
    ∃ s1, count_button_presses_loop a b (seg ++ rest) t s
        = count_button_presses_loop a b rest (count_run seg (t, s.info)).1 s1 ∧
      s1.info = (count_run seg (t, s.info)).2 ∧
      s1.log.length = s.log.length + seg.length := by
  induction seg generalizing t s with
  | nil => exact ⟨s, rfl, rfl, rfl⟩
  | cons p seg ih =>
    obtain ⟨hc, hs⟩ := h
    have hs1 : count_stays seg
        (dec16 (if (track_button p s.info).hold_time ≠ 0 then 500 else t),
          (next_pos (tick p (led_cycle a b s))).info) := by
      rw [body_info]; exact hs
    obtain ⟨s1, e, hi, hl⟩ := ih _ _ hs1
    rw [body_info] at e hi
    refine ⟨s1, ?_, ?_, ?_⟩
    · rw [List.cons_append, count_loop_cons a b p _ t s hc, e]
      rfl
    · rw [hi]; rfl
    · rw [hl, body_log]; simp; omega

theorem count_loop_shape (a b : Nat) (pins : List Nat) (t : Nat) (s s1 : LoopState)
    (rest : List Nat) (h : count_button_presses_loop a b pins t s = some (s1, rest)) :
    ∃ k, k ≤ pins.length ∧ rest = pins.drop k ∧
      s1.info = track_all (pins.take k) s.info ∧ s1.log.length = s.log.length + k ∧
      s1.info.count ≠ 0 := by
  induction pins generalizing t s with
  | nil =>
    obtain ⟨hc, rfl, rfl⟩ := count_loop_nil a b t s s1 rest h
    exact ⟨0, le_refl _, rfl, rfl, rfl, fun h0 => hc (Or.inl h0)⟩
  | cons p pins ih =>
    by_cases hc : s.info.count = 0 ∨ t > 0
    · rw [count_loop_cons a b p pins t s hc] at h
      obtain ⟨k, hk, hr, hi, hl, hne⟩ := ih _ _ h
      refine ⟨k + 1, by simpa using hk, by simpa using hr, ?_, ?_, hne⟩
      · rw [hi, body_info]; simp [track_all]
      · rw [hl, body_log]; omega
    · rw [count_loop_cons_exit a b p pins t s hc] at h
      cases h
      exact ⟨0, Nat.zero_le _, rfl, rfl, rfl, fun h0 => hc (Or.inl h0)⟩

theorem count_loop_frame (a b : Nat) (pins : List Nat) (t : Nat) (s s1 : LoopState)
    (rest : List Nat) (h : count_button_presses_loop a b pins t s = some (s1, rest))
    (hp : s.PORTB < 256) : s1.PORTB < 256 ∧ SameOtherBits s.PORTB s1.PORTB := by
  induction pins generalizing t s with
  | nil =>
    obtain ⟨-, rfl, -⟩ := count_loop_nil a b t s s1 rest h
    exact ⟨hp, SameOtherBits.refl _⟩
  | cons p pins ih =>
    by_cases hc : s.info.count = 0 ∨ t > 0
    · rw [count_loop_cons a b p pins t s hc] at h
      obtain ⟨h1, h2⟩ := ih _ _ h (body_lt a b p s hp)
      exact ⟨h1, (body_same a b p s hp).trans h2⟩
    · rw [count_loop_cons_exit a b p pins t s hc] at h
      cases h
      exact ⟨hp, SameOtherBits.refl _⟩

theorem count_loop_or (a b : Nat) (seg rest : List Nat) (t : Nat) (s : LoopState) :
    (∃ s1 k, k ≤ seg.length ∧
      count_button_presses_loop a b (seg ++ rest) t s = some (s1, (seg ++ rest).drop k) ∧
      s1.log.length = s.log.length + k) ∨ count_stays seg (t, s.info) := by
  induction seg generalizing t s with
  | nil => exact Or.inr trivial
  | cons p seg ih =>
    by_cases hc : s.info.count = 0 ∨ t > 0
    · rcases ih (dec16 (if (track_button p s.info).hold_time ≠ 0 then 500 else t))
        (next_pos (tick p (led_cycle a b s))) with ⟨s1, k, hk, e, hl⟩ | hs
      · left
        refine ⟨s1, k + 1, by simpa using hk, ?_, by rw [hl, body_log]; omega⟩
        rw [List.cons_append, count_loop_cons a b p _ t s hc, e]
        rfl
      · right
        rw [body_info] at hs
        exact ⟨hc, hs⟩
    · left
      refine ⟨s, 0, Nat.zero_le _, ?_, rfl⟩
      rw [List.cons_append, count_loop_cons_exit a b p _ t s hc]
      rfl

theorem dec16_500 : dec16 500 = 499 := by decide

theorem dec16_499 : dec16 499 = 498 := by decide

theorem dec16_pos (t : Nat) (h : 0 < t) : dec16 t = t - 1 := by
  unfold dec16
  rw [if_neg (by omega)]

theorem dec16_lt (t : Nat) (h : t < 65536) : dec16 t < 65536 := by
  unfold dec16
  split_ifs
  · decide
  · omega

theorem count_step_held (p t h c : Nat) (hp : button_held p = true) :
    count_step p (t, ⟨h, c⟩) =
      (dec16 (if (h + 1) % 256 ≠ 0 then 500 else t), ⟨(h + 1) % 256, c⟩) := by
  simp [count_step, track_button_held p _ hp]

theorem count_step_released (p t h c : Nat) (hp : button_held p = false) :
    count_step p (t, ⟨h, c⟩) =
      (dec16 t, ⟨0, if h > 20 then (c + 1) % 256 else c⟩) := by
  simp [count_step, track_button_released p _ hp]

theorem count_held (seg : List Nat) (t h c : Nat) (hs : ∀ x ∈ seg, button_held x = true)
    (hh : h < 256) (ht : t < 65536) (h1 : c = 0 ∨ 0 < t) (h2 : h = 255 → c = 0 ∨ 1 < t) :
    count_stays seg (t, ⟨h, c⟩) ∧
      ∃ t1, count_run seg (t, ⟨h, c⟩) = (t1, ⟨(h + seg.length) % 256, c⟩) ∧ t1 < 65536 ∧
        (c = 0 ∨ 0 < t1) ∧
        (seg ≠ [] → (h + seg.length) % 256 ≠ 0 → t1 = 499) := by
  induction seg generalizing t h with
  | nil =>
    refine ⟨trivial, t, ?_, ht, h1, fun hne => absurd rfl hne⟩
    simp [count_run, Nat.mod_eq_of_lt hh]
  | cons p seg ih =>
    have hp : button_held p = true := hs p (List.mem_cons_self _ _)
    have hs1 : ∀ x ∈ seg, button_held x = true := fun x hx => hs x (List.mem_cons_of_mem _ hx)
    simp only [count_stays, count_run, count_step_held p t h c hp, List.length_cons]
    have hmod : ((h + 1) % 256 + seg.length) % 256 = (h + (seg.length + 1)) % 256 := by omega
    by_cases hw : (h + 1) % 256 ≠ 0
    · rw [if_pos hw]
      obtain ⟨hst, t1, e, ht1, hc1, hlast⟩ := ih 499 ((h + 1) % 256) hs1
        (Nat.mod_lt _ (by decide)) (by decide) (Or.inr (by decide)) (fun _ => Or.inr (by decide))
      refine ⟨⟨h1, hst⟩, t1, ?_, ht1, hc1, ?_⟩
      · rw [dec16_500, e, hmod]
      · intro _ hne
        by_cases hnil : seg = []
        · subst hnil
          simp [count_run] at e
          exact e.symm
        · exact hlast hnil (by rw [hmod]; exact hne)
    · rw [if_neg hw]
      have hh255 : h = 255 := by omega
      have h2' := h2 hh255
      have hz : (h + 1) % 256 = 0 := by omega
      obtain ⟨hst, t1, e, ht1, hc1, hlast⟩ := ih (dec16 t) ((h + 1) % 256) hs1
        (Nat.mod_lt _ (by decide)) (dec16_lt t ht)
        (by rcases h2' with h0 | h0
            · exact Or.inl h0
            · right; rw [dec16_pos t (by omega)]; omega)
        (fun h255 => by omega)
      refine ⟨⟨h1, hst⟩, t1, ?_, ht1, hc1, ?_⟩
      · rw [e, hmod]
      · intro _ hne
        by_cases hnil : seg = []
        · subst hnil
          simp at hne
          omega
        · exact hlast hnil (by rw [hmod]; exact hne)

theorem count_quiet (seg : List Nat) (t : Nat) (hs : ∀ x ∈ seg, button_held x = false)
    (ht : t < 65536) :
    count_stays seg (t, ⟨0, 0⟩) ∧ ∃ t1, count_run seg (t, ⟨0, 0⟩) = (t1, ⟨0, 0⟩) ∧ t1 < 65536 := by
  induction seg generalizing t with
  | nil => exact ⟨trivial, t, rfl, ht⟩
  | cons p seg ih =>
    have hp : button_held p = false := hs p (List.mem_cons_self _ _)
    have hs1 : ∀ x ∈ seg, button_held x = false := fun x hx => hs x (List.mem_cons_of_mem _ hx)
    simp only [count_stays, count_run, count_step_released p t 0 0 hp]
    obtain ⟨hst, t1, e, ht1⟩ := ih (dec16 t) hs1 (dec16_lt t ht)
    simp only [show ¬ (0 > 20) by decide, if_false]
    exact ⟨⟨by simp, hst⟩, t1, e, ht1⟩

theorem count_idle (seg : List Nat) (t c : Nat) (hs : ∀ x ∈ seg, button_held x = false)
    (hlen : seg.length ≤ t) (ht : t < 65536) :
    count_stays seg (t, ⟨0, c⟩) ∧ count_run seg (t, ⟨0, c⟩) = (t - seg.length, ⟨0, c⟩) := by
  induction seg generalizing t with
  | nil => exact ⟨trivial, rfl⟩
  | cons p seg ih =>
    have hp : button_held p = false := hs p (List.mem_cons_self _ _)
    have hs1 : ∀ x ∈ seg, button_held x = false := fun x hx => hs x (List.mem_cons_of_mem _ hx)
    simp only [List.length_cons] at hlen
    simp only [count_stays, count_run, count_step_released p t 0 c hp, List.length_cons]
    simp only [show ¬ (0 > 20) by decide, if_false]
    have e1 : dec16 t = t - 1 := dec16_pos t (by omega)
    rw [e1]
    obtain ⟨hst, e⟩ := ih (t - 1) hs1 (by omega) (by omega)
    refine ⟨⟨Or.inr (by omega), hst⟩, ?_⟩
    have e2 : t - 1 - seg.length = t - (seg.length + 1) := by omega
    rw [e, e2]



theorem count_chain (x y : List Nat) (σ σ1 σ2 : Nat × button_info)
    (h1 : count_stays x σ ∧ count_run x σ = σ1)
    (h2 : count_stays y σ1 ∧ count_run y σ1 = σ2) :
    count_stays (x ++ y) σ ∧ count_run (x ++ y) σ = σ2 := by
  obtain ⟨a1, b1⟩ := h1
  obtain ⟨a2, b2⟩ := h2
  refine ⟨(count_stays_append x y σ).mpr ⟨a1, by rw [b1]; exact a2⟩, ?_⟩
  rw [count_run_append, b1, b2]

theorem count_release_step (z h c : Nat) (hz : button_held z = false) (hh : 20 < h) :
    count_stays [z] (499, ⟨h, c⟩) ∧ count_run [z] (499, ⟨h, c⟩) = (498, ⟨0, (c + 1) % 256⟩) := by
  refine ⟨⟨Or.inr (by show 0 < 499; decide), trivial⟩, ?_⟩
  simp only [count_run, count_step_released z 499 h c hz, dec16_499]
  simp [hh]

/-! ## Claims on `count_button_presses` -/

/-- C7: on a trace made of any number of inactive reads, a first hold episode
`H1`, a gap `G`, a second hold episode `H2` and at least 500 inactive reads,
both episodes being confirmed by the tracker (`length % 256 > 20`) and the
second beginning at most 500 ticks after the first began,
`count_button_presses` returns 2, its loop ending 499 ticks after the last
active tick. -/
theorem count_button_presses_two_presses (on_ms off_ms portb : Nat)
    (A H1 G H2 Z : List Nat)
    (hA : ∀ x ∈ A, button_held x = false) (hH1 : ∀ x ∈ H1, button_held x = true)
    (hG : ∀ x ∈ G, button_held x = false) (hH2 : ∀ x ∈ H2, button_held x = true)
    (hZ : ∀ x ∈ Z, button_held x = false)
    (h1 : 20 < H1.length % 256) (h2 : 20 < H2.length % 256)
    (hgap : 0 < G.length) (hwin : H1.length + G.length ≤ 500) (hZlen : 500 ≤ Z.length) :
    ∃ r, count_button_presses on_ms off_ms portb (A ++ H1 ++ G ++ H2 ++ Z) = some r ∧
      r.ret = 2 ∧ r.ticks = A.length + H1.length + G.length + H2.length + 499 := by
  obtain ⟨g, G1, rfl⟩ : ∃ g G1, G = g :: G1 := by
    cases G with
    | nil => simp at hgap
    | cons g G1 => exact ⟨g, G1, rfl⟩
  obtain ⟨z, Z1, rfl⟩ : ∃ z Z1, Z = z :: Z1 := by
    cases Z with
    | nil => simp at hZlen
    | cons z Z1 => exact ⟨z, Z1, rfl⟩
  simp only [List.length_cons] at hwin hZlen
  have hg : button_held g = false := hG g (List.mem_cons_self _ _)
  have hG1 : ∀ x ∈ G1, button_held x = false := fun x hx => hG x (List.mem_cons_of_mem _ hx)
  have hz : button_held z = false := hZ z (List.mem_cons_self _ _)
  have hZ1 : ∀ x ∈ Z1, button_held x = false := fun x hx => hZ x (List.mem_cons_of_mem _ hx)
  have hH1ne : H1 ≠ [] := by
    intro h; subst h; simp at h1
  have hH2ne : H2 ≠ [] := by
    intro h; subst h; simp at h2
  -- the pair (timeout_ms, info) along the trace
  obtain ⟨sA, tA, eA, htA⟩ := count_quiet A 0 hA (by decide)
  obtain ⟨sH1, t1, e1, -, -, hl1⟩ := count_held H1 tA 0 0 hH1 (by decide) htA (Or.inl rfl)
    (fun _ => Or.inl rfl)
  have ht1 : t1 = 499 := hl1 hH1ne (by omega)
  subst ht1
  have c1 := count_chain A H1 _ _ _ ⟨sA, eA⟩ ⟨sH1, e1⟩
  have c2 := count_chain _ [g] _ _ _ c1
    (count_release_step g ((0 + H1.length) % 256) 0 hg (by omega))
  have c3 := count_chain _ G1 _ _ _ c2
    (count_idle G1 498 ((0 + 1) % 256) hG1 (by omega) (by decide))
  obtain ⟨sH2, t2, e2, -, -, hl2⟩ := count_held H2 (498 - G1.length) 0 ((0 + 1) % 256) hH2
    (by decide) (by omega) (Or.inr (by omega)) (fun h => absurd h (by decide))
  have ht2 : t2 = 499 := hl2 hH2ne (by omega)
  subst ht2
  have c4 := count_chain _ H2 _ _ _ c3 ⟨sH2, e2⟩
  have c5 := count_chain _ [z] _ _ _ c4
    (count_release_step z ((0 + H2.length) % 256) ((0 + 1) % 256) hz (by omega))
  have hZ2 : ∀ x ∈ Z1.take 498, button_held x = false :=
    fun x hx => hZ1 x (List.mem_of_mem_take hx)
  have hlen2 : (Z1.take 498).length = 498 := by
    rw [List.length_take]; omega
  have c6 := count_chain _ (Z1.take 498) _ _ _ c5
    (count_idle (Z1.take 498) 498 (((0 + 1) % 256 + 1) % 256) hZ2 (by omega) (by decide))
  obtain ⟨hst, hrun⟩ := c6
  rw [hlen2] at hrun
  -- the rest of the trace begins with an inactive read
  obtain ⟨y, R, hR⟩ : ∃ y R, Z1.drop 498 = y :: R := by
    cases hd : Z1.drop 498 with
    | nil =>
      have := congrArg List.length hd
      rw [List.length_drop] at this
      simp at this
      omega
    | cons y R => exact ⟨y, R, rfl⟩
  have hy : button_held y = false :=
    hZ1 y (List.mem_of_mem_drop (by rw [hR]; exact List.mem_cons_self _ _))
  have htrace : A ++ H1 ++ g :: G1 ++ H2 ++ z :: Z1 =
      (A ++ H1 ++ [g] ++ G1 ++ H2 ++ [z] ++ Z1.take 498) ++ (y :: R) := by
    rw [← hR]
    conv_lhs => rw [← List.take_append_drop 498 Z1]
    simp [List.append_assoc]
  rw [htrace]
  obtain ⟨s1, el, hi, hlog⟩ := count_loop_through on_ms ((on_ms + off_ms) % 65536)
    (A ++ H1 ++ [g] ++ G1 ++ H2 ++ [z] ++ Z1.take 498) (y :: R) 0 (init_state portb) hst
  have hrun' : count_run (A ++ H1 ++ [g] ++ G1 ++ H2 ++ [z] ++ Z1.take 498)
      (0, (init_state portb).info) = (498 - 498, ⟨0, ((0 + 1) % 256 + 1) % 256⟩) := hrun
  rw [hrun'] at el hi
  have hinfo : s1.info = ⟨0, 2⟩ := by rw [hi]
  have el2 : count_button_presses_loop on_ms ((on_ms + off_ms) % 65536)
      (A ++ H1 ++ [g] ++ G1 ++ H2 ++ [z] ++ Z1.take 498 ++ y :: R) 0 (init_state portb) =
      count_button_presses_loop on_ms ((on_ms + off_ms) % 65536) (y :: R) 0 s1 := el
  rw [count_loop_exit on_ms ((on_ms + off_ms) % 65536) (y :: R) s1
    (by rw [hinfo]; decide)] at el2
  refine ⟨_, count_button_presses_eq _ _ _ _ _ _ _ el2 (wait_release_released y R hy), ?_, ?_⟩
  · simp [hinfo, flushed, BUTTON_HOLD_TIME_MS]
  · simp only [Outcome.ticks, hlog, init_state, List.length_append, List.length_cons,
      List.length_nil, hlen2]
    omega

theorem count_button_presses_two_presses_witness :
    ∃ r, count_button_presses 100 100 0
        ([INACTIVE] ++ List.replicate 25 ACTIVE ++ List.replicate 30 INACTIVE ++
          List.replicate 25 ACTIVE ++ List.replicate 500 INACTIVE) = some r ∧
      r.ret = 2 ∧
      r.ticks = [INACTIVE].length + (List.replicate 25 ACTIVE).length +
        (List.replicate 30 INACTIVE).length + (List.replicate 25 ACTIVE).length + 499 :=
  count_button_presses_two_presses 100 100 0 [INACTIVE] (List.replicate 25 ACTIVE)
    (List.replicate 30 INACTIVE) (List.replicate 25 ACTIVE) (List.replicate 500 INACTIVE)
    (fun x hx => by rw [List.mem_singleton.mp hx]; decide)
    (fun x hx => by rw [List.eq_of_mem_replicate hx]; decide)
    (fun x hx => by rw [List.eq_of_mem_replicate hx]; decide)
    (fun x hx => by rw [List.eq_of_mem_replicate hx]; decide)
    (fun x hx => by rw [List.eq_of_mem_replicate hx]; decide)
    (by simp) (by simp) (by simp) (by simp) (by simp)

/-! ## The end of the loop of `count_button_presses` -/

theorem hold_after_append (pre x : List Nat) (j : Nat) (hj : j ≤ pre.length) :
    hold_after (pre ++ x) j = hold_after pre j := by
  unfold hold_after
  rw [List.take_append_of_le_length hj]

theorem hold_after_length (pre : List Nat) :
    hold_after pre pre.length = (track_all pre zero_info).hold_time := by
  unfold hold_after
  rw [List.take_length]

theorem track_button_idle (p : Nat) (info : button_info) (h0 : info.hold_time = 0) :
    (track_button p info).count = info.count := by
  by_cases hp : button_held p = true
  · rw [track_button_held p info hp]
  · have hp0 : button_held p = false := by simpa using hp
    rw [track_button_released p info hp0]
    simp [h0]

theorem count_loop_end_exit (pre x : List Nat) (t : Nat) (s : LoopState)
    (hlog : s.log.length = pre.length)
    (hJ2 : s.info.count ≠ 0 → ∃ i, i ≤ pre.length ∧ hold_after pre i ≠ 0 ∧
      (∀ j, i < j → j ≤ pre.length → hold_after pre j = 0) ∧ t + (pre.length - i) = 499)
    (hc : ¬ (s.info.count = 0 ∨ t > 0)) :
    ∃ i, s.log.length = i + 499 ∧ hold_after (pre ++ x) i ≠ 0 ∧
      ∀ j, i < j → j ≤ i + 499 → hold_after (pre ++ x) j = 0 := by
  have hc1 : s.info.count ≠ 0 := fun h0 => hc (Or.inl h0)
  have ht0 : t = 0 := by
    by_contra h0
    exact hc (Or.inr (Nat.pos_of_ne_zero h0))
  obtain ⟨i, hi, hne, hz, hsum⟩ := hJ2 hc1
  have hpl : pre.length = i + 499 := by omega
  refine ⟨i, by rw [hlog, hpl], ?_, ?_⟩
  · rw [hold_after_append pre x i hi]; exact hne
  · intro j hj1 hj2
    rw [hold_after_append pre x j (by omega)]
    exact hz j hj1 (by omega)

theorem count_loop_end (a b : Nat) (pins pre : List Nat) (t : Nat) (s s1 : LoopState)
    (rest : List Nat)
    (hinfo : s.info = track_all pre zero_info) (hlog : s.log.length = pre.length)
    (hJ1 : s.info.hold_time ≠ 0 → t = 499)
    (hJ2 : s.info.count ≠ 0 → ∃ i, i ≤ pre.length ∧ hold_after pre i ≠ 0 ∧
      (∀ j, i < j → j ≤ pre.length → hold_after pre j = 0) ∧ t + (pre.length - i) = 499)
    (h : count_button_presses_loop a b pins t s = some (s1, rest)) :
    ∃ i, s1.log.length = i + 499 ∧ hold_after (pre ++ pins) i ≠ 0 ∧
      ∀ j, i < j → j ≤ i + 499 → hold_after (pre ++ pins) j = 0 := by
  induction pins generalizing pre t s with
  | nil =>
    obtain ⟨hc, rfl, -⟩ := count_loop_nil a b t s s1 rest h
    exact count_loop_end_exit pre [] t _ hlog hJ2 hc
  | cons p pins ih =>
    by_cases hc : s.info.count = 0 ∨ t > 0
    · rw [count_loop_cons a b p pins t s hc] at h
      have e : pre ++ p :: pins = (pre ++ [p]) ++ pins := by simp
      rw [e]
      have hinfo1 : (next_pos (tick p (led_cycle a b s))).info
          = track_all (pre ++ [p]) zero_info := by
        rw [body_info, track_all_snoc, hinfo]
      have hfull : hold_after (pre ++ [p]) (pre.length + 1)
          = (track_button p s.info).hold_time := by
        have := hold_after_length (pre ++ [p])
        rw [List.length_append, List.length_singleton, track_all_snoc, ← hinfo] at this
        exact this
      have hprev : hold_after (pre ++ [p]) pre.length = s.info.hold_time := by
        rw [hold_after_append pre [p] pre.length (le_refl _), hold_after_length, hinfo]
      refine ih (pre ++ [p]) _ (next_pos (tick p (led_cycle a b s))) hinfo1
        (by rw [body_log, hlog]; simp) ?_ ?_ h
      · intro hne
        rw [body_info] at hne
        rw [if_pos hne, dec16_500]
      · intro hcnt
        rw [body_info] at hcnt
        simp only [List.length_append, List.length_singleton]
        by_cases hh : (track_button p s.info).hold_time ≠ 0
        · refine ⟨pre.length + 1, le_refl _, by rw [hfull]; exact hh,
            fun j h1 h2 => absurd h2 (by omega), ?_⟩
          rw [if_pos hh, dec16_500]; simp
        · have hh0 : (track_button p s.info).hold_time = 0 := by simpa using hh
          rw [if_neg hh]
          by_cases hs : s.info.hold_time ≠ 0
          · have ht : t = 499 := hJ1 hs
            subst ht
            rw [dec16_499]
            refine ⟨pre.length, by omega, by rw [hprev]; exact hs, ?_, by simp⟩
            intro j h1 h2
            have hj : j = pre.length + 1 := by omega
            rw [hj, hfull]; exact hh0
          · have hs0 : s.info.hold_time = 0 := by simpa using hs
            have hceq := track_button_idle p s.info hs0
            rw [hceq] at hcnt
            obtain ⟨i, hi, hne, hz, hsum⟩ := hJ2 hcnt
            have htpos : 0 < t := by
              rcases hc with h0 | h0
              · exact absurd h0 hcnt
              · exact h0
            rw [dec16_pos t htpos]
            refine ⟨i, by omega, ?_, ?_, by omega⟩
            · rw [hold_after_append pre [p] i hi]; exact hne
            · intro j h1 h2
              by_cases hj : j ≤ pre.length
              · rw [hold_after_append pre [p] j hj]; exact hz j h1 hj
              · have hj1 : j = pre.length + 1 := by omega
                rw [hj1, hfull]; exact hh0
    · rw [count_loop_cons_exit a b p pins t s hc] at h
      cases h
      exact count_loop_end_exit pre (p :: pins) t _ hlog hJ2 hc


theorem count_run_last (seg : List Nat) (σ : Nat × button_info) (hne : seg ≠ [])
    (hh : (count_run seg σ).2.hold_time ≠ 0) : (count_run seg σ).1 = 499 := by
  induction seg generalizing σ with
  | nil => exact absurd rfl hne
  | cons p seg ih =>
    by_cases hnil : seg = []
    · subst hnil
      simp only [count_run, count_step] at hh ⊢
      rw [if_pos hh, dec16_500]
    · exact ih (count_step p σ) hnil hh

theorem count_after_succ (trace : List Nat) (m z : Nat) (Z1 : List Nat)
    (hm : m ≤ trace.length) (hz : trace.drop m = z :: Z1) :
    count_after trace (m + 1) = (track_button z (track_all (trace.take m) zero_info)).count := by
  have e : trace.take (m + 1) = trace.take m ++ [z] := by
    conv_lhs => rw [← List.take_append_drop m trace, hz]
    rw [List.take_append_eq_append_take]
    have hl : (trace.take m).length = m := by rw [List.length_take]; omega
    rw [hl, List.take_of_length_le (by omega)]
    simp
  rw [count_after, e, track_all_snoc]

theorem count_loop_live (a b portb : Nat) (trace : List Nat) (m : Nat)
    (hheld : hold_after trace m ≠ 0) (hpress : count_after trace (m + 1) ≠ 0)
    (hlen : m + 499 ≤ trace.length)
    (hidle : ∀ x ∈ (trace.drop m).take 499, button_held x = false) :
    ∃ s k, k ≤ m + 499 ∧
      count_button_presses_loop a b trace 0 (init_state portb) = some (s, trace.drop k) ∧
      s.log.length = k := by
  have hpl : (trace.take m).length = m := by rw [List.length_take]; omega
  have htr : trace = trace.take m ++ trace.drop m := (List.take_append_drop m trace).symm
  rcases count_loop_or a b (trace.take m) (trace.drop m) 0 (init_state portb) with
    ⟨s1, k, hk, e, hl⟩ | hst
  · rw [← htr] at e
    exact ⟨s1, k, by omega, e, by simpa [init_state] using hl⟩
  · obtain ⟨z, Z1, hZ⟩ : ∃ z Z1, trace.drop m = z :: Z1 := by
      cases hd : trace.drop m with
      | nil =>
        have := congrArg List.length hd
        rw [List.length_drop] at this
        simp at this
        omega
      | cons z Z1 => exact ⟨z, Z1, rfl⟩
    have hZ1len : 498 ≤ Z1.length := by
      have := congrArg List.length hZ
      rw [List.length_drop, List.length_cons] at this
      omega
    rw [hZ] at hidle
    have hz : button_held z = false := hidle z (by simp)
    have hZ2 : ∀ x ∈ Z1.take 498, button_held x = false := by
      intro x hx
      exact hidle x (by simp [List.take_succ_cons, hx])
    have hlen2 : (Z1.take 498).length = 498 := by rw [List.length_take]; omega
    -- the state after the first `m` ticks
    have hinfo : (count_run (trace.take m) (0, (init_state portb).info)).2
        = track_all (trace.take m) zero_info := count_run_info _ _
    have hhold : (track_all (trace.take m) zero_info).hold_time ≠ 0 := hheld
    have hne : trace.take m ≠ [] := by
      intro h0
      rw [h0] at hhold
      exact hhold rfl
    have ht : (count_run (trace.take m) (0, (init_state portb).info)).1 = 499 :=
      count_run_last _ _ hne (by rw [hinfo]; exact hhold)
    have hrun : count_run (trace.take m) (0, (init_state portb).info)
        = (499, track_all (trace.take m) zero_info) := Prod.ext ht hinfo
    have hc1 : (track_button z (track_all (trace.take m) zero_info)).count ≠ 0 := by
      rw [← count_after_succ trace m z Z1 (by omega) hZ]; exact hpress
    rw [track_button_released z _ hz] at hc1
    simp only at hc1
    have c1 : count_stays [z] (499, track_all (trace.take m) zero_info) ∧
        count_run [z] (499, track_all (trace.take m) zero_info) =
          (498, ⟨0, if (track_all (trace.take m) zero_info).hold_time > 20
            then ((track_all (trace.take m) zero_info).count + 1) % 256
            else (track_all (trace.take m) zero_info).count⟩) := by
      refine ⟨⟨Or.inr (by show 0 < 499; decide), trivial⟩, ?_⟩
      simp only [count_run, count_step, track_button_released z _ hz]
      simp [dec16_499]
    have c2 := count_chain _ [z] _ _ _ ⟨hst, hrun⟩ c1
    have c3 := count_chain _ (Z1.take 498) _ _ _ c2
      (count_idle (Z1.take 498) 498 _ hZ2 (by omega) (by decide))
    obtain ⟨hst3, hrun3⟩ := c3
    rw [hlen2] at hrun3
    obtain ⟨s1, el, hi, hlog⟩ := count_loop_through a b
      (trace.take m ++ [z] ++ Z1.take 498) (Z1.drop 498) 0 (init_state portb) hst3
    rw [hrun3] at el hi
    have el2 : count_button_presses_loop a b
        (trace.take m ++ [z] ++ Z1.take 498 ++ Z1.drop 498) 0 (init_state portb) =
        count_button_presses_loop a b (Z1.drop 498) 0 s1 := el
    rw [count_loop_exit a b (Z1.drop 498) s1 (by rw [hi]; exact hc1)] at el2
    have htr2 : trace.take m ++ [z] ++ Z1.take 498 ++ Z1.drop 498 = trace := by
      conv_rhs => rw [htr, hZ]
      simp [List.append_assoc]
    have hPlen : (trace.take m ++ [z] ++ Z1.take 498).length = m + 499 := by
      simp only [List.length_append, List.length_singleton, hpl, hlen2]
    have hdrop : trace.drop (m + 499) = Z1.drop 498 := by
      conv_lhs => rw [← htr2]
      rw [← hPlen, List.drop_left]
    rw [htr2] at el2
    refine ⟨s1, m + 499, le_refl _, by rw [hdrop]; exact el2, ?_⟩
    rw [hlog, hPlen]; simp [init_state]


/-! ## Returning at all -/

theorem wait_for_button_timeout_returns (a o n portb : Nat) (trace : List Nat)
    (hrel : ∃ x ∈ trace.drop n, button_held x = false) :
    ∃ r, wait_for_button_timeout a o n portb trace = some r := by
  have hlen : n < trace.length := le_length_of_released trace n hrel
  obtain ⟨⟨s1, rest⟩, hl⟩ := wait_loop_total a ((a + o) % 65536) n trace
    (init_state portb) (Or.inl (le_of_lt hlen))
  obtain ⟨k, hk1, -, hr, -, -, -, -⟩ := wait_loop_shape _ _ _ _ _ _ _ hl
  obtain ⟨rest1, hw⟩ := wait_release_total rest
    (by rw [hr]; exact released_from trace k n hk1 hrel)
  exact ⟨_, wait_for_button_timeout_eq _ _ _ _ _ _ _ _ hl hw⟩

theorem delay_returns (a o n portb : Nat) (trace : List Nat)
    (hrel : ∃ x ∈ trace.drop n, button_held x = false) :
    ∃ r, delay a o n portb trace = some r := by
  have hlen : n < trace.length := le_length_of_released trace n hrel
  obtain ⟨s1, hl, -, -⟩ := delay_loop_total a ((a + o) % 65536) n trace
    (init_state portb) (le_of_lt hlen)
  by_cases hn : n ≤ 20
  · exact ⟨_, delay_short_eq _ _ _ _ _ _ _ hn hl⟩
  · obtain ⟨rest1, hw⟩ := wait_release_total (trace.drop n) hrel
    exact ⟨_, delay_long_eq _ _ _ _ _ _ _ _ (by omega) hl hw⟩

theorem count_button_presses_returns (a o portb : Nat) (trace : List Nat) (m : Nat)
    (hheld : hold_after trace m ≠ 0) (hpress : count_after trace (m + 1) ≠ 0)
    (hidle : ∀ x ∈ (trace.drop m).take 499, button_held x = false)
    (hrel : ∃ x ∈ trace.drop (m + 499), button_held x = false) :
    ∃ r, count_button_presses a o portb trace = some r := by
  have hlen : m + 499 < trace.length := le_length_of_released trace _ hrel
  obtain ⟨s1, k, hk, hl, -⟩ := count_loop_live a ((a + o) % 65536) portb trace m hheld hpress
    (le_of_lt hlen) hidle
  obtain ⟨rest1, hw⟩ := wait_release_total (trace.drop k)
    (released_from trace k (m + 499) hk hrel)
  exact ⟨_, count_button_presses_eq _ _ _ _ _ _ _ hl hw⟩

theorem split_at_release (trace rest rest1 : List Nat) (k : Nat) (hr : rest = trace.drop k)
    (hw : wait_release rest = some rest1) :
    ∃ pre x, trace = pre ++ x :: rest1 ∧ button_held x = false := by
  obtain ⟨pre, x, e, -, hx⟩ := wait_release_some rest rest1 hw
  refine ⟨trace.take k ++ pre, x, ?_, hx⟩
  rw [List.append_assoc, ← e, hr, List.take_append_drop]

/-! ## Claims on the grace window, the release and the LED -/

/-- C8 (counterexample): on `two_presses_far_apart` the first hold episode
begins at tick 1 and is confirmed at tick 26, the button is pressed again
from tick 426 to tick 450, and the loop of `count_button_presses` ends only
after 949 ticks, more than 500 ticks after the start of the first episode. -/
theorem count_button_presses_runs_past_500 :
    two_presses_far_apart.take 1 = [ACTIVE] ∧ count_after two_presses_far_apart 26 = 1 ∧
      (count_button_presses_loop 100 ((100 + 100) % 65536) two_presses_far_apart 0
          (init_state 0)).map (fun q => (q.1.log.length, q.2)) = some (949, [INACTIVE]) ∧
      (count_button_presses 100 100 0 two_presses_far_apart).map (fun r => (r.ret, r.ticks))
        = some (2, 949) ∧
      1 + 500 < 949 := by
  decide

/-- C8 (amended): the loop of `count_button_presses` restarts its 500-tick
timeout on every tick that leaves `hold_time` non-zero.  Whenever the loop
ends, `info.count` is non-zero and the loop ends exactly 499 ticks after the
last tick `i` that left `hold_time` non-zero; and when `hold_time` is non-zero
after tick `m`, the 8-bit `info.count` is non-zero after tick `m + 1` and the
next 499 ticks read inactive, the loop ends no later than tick `m + 499`. -/
theorem count_button_presses_window_restarts (on_ms off_ms portb : Nat) (trace : List Nat) :
    (∀ s rest, count_button_presses_loop on_ms ((on_ms + off_ms) % 65536) trace 0
        (init_state portb) = some (s, rest) →
      ∃ i, s.log.length = i + 499 ∧ hold_after trace i ≠ 0 ∧
        (∀ j, i < j → j ≤ i + 499 → hold_after trace j = 0) ∧
        count_after trace (i + 499) ≠ 0) ∧
    (∀ m, hold_after trace m ≠ 0 → count_after trace (m + 1) ≠ 0 →
      m + 499 ≤ trace.length →
      (∀ x ∈ (trace.drop m).take 499, button_held x = false) →
      ∃ s k, k ≤ m + 499 ∧
        count_button_presses_loop on_ms ((on_ms + off_ms) % 65536) trace 0 (init_state portb)
          = some (s, trace.drop k) ∧ s.log.length = k) := by
  constructor
  · intro s rest h
    obtain ⟨i, h1, h2, h3⟩ := count_loop_end on_ms ((on_ms + off_ms) % 65536) trace [] 0
      (init_state portb) s rest rfl rfl (fun h0 => absurd rfl h0) (fun h0 => absurd rfl h0) h
    obtain ⟨k, -, -, hi, hl, hne⟩ := count_loop_shape _ _ _ _ _ _ _ h
    rw [List.nil_append] at h2 h3
    refine ⟨i, h1, h2, h3, ?_⟩
    have hk : k = i + 499 := by
      rw [← h1, hl]; simp [init_state]
    rw [count_after, ← hk]
    rw [hi] at hne
    exact hne
  · intro m h1 h2 h3 h4
    exact count_loop_live on_ms ((on_ms + off_ms) % 65536) portb trace m h1 h2 h3 h4

theorem count_button_presses_window_restarts_witness :
    ∃ s k, k ≤ 21 + 499 ∧
      count_button_presses_loop 100 ((100 + 100) % 65536)
        (List.replicate 21 ACTIVE ++ List.replicate 500 INACTIVE) 0 (init_state 0)
        = some (s, (List.replicate 21 ACTIVE ++ List.replicate 500 INACTIVE).drop k) ∧
      s.log.length = k ∧
      ∃ i, s.log.length = i + 499 ∧
        hold_after (List.replicate 21 ACTIVE ++ List.replicate 500 INACTIVE) i ≠ 0 ∧
        (∀ j, i < j → j ≤ i + 499 →
          hold_after (List.replicate 21 ACTIVE ++ List.replicate 500 INACTIVE) j = 0) ∧
        count_after (List.replicate 21 ACTIVE ++ List.replicate 500 INACTIVE) (i + 499) ≠ 0 :=
  let ⟨s, k, hk, hl, hlog⟩ := (count_button_presses_window_restarts 100 100 0
      (List.replicate 21 ACTIVE ++ List.replicate 500 INACTIVE)).2 21
      (by decide) (by decide) (by decide) (by decide)
  ⟨s, k, hk, hl, hlog, (count_button_presses_window_restarts 100 100 0
      (List.replicate 21 ACTIVE ++ List.replicate 500 INACTIVE)).1 s _ hl⟩

/-- C9 (counterexample): `delay(100, 200, 1)` on a trace whose single read
finds the button active returns 1 right after that read: the last pin read
before the return is active. -/
theorem delay_short_returns_while_held :
    button_held ACTIVE = true ∧
      delay 100 200 1 0 [ACTIVE] = some { ret := 1, PORTB := 0, PINB := [], log := [32] } := by
  decide

/-- C9 (amended): whenever `wait_for_button_timeout`, `count_button_presses`
or `delay` with `delay_ms > 20` returns, the last read of the pin it consumed
is inactive; `delay` with `delay_ms ≤ 20` returns right after the reads of its
`delay_ms` ticks, without waiting for the release.  The three functions do
return when the button is released from tick `n` on (for
`count_button_presses`: after a confirmed press followed by 499 inactive
ticks). -/
theorem returns_after_inactive_read (on_ms off_ms n portb : Nat) (trace : List Nat) :
    (∀ r, wait_for_button_timeout on_ms off_ms n portb trace = some r →
      ∃ pre x, trace = pre ++ x :: r.PINB ∧ button_held x = false) ∧
    (∀ r, count_button_presses on_ms off_ms portb trace = some r →
      ∃ pre x, trace = pre ++ x :: r.PINB ∧ button_held x = false) ∧
    (20 < n → ∀ r, delay on_ms off_ms n portb trace = some r →
      ∃ pre x, trace = pre ++ x :: r.PINB ∧ button_held x = false) ∧
    (n ≤ 20 → ∀ r, delay on_ms off_ms n portb trace = some r →
      r.PINB = trace.drop n ∧ r.ticks = n) ∧
    ((∃ x ∈ trace.drop n, button_held x = false) →
      (∃ r, wait_for_button_timeout on_ms off_ms n portb trace = some r) ∧
      (∃ r, delay on_ms off_ms n portb trace = some r)) ∧
    (∀ m, hold_after trace m ≠ 0 → count_after trace (m + 1) ≠ 0 →
      (∀ x ∈ (trace.drop m).take 499, button_held x = false) →
      (∃ x ∈ trace.drop (m + 499), button_held x = false) →
      ∃ r, count_button_presses on_ms off_ms portb trace = some r) := by
  refine ⟨?_, ?_, ?_, ?_, ?_, ?_⟩
  · intro r hr
    obtain ⟨s1, rest, hl, hw, -, -, -⟩ := wait_for_button_timeout_inv _ _ _ _ _ _ hr
    obtain ⟨k, -, -, hrest, -, -, -, -⟩ := wait_loop_shape _ _ _ _ _ _ _ hl
    exact split_at_release trace rest r.PINB k hrest hw
  · intro r hr
    obtain ⟨s1, rest, hl, hw, -, -, -⟩ := count_button_presses_inv _ _ _ _ _ hr
    obtain ⟨k, -, hrest, -, -, -⟩ := count_loop_shape _ _ _ _ _ _ _ hl
    exact split_at_release trace rest r.PINB k hrest hw
  · intro hn r hr
    obtain ⟨s1, rest, hl, -, -, hcase⟩ := delay_inv _ _ _ _ _ _ hr
    obtain ⟨-, hrest, -, -⟩ := delay_loop_shape _ _ _ _ _ _ _ hl
    rcases hcase with ⟨h20, -, -⟩ | ⟨-, hw, -⟩
    · omega
    · exact split_at_release trace rest r.PINB n hrest hw
  · intro hn r hr
    obtain ⟨s1, rest, hl, -, hlog, hcase⟩ := delay_inv _ _ _ _ _ _ hr
    obtain ⟨-, hrest, -, hlen⟩ := delay_loop_shape _ _ _ _ _ _ _ hl
    rcases hcase with ⟨-, hp, -⟩ | ⟨h20, -, -⟩
    · exact ⟨by rw [hp, hrest], by simp [Outcome.ticks, hlog, hlen, init_state]⟩
    · omega
  · intro hrel
    exact ⟨wait_for_button_timeout_returns _ _ _ _ _ hrel, delay_returns _ _ _ _ _ hrel⟩
  · intro m h1 h2 h3 h4
    exact count_button_presses_returns _ _ _ _ m h1 h2 h3 h4

theorem returns_after_inactive_read_witness :
    ∃ r, delay 100 200 21 0 (List.replicate 25 ACTIVE ++ [INACTIVE]) = some r ∧
      ∃ pre x, List.replicate 25 ACTIVE ++ [INACTIVE] = pre ++ x :: r.PINB ∧
        button_held x = false :=
  let ⟨r, hr⟩ := ((returns_after_inactive_read 100 200 21 0
      (List.replicate 25 ACTIVE ++ [INACTIVE])).2.2.2.2.1 ⟨INACTIVE, by decide, by decide⟩).2
  ⟨r, hr, (returns_after_inactive_read 100 200 21 0
      (List.replicate 25 ACTIVE ++ [INACTIVE])).2.2.1 (by decide) r hr⟩

/-- C10: for every initial 8-bit value of `PORTB`, whenever
`wait_for_button_timeout`, `count_button_presses` or `delay` returns, bit 5
of `PORTB` (the LED) is cleared and every other bit of `PORTB` has its value
at entry; and the three functions do return when the button is released from
tick `n` on (for `count_button_presses`: after a confirmed press followed by
499 inactive ticks). -/
theorem led_cleared_other_bits_kept (on_ms off_ms n portb : Nat) (trace : List Nat)
    (hp : portb < 256) :
    (∀ r, wait_for_button_timeout on_ms off_ms n portb trace = some r →
      r.PORTB.testBit 5 = false ∧ ∀ i, i ≠ 5 → r.PORTB.testBit i = portb.testBit i) ∧
    (∀ r, count_button_presses on_ms off_ms portb trace = some r →
      r.PORTB.testBit 5 = false ∧ ∀ i, i ≠ 5 → r.PORTB.testBit i = portb.testBit i) ∧
    (∀ r, delay on_ms off_ms n portb trace = some r →
      r.PORTB.testBit 5 = false ∧ ∀ i, i ≠ 5 → r.PORTB.testBit i = portb.testBit i) ∧
    ((∃ x ∈ trace.drop n, button_held x = false) →
      (∃ r, wait_for_button_timeout on_ms off_ms n portb trace = some r) ∧
      (∃ r, delay on_ms off_ms n portb trace = some r)) ∧
    (∀ m, hold_after trace m ≠ 0 → count_after trace (m + 1) ≠ 0 →
      (∀ x ∈ (trace.drop m).take 499, button_held x = false) →
      (∃ x ∈ trace.drop (m + 499), button_held x = false) →
      ∃ r, count_button_presses on_ms off_ms portb trace = some r) := by
  have fin : ∀ (s1 : LoopState) (q : Nat), s1.PORTB < 256 ∧ SameOtherBits portb s1.PORTB →
      q = led_off s1.PORTB →
      q.testBit 5 = false ∧ ∀ i, i ≠ 5 → q.testBit i = portb.testBit i := by
    intro s1 q ⟨h1, h2⟩ hq
    subst hq
    exact ⟨led_off_testBit_5 _, h2.trans (led_off_same _ h1)⟩
  refine ⟨?_, ?_, ?_, ?_, ?_⟩
  · intro r hr
    obtain ⟨s1, rest, hl, -, -, hpb, -⟩ := wait_for_button_timeout_inv _ _ _ _ _ _ hr
    exact fin s1 _ (wait_loop_frame _ _ _ _ _ _ _ hl hp) hpb
  · intro r hr
    obtain ⟨s1, rest, hl, -, -, hpb, -⟩ := count_button_presses_inv _ _ _ _ _ hr
    exact fin s1 _ (count_loop_frame _ _ _ _ _ _ _ hl hp) hpb
  · intro r hr
    obtain ⟨s1, rest, hl, hpb, -, -⟩ := delay_inv _ _ _ _ _ _ hr
    exact fin s1 _ (delay_loop_frame _ _ _ _ _ _ _ hl hp) hpb
  · intro hrel
    exact ⟨wait_for_button_timeout_returns _ _ _ _ _ hrel, delay_returns _ _ _ _ _ hrel⟩
  · intro m h1 h2 h3 h4
    exact count_button_presses_returns _ _ _ _ m h1 h2 h3 h4

theorem led_cleared_other_bits_kept_witness :
    ∃ r, wait_for_button_timeout 100 200 25 0xff (List.replicate 25 ACTIVE ++ [INACTIVE])
        = some r ∧
      r.PORTB.testBit 5 = false ∧ ∀ i, i ≠ 5 → r.PORTB.testBit i = (0xff : Nat).testBit i :=
  let ⟨r, hr⟩ := ((led_cleared_other_bits_kept 100 200 25 0xff
      (List.replicate 25 ACTIVE ++ [INACTIVE]) (by decide)).2.2.2.1
        ⟨INACTIVE, by decide, by decide⟩).1
  ⟨r, hr, (led_cleared_other_bits_kept 100 200 25 0xff
      (List.replicate 25 ACTIVE ++ [INACTIVE]) (by decide)).1 r hr⟩

/-! ## Claims on the LED cycle and on single steps of the tracker -/

/-- C12 (defect of the code): in `wait_for_button_timeout(100, 100, 1500)` with
the button never active and `PORTB = 0` at entry, the function returns `false`
after 1500 ticks, but the LED bit (value 32) is set during 99 ticks and clear
during 101 ticks of every period of 200 ticks, not 100 and 100; with
`led_on_time_ms = 1` the LED stays on during every tick. -/
theorem wait_for_button_timeout_led_off_by_one :
    (wait_for_button_timeout 100 100 1500 0 (List.replicate 1501 INACTIVE)).map
        (fun r => (r.ret, r.ticks, led_runs r.log [])) =
      some (false, 1500,
        [(32, 99), (0, 101), (32, 99), (0, 101), (32, 99), (0, 101), (32, 99), (0, 101),
         (32, 99), (0, 101), (32, 99), (0, 101), (32, 99), (0, 101), (32, 99), (0, 1)]) ∧
    (wait_for_button_timeout 1 3 12 0 (List.replicate 13 INACTIVE)).map
        (fun r => (r.ret, r.ticks, led_runs r.log [])) = some (false, 12, [(32, 12)]) := by
  decide

/-- C15 (counterexample): from `hold_time = 21`, `count = 255` an inactive
tick yields `(0, 0)`, not `(0, count + 1) = (0, 256)`. -/
theorem track_button_count_wraps :
    button_held INACTIVE = false ∧
      track_button INACTIVE { hold_time := 21, count := 255 } = { hold_time := 0, count := 0 } := by
  decide

/-- C15 (amended): one step of `track_button` on `(hold_time, count)`: an
active read with `hold_time < 255` yields `(hold_time + 1, count)`; an
inactive read yields `(0, (count + 1) % 256)` if `hold_time > 20` and
`(0, count)` otherwise; so `count` changes only on an inactive read whose
preceding `hold_time` exceeds the threshold, and then by one modulo 256. -/
theorem track_button_step (pinb hold_time count : Nat) :
    (button_held pinb = true → hold_time < 255 →
      track_button pinb { hold_time := hold_time, count := count }
        = { hold_time := hold_time + 1, count := count }) ∧
    (button_held pinb = false →
      track_button pinb { hold_time := hold_time, count := count }
        = { hold_time := 0,
            count := if hold_time > BUTTON_HOLD_TIME_MS then (count + 1) % 256 else count }) ∧
    ((track_button pinb { hold_time := hold_time, count := count }).count ≠ count →
      button_held pinb = false ∧ hold_time > BUTTON_HOLD_TIME_MS ∧
      (track_button pinb { hold_time := hold_time, count := count }).count
        = (count + 1) % 256) := by
  refine ⟨?_, ?_, ?_⟩
  · intro hp hh
    rw [track_button_held pinb _ hp]
    simp only
    rw [Nat.mod_eq_of_lt (by omega)]
  · intro hp
    rw [track_button_released pinb _ hp]
    rfl
  · intro hne
    by_cases hp : button_held pinb = true
    · rw [track_button_held pinb _ hp] at hne
      exact absurd rfl hne
    · have hp0 : button_held pinb = false := by simpa using hp
      rw [track_button_released pinb _ hp0] at hne ⊢
      by_cases hh : hold_time > 20
      · simp only [hh, if_true]
        exact ⟨hp0, hh, trivial⟩
      · simp only [hh, if_false] at hne
        exact absurd rfl hne

theorem track_button_step_witness :
    track_button ACTIVE { hold_time := 20, count := 3 } = { hold_time := 20 + 1, count := 3 } ∧
    track_button INACTIVE { hold_time := 21, count := 3 }
      = { hold_time := 0, count := if 21 > BUTTON_HOLD_TIME_MS then (3 + 1) % 256 else 3 } :=
  ⟨(track_button_step ACTIVE 20 3).1 (by decide) (by decide),
   (track_button_step INACTIVE 21 3).2.1 (by decide)⟩

/-- C18: with the 8-bit `hold_time`, the tracker started at `hold_time = 0`
confirms a hold episode of `d` consecutive active ticks at its release (the
count changes, to `(count + 1) % 256`) exactly when `d % 256 > 20`; for
`d < 256` this is `d > 20`. -/
theorem hold_time_confirms_mod_256 (H : List Nat) (z count : Nat)
    (hH : ∀ x ∈ H, button_held x = true) (hz : button_held z = false) :
    track_all (H ++ [z]) { hold_time := 0, count := count }
      = { hold_time := 0, count := if H.length % 256 > 20 then (count + 1) % 256 else count } ∧
    ((track_all (H ++ [z]) { hold_time := 0, count := count }).count ≠ count ↔
      H.length % 256 > 20) ∧
    (H.length < 256 → (H.length % 256 > 20 ↔ H.length > 20)) := by
  have e : track_all (H ++ [z]) { hold_time := 0, count := count }
      = { hold_time := 0, count := if H.length % 256 > 20 then (count + 1) % 256 else count } := by
    rw [track_all_snoc, track_all_held H 0 count (by decide) hH, track_button_released _ _ hz]
    simp
  refine ⟨e, ?_, ?_⟩
  · rw [e]
    by_cases hd : H.length % 256 > 20
    · simp only [hd, if_true, iff_true]
      omega
    · simp [hd]
  · intro hlt
    rw [Nat.mod_eq_of_lt hlt]

theorem hold_time_confirms_mod_256_witness :
    track_all (List.replicate 256 ACTIVE ++ [INACTIVE]) { hold_time := 0, count := 0 }
      = { hold_time := 0,
          count := if (List.replicate 256 ACTIVE).length % 256 > 20 then (0 + 1) % 256 else 0 } ∧
    track_all (List.replicate 277 ACTIVE ++ [INACTIVE]) { hold_time := 0, count := 0 }
      = { hold_time := 0,
          count := if (List.replicate 277 ACTIVE).length % 256 > 20 then (0 + 1) % 256 else 0 } :=
  ⟨(hold_time_confirms_mod_256 (List.replicate 256 ACTIVE) INACTIVE 0
      (fun x hx => by rw [List.eq_of_mem_replicate hx]; decide) (by decide)).1,
   (hold_time_confirms_mod_256 (List.replicate 277 ACTIVE) INACTIVE 0
      (fun x hx => by rw [List.eq_of_mem_replicate hx]; decide) (by decide)).1⟩

/-! ## Presses confirmed along a trace -/

theorem presses_confirmed_append (a b : List Nat) (info : button_info) :
    presses_confirmed (a ++ b) info =
      presses_confirmed a info + presses_confirmed b (track_all a info) := by
  induction a generalizing info with
  | nil => simp [presses_confirmed, track_all]
  | cons p a ih => simp [presses_confirmed, track_all, ih, Nat.add_assoc]

theorem presses_confirmed_held (seg : List Nat) (info : button_info)
    (hs : ∀ x ∈ seg, button_held x = true) : presses_confirmed seg info = 0 := by
  induction seg generalizing info with
  | nil => rfl
  | cons p seg ih =>
    have hp : button_held p = true := hs p (List.mem_cons_self _ _)
    have hs1 : ∀ x ∈ seg, button_held x = true := fun x hx => hs x (List.mem_cons_of_mem _ hx)
    simp [presses_confirmed, hp, ih _ hs1]

theorem presses_confirmed_released (seg : List Nat) (c : Nat)
    (hs : ∀ x ∈ seg, button_held x = false) : presses_confirmed seg ⟨0, c⟩ = 0 := by
  induction seg with
  | nil => rfl
  | cons p seg ih =>
    have hp : button_held p = false := hs p (List.mem_cons_self _ _)
    have hs1 : ∀ x ∈ seg, button_held x = false := fun x hx => hs x (List.mem_cons_of_mem _ hx)
    simp only [presses_confirmed, track_button_released p _ hp]
    simpa [BUTTON_HOLD_TIME_MS] using ih hs1

/-- The tracker's 8-bit `count` is the number of presses confirmed, modulo
256. -/
theorem count_eq_presses_confirmed (l : List Nat) (info : button_info) (hc : info.count < 256) :
    (track_all l info).count = (info.count + presses_confirmed l info) % 256 := by
  induction l generalizing info with
  | nil => simp [track_all, presses_confirmed, Nat.mod_eq_of_lt hc]
  | cons p l ih =>
    simp only [track_all, presses_confirmed]
    by_cases hp : button_held p = true
    · rw [ih _ (by rw [track_button_held p _ hp]; exact hc), track_button_held p _ hp]
      simp [hp]
    · have hp0 : button_held p = false := by simpa using hp
      have hlt : (track_button p info).count < 256 := by
        rw [track_button_released p _ hp0]
        show (if info.hold_time > 20 then (info.count + 1) % 256 else info.count) < 256
        split_ifs
        · exact Nat.mod_lt _ (by decide)
        · exact hc
      rw [ih _ hlt, track_button_released p _ hp0]
      by_cases h20 : info.hold_time > 20
      · simp [hp0, h20, BUTTON_HOLD_TIME_MS]
        omega
      · simp [hp0, h20, BUTTON_HOLD_TIME_MS]

/-! ## A run of presses of 21 ticks -/

theorem held_replicate_ACTIVE (n : Nat) : ∀ x ∈ List.replicate n ACTIVE, button_held x = true := by
  intro x hx
  rw [List.eq_of_mem_replicate hx]
  decide

theorem released_replicate_INACTIVE (n : Nat) :
    ∀ x ∈ List.replicate n INACTIVE, button_held x = false := by
  intro x hx
  rw [List.eq_of_mem_replicate hx]
  decide

theorem count_press21 (t c : Nat) (ht : t < 65536) (h1 : c = 0 ∨ 0 < t) :
    count_stays (List.replicate 21 ACTIVE ++ [INACTIVE]) (t, ⟨0, c⟩) ∧
      count_run (List.replicate 21 ACTIVE ++ [INACTIVE]) (t, ⟨0, c⟩)
        = (498, ⟨0, (c + 1) % 256⟩) := by
  obtain ⟨hst, t1, e, -, -, hl⟩ := count_held (List.replicate 21 ACTIVE) t 0 c
    (held_replicate_ACTIVE 21) (by decide) ht h1 (fun h => absurd h (by decide))
  have ht1 : t1 = 499 := hl (by decide) (by decide)
  subst ht1
  exact count_chain _ [INACTIVE] _ _ _ ⟨hst, e⟩
    (count_release_step INACTIVE ((0 + (List.replicate 21 ACTIVE).length) % 256) c
      (by decide) (by decide))

theorem count_presses21 (n t c : Nat) (ht : t < 65536) (h1 : c = 0 ∨ 0 < t) (hc : c < 256) :
    count_stays (List.replicate n (List.replicate 21 ACTIVE ++ [INACTIVE])).flatten (t, ⟨0, c⟩) ∧
      count_run (List.replicate n (List.replicate 21 ACTIVE ++ [INACTIVE])).flatten (t, ⟨0, c⟩)
        = (if n = 0 then t else 498, ⟨0, (c + n) % 256⟩) := by
  induction n generalizing t c with
  | zero => exact ⟨trivial, by simp [count_run, Nat.mod_eq_of_lt hc]⟩
  | succ n ih =>
    rw [List.replicate_succ, List.flatten_cons]
    have h2 := ih 498 ((c + 1) % 256) (by decide) (Or.inr (by decide))
      (Nat.mod_lt _ (by decide))
    have h3 := count_chain _ _ _ _ _ (count_press21 t c ht h1) h2
    refine ⟨h3.1, ?_⟩
    rw [h3.2]
    have e : ((c + 1) % 256 + n) % 256 = (c + (n + 1)) % 256 := by omega
    rw [e]
    by_cases hn : n = 0
    · subst hn; simp
    · simp [hn]

theorem presses_confirmed_presses21 (n c : Nat) :
    presses_confirmed (List.replicate n (List.replicate 21 ACTIVE ++ [INACTIVE])).flatten ⟨0, c⟩
      = n ∧
    (track_all (List.replicate n (List.replicate 21 ACTIVE ++ [INACTIVE])).flatten
      ⟨0, c⟩).hold_time = 0 := by
  induction n generalizing c with
  | zero => exact ⟨rfl, rfl⟩
  | succ n ih =>
    rw [List.replicate_succ, List.flatten_cons, presses_confirmed_append]
    have e : track_all (List.replicate 21 ACTIVE ++ [INACTIVE]) ⟨0, c⟩ = ⟨0, (c + 1) % 256⟩ := by
      rw [track_all_snoc, track_all_held _ 0 c (by decide) (held_replicate_ACTIVE 21),
        track_button_released _ _ (by decide)]
      simp
    have e1 : presses_confirmed (List.replicate 21 ACTIVE ++ [INACTIVE]) ⟨0, c⟩ = 1 := by
      rw [presses_confirmed_append, presses_confirmed_held _ _ (held_replicate_ACTIVE 21),
        track_all_held _ 0 c (by decide) (held_replicate_ACTIVE 21)]
      simp [presses_confirmed, BUTTON_HOLD_TIME_MS]
      decide
    rw [e, e1, (ih _).1, track_all_append (List.replicate 21 ACTIVE ++ [INACTIVE]), e]
    exact ⟨by omega, (ih _).2⟩

theorem presses257_split :
    presses257 =
      ((List.replicate 257 (List.replicate 21 ACTIVE ++ [INACTIVE])).flatten ++
        List.replicate 498 INACTIVE) ++ [INACTIVE, INACTIVE] := by
  have e : List.replicate 500 INACTIVE = List.replicate 498 INACTIVE ++ [INACTIVE, INACTIVE] :=
    List.replicate_add 498 2 INACTIVE
  rw [presses257, e, List.append_assoc]

theorem length_presses21 (n : Nat) :
    (List.replicate n (List.replicate 21 ACTIVE ++ [INACTIVE])).flatten.length = n * 22 := by
  induction n with
  | zero => rfl
  | succ n ih =>
    rw [List.replicate_succ, List.flatten_cons, List.length_append, ih]
    simp only [List.length_append, List.length_replicate, List.length_cons, List.length_nil]
    omega

theorem presses257_take :
    presses257.take 6152 =
      (List.replicate 257 (List.replicate 21 ACTIVE ++ [INACTIVE])).flatten ++
        List.replicate 498 INACTIVE := by
  rw [presses257_split]
  apply List.take_left'
  rw [List.length_append, length_presses21, List.length_replicate]

/-- C20 (counterexample): on `presses257` the loop of `count_button_presses`
ends after 6152 ticks, during which 257 presses were confirmed, and the
function returns 1: the `uint8_t` `info.count` passed from 255 to 0 at the
256th press. -/
theorem count_button_presses_returns_1_of_257 :
    (count_button_presses 100 100 0 presses257).map (fun r => (r.ret, r.ticks))
      = some (1, 6152) ∧
    presses_confirmed (presses257.take 6152) zero_info = 257 := by
  constructor
  · have c1 := count_presses21 257 0 0 (by decide) (Or.inl rfl) (by decide)
    have c2 := count_chain _ (List.replicate 498 INACTIVE) _ _ _ c1
      (count_idle (List.replicate 498 INACTIVE) 498 ((0 + 257) % 256)
        (released_replicate_INACTIVE 498) (by rw [List.length_replicate]) (by decide))
    obtain ⟨hst, hrun⟩ := c2
    obtain ⟨s1, el, hi, hlog⟩ := count_loop_through 100 ((100 + 100) % 65536) _
      [INACTIVE, INACTIVE] 0 (init_state 0) hst
    have hrun1 : count_run ((List.replicate 257 (List.replicate 21 ACTIVE ++ [INACTIVE])).flatten
        ++ List.replicate 498 INACTIVE) (0, (init_state 0).info) = (0, ⟨0, 1⟩) := by
      rw [show (init_state 0).info = ⟨0, 0⟩ from rfl, hrun, List.length_replicate]
    rw [hrun1] at el hi
    have hinfo : s1.info = ⟨0, 1⟩ := hi
    rw [count_loop_exit 100 ((100 + 100) % 65536) [INACTIVE, INACTIVE] s1
      (by rw [hinfo]; decide), ← presses257_split] at el
    rw [count_button_presses_eq 100 100 0 presses257 s1 _ _ el
      (wait_release_released INACTIVE [INACTIVE] (by decide))]
    simp only [Option.map_some', Option.some.injEq, Prod.mk.injEq, Outcome.ticks]
    refine ⟨by rw [hinfo]; decide, ?_⟩
    rw [hlog, List.length_append, length_presses21, List.length_replicate]
    rfl
  · rw [presses257_take, presses_confirmed_append, show zero_info = ⟨0, 0⟩ from rfl,
      (presses_confirmed_presses21 257 0).1]
    have h0 := (presses_confirmed_presses21 257 0).2
    have e : track_all (List.replicate 257 (List.replicate 21 ACTIVE ++ [INACTIVE])).flatten
        ⟨0, 0⟩ = ⟨0, (track_all (List.replicate 257
          (List.replicate 21 ACTIVE ++ [INACTIVE])).flatten ⟨0, 0⟩).count⟩ := by
      cases h : track_all (List.replicate 257 (List.replicate 21 ACTIVE ++ [INACTIVE])).flatten
          ⟨0, 0⟩ with
      | mk ht c => rw [h] at h0; simp at h0; simp [h0]
    rw [e, presses_confirmed_released _ _ (released_replicate_INACTIVE 498)]

/-- C20 (amended): whenever the loop of `count_button_presses` ends,
`info.count` is non-zero and `info.hold_time` is 0; hence whenever
`count_button_presses` returns, the flush adds nothing and the value returned
is `info.count`, which is the number of presses confirmed during the ticks of
the loop modulo 256, and is at least 1. -/
theorem count_button_presses_loop_end_state (on_ms off_ms portb : Nat) (trace : List Nat) :
    (∀ s rest, count_button_presses_loop on_ms ((on_ms + off_ms) % 65536) trace 0
        (init_state portb) = some (s, rest) →
      s.info.count ≠ 0 ∧ s.info.hold_time = 0 ∧ flushed s.info = s.info.count) ∧
    (∀ r, count_button_presses on_ms off_ms portb trace = some r →
      r.ret = count_after trace r.ticks ∧
      r.ret = presses_confirmed (trace.take r.ticks) zero_info % 256 ∧ 1 ≤ r.ret) := by
  have key : ∀ s rest, count_button_presses_loop on_ms ((on_ms + off_ms) % 65536) trace 0
        (init_state portb) = some (s, rest) →
      s.info.count ≠ 0 ∧ s.info.hold_time = 0 ∧ flushed s.info = s.info.count ∧
      s.info.count = count_after trace s.log.length := by
    intro s rest h
    obtain ⟨i, h1, -, h3⟩ := count_loop_end on_ms ((on_ms + off_ms) % 65536) trace [] 0
      (init_state portb) s rest rfl rfl (fun h0 => absurd rfl h0) (fun h0 => absurd rfl h0) h
    obtain ⟨k, -, -, hi, hl, hne⟩ := count_loop_shape _ _ _ _ _ _ _ h
    have hk : s.log.length = k := by rw [hl]; simp [init_state]
    have hz : hold_after trace (i + 499) = 0 := by
      have := h3 (i + 499) (by omega) (le_refl _)
      rwa [List.nil_append] at this
    have hi1 : s.info = track_all (trace.take k) zero_info := hi
    have hh : s.info.hold_time = 0 := by
      rw [hi1, ← hk, h1]; exact hz
    refine ⟨hne, hh, ?_, ?_⟩
    · rw [flushed, hh]; simp [BUTTON_HOLD_TIME_MS]
    · rw [hk, hi1]; rfl
  constructor
  · intro s rest h
    obtain ⟨a, b, c, -⟩ := key s rest h
    exact ⟨a, b, c⟩
  · intro r hr
    obtain ⟨s1, rest, hl, -, hret, -, hlog⟩ := count_button_presses_inv _ _ _ _ _ hr
    obtain ⟨a, -, c, d⟩ := key s1 rest hl
    rw [hret, c, Outcome.ticks, hlog]
    refine ⟨d, ?_, Nat.pos_of_ne_zero a⟩
    rw [d, count_after, count_eq_presses_confirmed _ _ (by decide)]
    simp [zero_info]

theorem count_button_presses_loop_end_state_witness :
    ∃ r, count_button_presses 100 100 0
        (List.replicate 21 ACTIVE ++ List.replicate 500 INACTIVE) = some r ∧
      r.ret = count_after (List.replicate 21 ACTIVE ++ List.replicate 500 INACTIVE) r.ticks ∧
      r.ret = presses_confirmed
        ((List.replicate 21 ACTIVE ++ List.replicate 500 INACTIVE).take r.ticks) zero_info % 256 ∧
      1 ≤ r.ret :=
  let ⟨r, hr⟩ := Option.isSome_iff_exists.mp
    (by decide : (count_button_presses 100 100 0
      (List.replicate 21 ACTIVE ++ List.replicate 500 INACTIVE)).isSome = true)
  ⟨r, hr, (count_button_presses_loop_end_state 100 100 0
      (List.replicate 21 ACTIVE ++ List.replicate 500 INACTIVE)).2 r hr⟩

/-! ## Runs -/

theorem Run.andThen_some {α β : Type} (r : Run α) (f : α → Run β) (a : α)
    (h : r.result = some a) :
    r.andThen f = { events := r.events ++ (f a).events, result := (f a).result } := by
  simp [Run.andThen, h]

theorem Run.andThen_none {α β : Type} (r : Run α) (f : α → Run β) (h : r.result = none) :
    r.andThen f = { events := r.events, result := none } := by
  simp [Run.andThen, h]

/-! ## Bits and edges -/

theorem and_two_pow_eq_zero (x k : Nat) : x &&& 2 ^ k = 0 ↔ x.testBit k = false := by
  constructor
  · intro h
    have := Nat.testBit_and x (2 ^ k) k
    rw [h, Nat.zero_testBit, Nat.testBit_two_pow_self, Bool.and_true] at this
    exact this.symm
  · intro h
    apply Nat.eq_of_testBit_eq
    intro i
    rw [Nat.testBit_and, Nat.zero_testBit, Nat.testBit_two_pow]
    by_cases hi : k = i
    · subst hi; simp [h]
    · simp [hi]

theorem changed_and_high_eq_rose (k pinb : Nat) (st : PinState) :
    changed_and_high (2 ^ k) (PCINT0_vect pinb st) = rose (2 ^ k) st.portbhistory pinb := by
  unfold changed_and_high rose PCINT0_vect
  simp only
  have h1 := and_two_pow_eq_zero (pinb ^^^ st.portbhistory) k
  have h2 := and_two_pow_eq_zero pinb k
  have h3 := and_two_pow_eq_zero st.portbhistory k
  rw [Nat.testBit_xor] at h1
  cases hp : pinb.testBit k <;> cases hh : st.portbhistory.testBit k <;>
    simp [hp, hh] at h1 h2 h3 <;> simp [h1, h2, h3]

theorem changed_and_high_button_0 (pinb : Nat) (st : PinState) :
    changed_and_high PORTB_BUTTON_0 (PCINT0_vect pinb st)
      = rose PORTB_BUTTON_0 st.portbhistory pinb :=
  changed_and_high_eq_rose 4 pinb st

theorem changed_and_high_button_1 (pinb : Nat) (st : PinState) :
    changed_and_high PORTB_BUTTON_1 (PCINT0_vect pinb st)
      = rose PORTB_BUTTON_1 st.portbhistory pinb :=
  changed_and_high_eq_rose 3 pinb st

theorem releases_snoc (mask prev : Nat) (l : List Nat) (c : Nat) :
    releases mask prev (l ++ [c])
      = releases mask prev l + if rose mask (last_pinb prev l) c then 1 else 0 := by
  induction l generalizing prev with
  | nil => simp [releases, last_pinb]
  | cons v l ih => simp [releases, last_pinb, ih, Nat.add_assoc]

/-! ## The loop of `select_number` -/

theorem select_number_loop_quiet_wake (v : Nat) (rest : List Wake) (st : PinState) (val : Nat)
    (h0 : rose PORTB_BUTTON_0 st.portbhistory v = false)
    (h1 : rose PORTB_BUTTON_1 st.portbhistory v = false) :
    select_number_loop (Wake.pin_change v :: rest) st val
      = select_number_loop rest (PCINT0_vect v st) val := by
  simp [select_number_loop, wake_up, changed_and_high_button_0, changed_and_high_button_1, h0, h1]

theorem select_number_loop_continue (v : Nat) (rest : List Wake) (st : PinState) (val : Nat)
    (h1 : rose PORTB_BUTTON_1 st.portbhistory v = false) :
    (select_number_loop (Wake.pin_change v :: rest) st val).result
      = (select_number_loop rest (PCINT0_vect v st)
          (if rose PORTB_BUTTON_0 st.portbhistory v then (val + 1) % 256 else val)).result := by
  simp [select_number_loop, wake_up, changed_and_high_button_0, changed_and_high_button_1, h1]

theorem select_number_loop_confirm (v : Nat) (rest : List Wake) (st : PinState) (val : Nat)
    (h1 : rose PORTB_BUTTON_1 st.portbhistory v = true) :
    (select_number_loop (Wake.pin_change v :: rest) st val).result
      = some (if rose PORTB_BUTTON_0 st.portbhistory v then (val + 1) % 256 else val,
          PCINT0_vect v st, rest) := by
  simp [select_number_loop, wake_up, changed_and_high_button_0, changed_and_high_button_1, h1]

theorem select_number_loop_result (pre : List Nat) (c : Nat) (post : List Wake)
    (st : PinState) (val : Nat) (hval : val < 256)
    (hpre : releases PORTB_BUTTON_1 st.portbhistory pre = 0)
    (hc : rose PORTB_BUTTON_1 (last_pinb st.portbhistory pre) c = true) :
    (select_number_loop ((pre ++ [c]).map Wake.pin_change ++ post) st val).result
      = some ((val + releases PORTB_BUTTON_0 st.portbhistory (pre ++ [c])) % 256,
          { changedbits := c ^^^ last_pinb st.portbhistory pre, portbhistory := c }, post) := by
  induction pre generalizing st val with
  | nil =>
    simp only [last_pinb] at hc
    rw [List.nil_append, List.map_cons, List.map_nil, List.cons_append, List.nil_append,
      select_number_loop_confirm c post st val hc]
    simp only [releases, last_pinb, PCINT0_vect]
    by_cases h0 : rose PORTB_BUTTON_0 st.portbhistory c = true
    · simp [h0]
    · simp [h0, Nat.mod_eq_of_lt hval]
  | cons v pre ih =>
    simp only [releases] at hpre
    have hv1 : rose PORTB_BUTTON_1 st.portbhistory v = false := by
      by_contra h
      simp only [Bool.not_eq_false] at h
      rw [h] at hpre
      simp at hpre
    have hpre1 : releases PORTB_BUTTON_1 v pre = 0 := by
      rw [hv1] at hpre; simpa using hpre
    simp only [last_pinb] at hc
    rw [List.cons_append, List.map_cons, List.cons_append,
      select_number_loop_continue v _ st val hv1,
      ih (PCINT0_vect v st) _ (by split_ifs <;> omega) hpre1 hc]
    simp only [PCINT0_vect, releases, last_pinb]
    by_cases h0 : rose PORTB_BUTTON_0 st.portbhistory v = true
    · simp only [h0, if_true]
      congr 2
      omega
    · simp only [h0]
      simp


/-! ## Claims on `select_number` and on the change mask -/

/-- C14 (amended): on a sequence of pin-change wake-ups whose first release of
the confirm button is at the wake-up `c`, `select_number` returns the number
`n` of releases of the accumulator button seen up to and including that
wake-up (the test of the accumulator button precedes the test of the confirm
button in the loop body), provided `n ≤ 255`; and a wake-up at which neither
button is released, such as a press, changes neither the value nor ends the
selection. -/
theorem select_number_returns_releases (st : PinState) (pre : List Nat) (c : Nat)
    (post : List Wake)
    (hpre : releases PORTB_BUTTON_1 st.portbhistory pre = 0)
    (hc : releases PORTB_BUTTON_1 st.portbhistory (pre ++ [c]) = 1)
    (hn : releases PORTB_BUTTON_0 st.portbhistory (pre ++ [c]) ≤ 255) :
    (select_number ((pre ++ [c]).map Wake.pin_change ++ post) st).result
      = some (releases PORTB_BUTTON_0 st.portbhistory (pre ++ [c]),
          { changedbits := c ^^^ last_pinb st.portbhistory pre, portbhistory := c }, post) ∧
    (∀ (v : Nat) (rest : List Wake) (st1 : PinState) (val : Nat),
      rose PORTB_BUTTON_0 st1.portbhistory v = false →
      rose PORTB_BUTTON_1 st1.portbhistory v = false →
      select_number_loop (Wake.pin_change v :: rest) st1 val
        = select_number_loop rest (PCINT0_vect v st1) val) := by
  constructor
  · have hrose : rose PORTB_BUTTON_1 (last_pinb st.portbhistory pre) c = true := by
      rw [releases_snoc, hpre] at hc
      by_contra h
      simp [h] at hc
    have h := select_number_loop_result pre c post st 0 (by decide) hpre hrose
    rw [Nat.zero_add, Nat.mod_eq_of_lt (by omega)] at h
    rw [select_number, Run.andThen_some _ _ _ h]
    rfl
  · intro v rest st1 val h0 h1
    exact select_number_loop_quiet_wake v rest st1 val h0 h1

theorem select_number_returns_releases_witness :
    (select_number
        (([0xEF, 0xFF, 0xEF, 0xFF, 0xF7] ++ [0xFF]).map Wake.pin_change ++ [Wake.other])
        PinState.boot).result
      = some (releases PORTB_BUTTON_0 PinState.boot.portbhistory
            ([0xEF, 0xFF, 0xEF, 0xFF, 0xF7] ++ [0xFF]),
          { changedbits := 0xFF ^^^ last_pinb PinState.boot.portbhistory
              [0xEF, 0xFF, 0xEF, 0xFF, 0xF7],
            portbhistory := 0xFF }, [Wake.other]) ∧
    releases PORTB_BUTTON_0 PinState.boot.portbhistory
      ([0xEF, 0xFF, 0xEF, 0xFF, 0xF7] ++ [0xFF]) = 2 :=
  ⟨(select_number_returns_releases PinState.boot [0xEF, 0xFF, 0xEF, 0xFF, 0xF7] 0xFF
      [Wake.other] (by decide) (by decide) (by decide)).1, by decide⟩

theorem select_number_loop_high (wakes : List Wake) (st : PinState) (val : Nat)
    (q : Nat × PinState × List Wake)
    (h : (select_number_loop wakes st val).result = some q) :
    changed_and_high PORTB_BUTTON_1 q.2.1 = true := by
  induction wakes generalizing st val with
  | nil => simp [select_number_loop] at h
  | cons w rest ih =>
    simp only [select_number_loop] at h
    by_cases hc : changed_and_high PORTB_BUTTON_1 (wake_up w st) = true
    · rw [if_pos hc] at h
      simp only [Option.some.injEq] at h
      rw [← h]
      exact hc
    · rw [if_neg hc] at h
      exact ih _ _ h

theorem wait_for_confirm_loop_high (wakes : List Wake) (st : PinState)
    (q : PinState × List Wake)
    (h : (wait_for_confirm_loop wakes st).result = some q) :
    changed_and_high PORTB_BUTTON_1 q.1 = true := by
  induction wakes generalizing st with
  | nil => simp [wait_for_confirm_loop] at h
  | cons w rest ih =>
    simp only [wait_for_confirm_loop] at h
    by_cases hc : changed_and_high PORTB_BUTTON_1 (wake_up w st) = true
    · rw [if_pos hc] at h
      simp only [Option.some.injEq] at h
      rw [← h]
      exact hc
    · rw [if_neg hc] at h
      exact ih _ h

theorem select_number_result (wakes : List Wake) (st : PinState)
    (q : Nat × PinState × List Wake) (h : (select_number wakes st).result = some q) :
    (select_number_loop wakes st 0).result = some q := by
  unfold select_number Run.andThen at h
  cases hl : (select_number_loop wakes st 0).result with
  | none => simp [hl] at h
  | some a => simpa [hl, Run.emit] using h

theorem wait_for_confirm_result (wakes : List Wake) (st : PinState)
    (q : PinState × List Wake) (h : (wait_for_confirm wakes st).result = some q) :
    (wait_for_confirm_loop wakes st).result = some q := by
  unfold wait_for_confirm Run.andThen at h
  cases hl : (wait_for_confirm_loop wakes st).result with
  | none => simp [hl] at h
  | some a => simpa [hl, Run.emit] using h

theorem stale_confirm (st : PinState) (more : List Wake)
    (h : changed_and_high PORTB_BUTTON_1 st = true) :
    st.changedbits ≠ 0 ∧ (wait_for_confirm (Wake.other :: more) st).result = some (st, more) := by
  constructor
  · intro h0
    simp [changed_and_high, h0] at h
  · simp [wait_for_confirm, Run.andThen, wait_for_confirm_loop, wake_up, h, Run.emit]

/-- C16 (counterexample): after `select_number` has acted on the release of the
confirm button, `changedbits` is 8, not 0, and a `wait_for_confirm` called
next returns at a wake-up without pin-change interrupt: it observes the same
release a second time. -/
theorem changedbits_not_cleared :
    (select_number [Wake.pin_change 0xF7, Wake.pin_change 0xFF, Wake.other]
        PinState.boot).result
      = some (0, { changedbits := 8, portbhistory := 0xFF }, [Wake.other]) ∧
    (wait_for_confirm [Wake.other] { changedbits := 8, portbhistory := 0xFF }).result
      = some ({ changedbits := 8, portbhistory := 0xFF }, []) := by
  decide

/-- C16 (amended): the main loop never clears the change mask.  When
`select_number` or `wait_for_confirm` returns, `changedbits` still holds the
change it acted on (it is non-zero, its `PORTB_BUTTON_1` bit is set and that
pin is high in `portbhistory`), and a `wait_for_confirm` called then returns
at the first wake-up that comes without a pin-change interrupt, observing the
same event again. -/
theorem changedbits_kept_after_confirm (wakes : List Wake) (st : PinState) :
    (∀ q, (select_number wakes st).result = some q →
      q.2.1.changedbits ≠ 0 ∧ changed_and_high PORTB_BUTTON_1 q.2.1 = true ∧
      ∀ more, (wait_for_confirm (Wake.other :: more) q.2.1).result = some (q.2.1, more)) ∧
    (∀ q, (wait_for_confirm wakes st).result = some q →
      q.1.changedbits ≠ 0 ∧ changed_and_high PORTB_BUTTON_1 q.1 = true ∧
      ∀ more, (wait_for_confirm (Wake.other :: more) q.1).result = some (q.1, more)) := by
  constructor
  · intro q hq
    have h := select_number_loop_high wakes st 0 q (select_number_result wakes st q hq)
    exact ⟨(stale_confirm q.2.1 [] h).1, h, fun more => (stale_confirm q.2.1 more h).2⟩
  · intro q hq
    have h := wait_for_confirm_loop_high wakes st q (wait_for_confirm_result wakes st q hq)
    exact ⟨(stale_confirm q.1 [] h).1, h, fun more => (stale_confirm q.1 more h).2⟩

theorem changedbits_kept_after_confirm_witness :
    ∃ q, (wait_for_confirm [Wake.pin_change 0xF7, Wake.pin_change 0xFF] PinState.boot).result
        = some q ∧
      q.1.changedbits ≠ 0 ∧ changed_and_high PORTB_BUTTON_1 q.1 = true ∧
      ∀ more, (wait_for_confirm (Wake.other :: more) q.1).result = some (q.1, more) :=
  let ⟨q, hq⟩ := Option.isSome_iff_exists.mp
    (by decide : (wait_for_confirm [Wake.pin_change 0xF7, Wake.pin_change 0xFF]
      PinState.boot).result.isSome = true)
  ⟨q, hq, (changedbits_kept_after_confirm [Wake.pin_change 0xF7, Wake.pin_change 0xFF]
      PinState.boot).2 q hq⟩

/-! ## Claims on the scripts of `bdsp.c` -/

theorem filter_move_in_circles_body (i : Nat) :
    (move_in_circles_body i).filter Event.is_send_update
      = circle_table.map (fun s => Event.send_update BT_NONE DP_NEUTRAL s S_NEUTRAL) := by
  simp [move_in_circles_body, circle_table, Event.is_send_update]

theorem filter_move_in_circles_loop (cycles : Nat) :
    ((List.range cycles).flatMap move_in_circles_body).filter Event.is_send_update
      = (List.replicate cycles
          (circle_table.map (fun s => Event.send_update BT_NONE DP_NEUTRAL s S_NEUTRAL))).flatten := by
  induction cycles with
  | zero => rfl
  | succ n ih =>
    rw [List.range_succ, List.flatMap_append, List.filter_append, ih]
    simp only [List.flatMap_cons, List.flatMap_nil, List.append_nil,
      filter_move_in_circles_body]
    rw [List.replicate_succ', List.flatten_append]
    simp

theorem count_pause_move_in_circles_loop (cycles : Nat) :
    ((List.range cycles).flatMap move_in_circles_body).count Event.pause_automation = 0 := by
  induction cycles with
  | zero => rfl
  | succ n ih =>
    rw [List.range_succ, List.flatMap_append, List.count_append, ih]
    simp [move_in_circles_body]

theorem getElem?_flatten_replicate (l : List Event) (n k : Nat) (hk : k < n * l.length) :
    (List.replicate n l).flatten[k]? = l[k % l.length]? := by
  induction n generalizing k with
  | zero => simp at hk
  | succ n ih =>
    rw [List.replicate_succ, List.flatten_cons]
    by_cases hlt : k < l.length
    · rw [List.getElem?_append_left hlt, Nat.mod_eq_of_lt hlt]
    · have hge : l.length ≤ k := by omega
      rw [List.getElem?_append_right hge, ih (k - l.length)]
      · congr 1
        rw [Nat.mod_eq_sub_mod hge]
      · have : (n + 1) * l.length = n * l.length + l.length := by ring
        omega

/-- C13: `move_in_circles(cycles)` emits exactly `8 * cycles` frames
`send_update`, the `k`-th one (from 0) carrying the entry `k % 8` of the table
of the eight stick directions as left stick, with no button, neutral d-pad
and neutral right stick; then it calls `pause_automation`, once. -/
theorem move_in_circles_frames (cycles : Nat) :
    ((move_in_circles cycles).filter Event.is_send_update).length = 8 * cycles ∧
    (∀ k, k < 8 * cycles →
      ∃ s, circle_table[k % 8]? = some s ∧
        ((move_in_circles cycles).filter Event.is_send_update)[k]?
          = some (Event.send_update BT_NONE DP_NEUTRAL s S_NEUTRAL)) ∧
    (move_in_circles cycles).count Event.pause_automation = 1 ∧
    (move_in_circles cycles).getLast? = some Event.pause_automation := by
  have hf : (move_in_circles cycles).filter Event.is_send_update
      = (List.replicate cycles
          (circle_table.map (fun s => Event.send_update BT_NONE DP_NEUTRAL s S_NEUTRAL))).flatten := by
    unfold move_in_circles
    rw [List.filter_append, List.filter_append, filter_move_in_circles_loop]
    simp [Event.is_send_update]
  have hlen : (circle_table.map
      (fun s => Event.send_update BT_NONE DP_NEUTRAL s S_NEUTRAL)).length = 8 := by
    decide
  refine ⟨?_, ?_, ?_, ?_⟩
  · rw [hf]
    simp [circle_table]
    ring
  · intro k hk
    rw [hf, getElem?_flatten_replicate _ cycles k (by rw [hlen]; omega),
      hlen]
    have h8 : k % 8 < 8 := Nat.mod_lt _ (by decide)
    rw [List.getElem?_map]
    have hc : circle_table.length = 8 := by decide
    refine ⟨circle_table[k % 8], ?_, ?_⟩
    · rw [List.getElem?_eq_getElem]
    · rw [List.getElem?_eq_getElem (by rw [hc]; exact h8)]
      rfl
  · unfold move_in_circles
    rw [List.count_append, List.count_append, count_pause_move_in_circles_loop]
    decide
  · unfold move_in_circles
    rw [List.getLast?_append]
    rfl

/-- C19 (defect of the code): when the operator selects 10 for the egg
cycles (`select_number` returns 10), the loop
`while (num_egg_cycles > sizeof(egg_cycles))` of `hatch_eggs_sequence` ends
with `num_egg_cycles = 10`, because `sizeof(egg_cycles)` is 16, the size in
bytes; the index 10 is outside the table of 8 entries. -/
theorem egg_cycles_index_out_of_bounds :
    ((select_egg_cycles 1 255 ten_then_confirm).result.map fun q => q.1) = some 10 ∧
      sizeof_egg_cycles = 16 ∧ egg_cycles.length = 8 ∧ egg_cycles[10]? = none := by
  decide

/-! ## The hand-over protocol -/

theorem handoff_append (o : Owner) (a b : List Event) :
    handoff o (a ++ b) = (handoff o a).bind fun o1 => handoff o1 b := by
  induction a generalizing o with
  | nil => rfl
  | cons e a ih =>
    simp only [List.cons_append, handoff]
    cases handoff_step o e with
    | none => rfl
    | some o1 => exact ih o1

theorem handoff_quiet (es : List Event) (h : ∀ e ∈ es, e.is_switch = false) :
    handoff Owner.automation es = some Owner.automation := by
  induction es with
  | nil => rfl
  | cons e es ih =>
    have he : e.is_switch = false := h e (List.mem_cons_self _ _)
    have hs : handoff_step Owner.automation e = some Owner.automation := by
      cases e <;> simp [handoff_step, Event.is_frame, Event.is_switch] at he ⊢
    simp only [handoff, hs]
    exact ih fun x hx => h x (List.mem_cons_of_mem _ hx)

theorem handoff_step_human (o o1 : Owner) (e : Event)
    (ho : o = Owner.human_waiting ∨ o = Owner.human_confirmed)
    (hs : handoff_step o e = some o1) (hne : e ≠ Event.switch_controller REAL_TO_VIRT) :
    e.is_frame = false ∧
      (o1 = Owner.human_waiting ∨ o1 = Owner.human_confirmed) ∧
      (o1 = Owner.human_confirmed → o = Owner.human_confirmed ∨ e = Event.wait_for_confirm) := by
  rcases ho with rfl | rfl
  · cases e with
    | switch_controller d =>
      cases d
      · simp [handoff_step, Event.is_frame] at hs ⊢; simp [← hs]
      · exact absurd rfl hne
    | wait_for_confirm => simp [handoff_step, Event.is_frame] at hs ⊢; simp [← hs]
    | init_automation => simp [handoff_step, Event.is_frame] at hs ⊢; simp [← hs]
    | set_leds l => simp [handoff_step, Event.is_frame] at hs ⊢; simp [← hs]
    | beep t => simp [handoff_step, Event.is_frame] at hs ⊢; simp [← hs]
    | select_number v => simp [handoff_step, Event.is_frame] at hs ⊢; simp [← hs]
    | send_update a b c d => simp [handoff_step, Event.is_frame] at hs
    | send_button_sequence l => simp [handoff_step, Event.is_frame] at hs
    | pause_automation => simp [handoff_step, Event.is_frame] at hs
  · cases e with
    | switch_controller d =>
      cases d
      · simp [handoff_step, Event.is_frame] at hs ⊢; simp [← hs]
      · exact absurd rfl hne
    | wait_for_confirm => simp [handoff_step, Event.is_frame] at hs ⊢; simp [← hs]
    | init_automation => simp [handoff_step, Event.is_frame] at hs ⊢; simp [← hs]
    | set_leds l => simp [handoff_step, Event.is_frame] at hs ⊢; simp [← hs]
    | beep t => simp [handoff_step, Event.is_frame] at hs ⊢; simp [← hs]
    | select_number v => simp [handoff_step, Event.is_frame] at hs ⊢; simp [← hs]
    | send_update a b c d => simp [handoff_step, Event.is_frame] at hs
    | send_button_sequence l => simp [handoff_step, Event.is_frame] at hs
    | pause_automation => simp [handoff_step, Event.is_frame] at hs

theorem handoff_human (o : Owner) (mid : List Event) (o2 : Owner)
    (ho : o = Owner.human_waiting ∨ o = Owner.human_confirmed)
    (h : handoff o mid = some o2)
    (hno : Event.switch_controller REAL_TO_VIRT ∉ mid) :
    (∀ e ∈ mid, e.is_frame = false) ∧
      (o2 = Owner.human_waiting ∨ o2 = Owner.human_confirmed) ∧
      (o2 = Owner.human_confirmed → o = Owner.human_confirmed ∨ Event.wait_for_confirm ∈ mid) := by
  induction mid generalizing o with
  | nil =>
    simp only [handoff, Option.some.injEq] at h
    subst h
    exact ⟨by simp, ho, fun h2 => Or.inl h2⟩
  | cons e mid ih =>
    simp only [handoff] at h
    have hne : e ≠ Event.switch_controller REAL_TO_VIRT := fun he =>
      hno (by rw [he]; exact List.mem_cons_self _ _)
    have hno1 : Event.switch_controller REAL_TO_VIRT ∉ mid := fun hm =>
      hno (List.mem_cons_of_mem _ hm)
    cases hs : handoff_step o e with
    | none => simp [hs] at h
    | some o1 =>
      simp only [hs] at h
      have key := handoff_step_human o o1 e ho hs hne
      obtain ⟨k1, k2, k3⟩ := key
      obtain ⟨i1, i2, i3⟩ := ih o1 k2 h hno1
      refine ⟨?_, i2, ?_⟩
      · intro x hx
        rcases List.mem_cons.mp hx with rfl | hx
        · exact k1
        · exact i1 x hx
      · intro h2
        rcases i3 h2 with h3 | h3
        · rcases k3 h3 with h4 | h4
          · exact Or.inl h4
          · exact Or.inr (by rw [h4]; exact List.mem_cons_self _ _)
        · exact Or.inr (List.mem_cons_of_mem _ h3)

theorem handoff_after_yield (o : Owner) (pre rest : List Event) (o2 : Owner)
    (h : handoff o (pre ++ Event.switch_controller VIRT_TO_REAL :: rest) = some o2) :
    handoff Owner.human_waiting rest = some o2 := by
  rw [handoff_append] at h
  cases h1 : handoff o pre with
  | none => simp [h1] at h
  | some o1 =>
    simp only [h1, Option.some_bind, handoff, handoff_step] at h
    exact h

theorem handoff_no_frame (o o2 : Owner) (tr pre mid post : List Event)
    (h : handoff o tr = some o2)
    (e : tr = pre ++ Event.switch_controller VIRT_TO_REAL :: mid ++ post)
    (hno : Event.switch_controller REAL_TO_VIRT ∉ mid) :
    ∀ x ∈ mid, x.is_frame = false := by
  subst e
  rw [List.append_assoc, List.cons_append] at h
  have h1 := handoff_after_yield o pre (mid ++ post) o2 h
  rw [handoff_append] at h1
  cases h2 : handoff Owner.human_waiting mid with
  | none => simp [h2] at h1
  | some o3 => exact (handoff_human _ mid o3 (Or.inl rfl) h2 hno).1

theorem handoff_confirmed (o o2 : Owner) (tr pre mid post : List Event)
    (h : handoff o tr = some o2)
    (e : tr = pre ++ Event.switch_controller VIRT_TO_REAL :: mid ++
      Event.switch_controller REAL_TO_VIRT :: post)
    (hno : Event.switch_controller REAL_TO_VIRT ∉ mid) :
    Event.wait_for_confirm ∈ mid := by
  subst e
  rw [List.append_assoc, List.cons_append] at h
  have h1 := handoff_after_yield o pre _ o2 h
  rw [handoff_append] at h1
  cases h2 : handoff Owner.human_waiting mid with
  | none => simp [h2] at h1
  | some o3 =>
    obtain ⟨-, k2, k3⟩ := handoff_human _ mid o3 (Or.inl rfl) h2 hno
    simp only [h2, Option.some_bind, handoff] at h1
    rcases k2 with rfl | rfl
    · simp [handoff_step] at h1
    · rcases k3 rfl with h3 | h3
      · cases h3
      · exact h3

/-! ## Runs that follow the hand-over protocol -/

theorem quiet_append {a b : List Event} (ha : Quiet a) (hb : Quiet b) : Quiet (a ++ b) := by
  intro e he
  rcases List.mem_append.mp he with h | h
  · exact ha e h
  · exact hb e h

theorem quiet_nil : Quiet [] := by
  intro e he
  cases he

theorem quiet_repeat_events (n : Nat) {body : List Event} (h : Quiet body) :
    Quiet (repeat_events n body) := by
  intro e he
  unfold repeat_events at he
  rw [List.mem_flatten] at he
  obtain ⟨l, hl, hel⟩ := he
  rw [List.eq_of_mem_replicate hl] at hel
  exact h e hel

theorem quiet_flatMap (l : List Nat) (f : Nat → List Event) (h : ∀ i, Quiet (f i)) :
    Quiet (l.flatMap f) := by
  intro e he
  rw [List.mem_flatMap] at he
  obtain ⟨i, -, hei⟩ := he
  exact h i e hei

theorem quiet_release_pokemon : Quiet release_pokemon := by
  unfold Quiet; decide

theorem quiet_release_box : Quiet release_box := by
  unfold release_box
  refine quiet_append (quiet_flatMap _ _ fun i => ?_) (by unfold Quiet; decide)
  refine quiet_append (quiet_append (quiet_repeat_events 5 ?_) quiet_release_pokemon) ?_
  · refine quiet_append quiet_release_pokemon ?_
    intro e he
    rw [List.mem_singleton.mp he]
    rfl
  · unfold Quiet; decide

theorem quiet_fly_to_solaceon : Quiet fly_to_solaceon := by
  unfold fly_to_solaceon
  refine quiet_append (quiet_append (quiet_append (quiet_append (quiet_append ?_ ?_) ?_) ?_) ?_) ?_
  · unfold Quiet; decide
  · exact quiet_repeat_events _ (by unfold Quiet; decide)
  · exact quiet_repeat_events _ (by unfold Quiet; decide)
  · exact quiet_repeat_events _ (by unfold Quiet; decide)
  · unfold Quiet; decide
  · unfold Quiet; decide

theorem quiet_move_in_circles (cycles : Nat) : Quiet (move_in_circles cycles) := by
  unfold move_in_circles
  refine quiet_append (quiet_append (by unfold Quiet; decide) (quiet_flatMap _ _ fun i => ?_))
    (by unfold Quiet; decide)
  intro e he
  simp only [move_in_circles_body, List.mem_cons, List.mem_singleton, List.not_mem_nil,
    or_false] at he
  rcases he with h | h | h | h | h | h | h | h | h <;> rw [h] <;> rfl

theorem quiet_hatch_eggs (cycles : Nat) : Quiet (hatch_eggs cycles) := by
  unfold hatch_eggs
  refine quiet_append (quiet_append (quiet_append (by unfold Quiet; decide)
    (quiet_move_in_circles cycles)) (quiet_repeat_events _ (by unfold Quiet; decide)))
    quiet_fly_to_solaceon

theorem quiet_cursor_step (d : DPad) : Quiet (cursor_step d) := by
  intro e he
  rw [cursor_step, List.mem_singleton] at he
  rw [he]
  rfl

theorem quiet_for_uint8 (bound : Int) (d : DPad) (es : List Event)
    (h : for_uint8 bound (cursor_step d) = some es) : Quiet es := by
  unfold for_uint8 at h
  split_ifs at h
  simp only [Option.some.injEq] at h
  rw [← h]
  exact quiet_repeat_events _ (quiet_cursor_step d)

theorem quiet_swap_eggs_body (column : Nat) (m : Machine) (body : List Event)
    (h : swap_eggs_body column m = some body) : Quiet body := by
  unfold swap_eggs_body at h
  simp only at h
  split at h
  · rename_i there back h1 h2
    simp only [Option.some.injEq] at h
    rw [← h]
    exact quiet_append (quiet_append (quiet_append (quiet_for_uint8 _ _ _ h1)
      (by unfold Quiet; decide)) (quiet_for_uint8 _ _ _ h2)) (by unfold Quiet; decide)
  · cases h

theorem quiet_swap_eggs_enter : Quiet swap_eggs_enter := by
  unfold swap_eggs_enter
  exact quiet_append (quiet_append (quiet_repeat_events _ (by unfold Quiet; decide))
    (by unfold Quiet; decide)) (by unfold Quiet; decide)

theorem quiet_swap_eggs_leave : Quiet swap_eggs_leave := by
  unfold swap_eggs_leave
  exact quiet_repeat_events _ (by unfold Quiet; decide)

theorem quiet_swap_eggs (column : Nat) (m : Machine) : Quiet (swap_eggs column m).events := by
  unfold swap_eggs
  cases hb : swap_eggs_body column m with
  | none => exact quiet_swap_eggs_enter
  | some body =>
    have hq := quiet_swap_eggs_body column m body hb
    simp only
    split_ifs
    · exact quiet_append (quiet_append (quiet_append quiet_swap_eggs_enter
        (quiet_repeat_events 5 hq)) (by unfold Quiet; decide)) quiet_swap_eggs_leave
    · exact quiet_append (quiet_append quiet_swap_eggs_enter (quiet_repeat_events 5 hq))
        quiet_swap_eggs_leave

theorem quiet_get_egg : Quiet get_egg := by
  unfold get_egg
  exact quiet_append (quiet_repeat_events _ (by unfold Quiet; decide))
    (quiet_repeat_events _ (by unfold Quiet; decide))

theorem quiet_wait_for_another_egg : Quiet wait_for_another_egg := by
  unfold wait_for_another_egg
  exact quiet_append (quiet_append (by unfold Quiet; decide) (quiet_move_in_circles 50))
    (by unfold Quiet; decide)

theorem quiet_move_to_daycare_man : Quiet move_to_daycare_man := by
  unfold Quiet; decide

theorem quiet_emit {α : Type} (es : List Event) (a : α) (h : Quiet es) :
    Quiet (Run.emit es a).events := h

theorem quiet_go_to_PC_at_PC : Quiet go_to_PC_at_PC := by
  unfold Quiet; decide

theorem quiet_leave_PC_at_PC : Quiet leave_PC_at_PC := by
  unfold Quiet; decide

theorem quiet_andThen {α β : Type} (r : Run α) (f : α → Run β) (hr : Quiet r.events)
    (hf : ∀ a, Quiet (f a).events) : Quiet (r.andThen f).events := by
  cases h : r.result with
  | none => rw [Run.andThen_none r f h]; exact hr
  | some a => rw [Run.andThen_some r f a h]; exact quiet_append hr (hf a)

theorem quiet_select_number_loop (wakes : List Wake) (st : PinState) (val : Nat) :
    Quiet (select_number_loop wakes st val).events := by
  induction wakes generalizing st val with
  | nil => exact quiet_nil
  | cons w rest ih =>
    simp only [select_number_loop]
    have hev : Quiet (if changed_and_high PORTB_BUTTON_0 (wake_up w st) = true
        then [Event.beep 0] else []) := by
      by_cases h0 : changed_and_high PORTB_BUTTON_0 (wake_up w st) = true
      · rw [if_pos h0]; unfold Quiet; decide
      · rw [if_neg h0]; exact quiet_nil
    by_cases h1 : changed_and_high PORTB_BUTTON_1 (wake_up w st) = true
    · rw [if_pos h1]
      exact quiet_append hev (by unfold Quiet; decide)
    · rw [if_neg h1]
      exact quiet_append hev (ih _ _)

theorem quiet_select_number (wakes : List Wake) (st : PinState) :
    Quiet (select_number wakes st).events := by
  unfold select_number
  refine quiet_andThen _ _ (quiet_select_number_loop wakes st 0) fun q => ?_
  intro e he
  simp only [Run.emit, List.mem_append, List.mem_singleton] at he
  rcases he with h | h
  · rw [List.eq_of_mem_replicate h]; rfl
  · rw [h]; rfl

theorem quiet_call_select_number (m : Machine) : Quiet (call_select_number m).events := by
  unfold call_select_number
  exact quiet_andThen _ _ (quiet_select_number _ _) fun q => quiet_nil

theorem quiet_call_delay (a b c : Nat) (m : Machine) : Quiet (call_delay a b c m).events := by
  unfold call_delay
  split
  · exact quiet_nil
  · exact quiet_nil

theorem Run.Leads.of_quiet {α : Type} (r : Run α) (h : Quiet r.events) :
    r.Leads Owner.automation Owner.automation :=
  ⟨Owner.automation, handoff_quiet r.events h, fun _ => rfl⟩

theorem Run.Leads.andThen {α β : Type} (o o1 o2 : Owner) (r : Run α) (f : α → Run β)
    (hr : r.Leads o o1) (hf : ∀ a, (f a).Leads o1 o2) : (r.andThen f).Leads o o2 := by
  obtain ⟨o3, h3, h4⟩ := hr
  cases h : r.result with
  | none =>
    rw [Run.andThen_none r f h]
    exact ⟨o3, h3, fun hs => by simp at hs⟩
  | some a =>
    rw [Run.andThen_some r f a h]
    have ho : o3 = o1 := h4 (by simp [h])
    subst ho
    obtain ⟨o5, h5, h6⟩ := hf a
    exact ⟨o5, by simp only [handoff_append, h3, Option.some_bind, h5], h6⟩

theorem wait_for_confirm_loop_events (wakes : List Wake) (st : PinState) :
    ((wait_for_confirm_loop wakes st).events = [] ∧
      (wait_for_confirm_loop wakes st).result = none) ∨
    ((wait_for_confirm_loop wakes st).events = [Event.beep 1] ∧
      (wait_for_confirm_loop wakes st).result.isSome = true) := by
  induction wakes generalizing st with
  | nil => exact Or.inl ⟨rfl, rfl⟩
  | cons w rest ih =>
    simp only [wait_for_confirm_loop]
    split_ifs
    · exact Or.inr ⟨rfl, rfl⟩
    · exact ih _

theorem call_wait_for_confirm_leads (m : Machine) :
    (call_wait_for_confirm m).Leads Owner.human_waiting Owner.human_confirmed := by
  unfold call_wait_for_confirm wait_for_confirm
  rcases wait_for_confirm_loop_events m.wakes m.pins with ⟨h1, h2⟩ | ⟨h1, h2⟩
  · rw [Run.andThen_none _ _ h2, Run.andThen_none _ _ rfl, h1]
    exact ⟨Owner.human_waiting, rfl, fun hs => by simp at hs⟩
  · obtain ⟨q, hq⟩ := Option.isSome_iff_exists.mp h2
    rw [Run.andThen_some _ _ q hq, Run.andThen_some _ _ q rfl, h1]
    exact ⟨Owner.human_confirmed, rfl, fun _ => rfl⟩

theorem temporary_control_leads (m : Machine) :
    (temporary_control m).Leads Owner.automation Owner.automation := by
  unfold temporary_control
  refine Run.Leads.andThen _ Owner.human_waiting _ _ _ ⟨Owner.human_waiting, rfl, fun _ => rfl⟩
    fun m1 => ?_
  refine Run.Leads.andThen _ Owner.human_confirmed _ _ _ (call_wait_for_confirm_leads m1)
    fun m2 => ?_
  exact ⟨Owner.automation, rfl, fun _ => rfl⟩

theorem release_box_sequence_leads (m : Machine) :
    (release_box_sequence m).Leads Owner.automation Owner.automation := by
  unfold release_box_sequence
  refine Run.Leads.andThen _ Owner.automation _ _ _
    (Run.Leads.of_quiet _ (quiet_call_select_number m)) fun q => ?_
  refine Run.Leads.andThen _ Owner.automation _ _ _
    (Run.Leads.of_quiet _ (quiet_repeat_events _ quiet_release_box)) temporary_control_leads

theorem farm_eggs_sequence_leads (m : Machine) :
    (farm_eggs_sequence m).Leads Owner.automation Owner.automation := by
  unfold farm_eggs_sequence
  refine Run.Leads.andThen _ Owner.automation _ _ _
    (Run.Leads.of_quiet _ (quiet_call_select_number m)) fun q => ?_
  refine Run.Leads.andThen _ Owner.automation _ _ _
    (Run.Leads.of_quiet _ (quiet_flatMap _ _ fun i => ?_)) temporary_control_leads
  refine quiet_append (quiet_append ?_ quiet_get_egg) quiet_wait_for_another_egg
  split_ifs
  · exact quiet_append quiet_fly_to_solaceon quiet_move_to_daycare_man
  · exact quiet_nil

theorem quiet_select_egg_cycles (budget num : Nat) (m : Machine) :
    Quiet (select_egg_cycles budget num m).events := by
  induction budget generalizing num m with
  | zero =>
    simp only [select_egg_cycles]
    split_ifs
    · exact quiet_nil
    · exact quiet_nil
  | succ b ih =>
    simp only [select_egg_cycles]
    split_ifs
    · exact quiet_andThen _ _ (quiet_call_select_number m) fun q => ih _ _
    · exact quiet_nil

theorem quiet_hatch_loop (num budget : Nat) (m : Machine) :
    Quiet (hatch_loop num budget m).events := by
  induction budget generalizing m with
  | zero =>
    simp only [hatch_loop]
    split_ifs
    · exact quiet_nil
    · exact quiet_nil
  | succ b ih =>
    simp only [hatch_loop]
    split_ifs
    · refine quiet_andThen _ _ (quiet_emit _ _ quiet_go_to_PC_at_PC) fun m1 => ?_
      refine quiet_andThen _ _ (quiet_swap_eggs _ _) fun m2 => ?_
      refine quiet_andThen _ _
        (quiet_emit _ _ (quiet_append quiet_leave_PC_at_PC (quiet_hatch_eggs _)))
        fun m3 => ih m3
    · exact quiet_nil

theorem hatch_eggs_sequence_leads (budget : Nat) (m : Machine) :
    (hatch_eggs_sequence budget m).Leads Owner.automation Owner.automation := by
  unfold hatch_eggs_sequence
  refine Run.Leads.andThen _ Owner.automation _ _ _
    (Run.Leads.of_quiet _ (quiet_call_select_number m)) fun q => ?_
  refine Run.Leads.andThen _ Owner.automation _ _ _
    (Run.Leads.of_quiet _ (quiet_select_egg_cycles _ _ _)) fun s => ?_
  refine Run.Leads.andThen _ Owner.automation _ _ _
    (Run.Leads.of_quiet _ quiet_fly_to_solaceon) fun m1 => ?_
  exact Run.Leads.andThen _ Owner.automation _ _ _
    (Run.Leads.of_quiet _ (quiet_hatch_loop _ _ _)) temporary_control_leads

theorem main_loop_leads (budget iterations : Nat) (m : Machine) :
    (main_loop budget iterations m).Leads Owner.automation Owner.automation := by
  induction iterations generalizing m with
  | zero => exact ⟨Owner.automation, rfl, fun hs => by simp [main_loop] at hs⟩
  | succ n ih =>
    simp only [main_loop]
    refine Run.Leads.andThen _ Owner.automation _ _ _
      (Run.Leads.of_quiet _ (quiet_emit _ _ (by unfold Quiet; decide))) fun m1 => ?_
    refine Run.Leads.andThen _ Owner.automation _ _ _
      (Run.Leads.of_quiet _ (quiet_call_select_number m1)) fun q => ?_
    refine Run.Leads.andThen _ Owner.automation _ _ _ ?_ fun m2 => ih m2
    split
    · exact farm_eggs_sequence_leads _
    · exact hatch_eggs_sequence_leads _ _
    · exact release_box_sequence_leads _
    · exact Run.Leads.of_quiet _ (quiet_call_delay _ _ _ _)

theorem main_leads (budget iterations : Nat) (m : Machine) :
    (main budget iterations m).Leads Owner.automation Owner.automation := by
  unfold main
  refine Run.Leads.andThen _ Owner.automation _ _ _
    (Run.Leads.of_quiet _ (quiet_emit _ _ (by unfold Quiet; decide))) fun m1 => ?_
  refine Run.Leads.andThen _ Owner.automation _ _ _
    (Run.Leads.of_quiet _ (quiet_call_select_number m1)) fun q => ?_
  by_cases hq : q.1 > 0
  · rw [if_pos hq]
    refine Run.Leads.andThen _ Owner.human_confirmed _ _ _ ?_ fun m2 => ?_
    · exact Run.Leads.andThen _ Owner.human_waiting _ _ _
        ⟨Owner.human_waiting, rfl, fun _ => rfl⟩ call_wait_for_confirm_leads
    · exact Run.Leads.andThen _ Owner.automation _ _ _
        ⟨Owner.automation, rfl, fun _ => rfl⟩ fun m3 => main_loop_leads _ _ m3
  · rw [if_neg hq]
    refine Run.Leads.andThen _ Owner.automation _ _ _
      ⟨Owner.automation, rfl, fun _ => rfl⟩ fun m2 => ?_
    exact Run.Leads.andThen _ Owner.automation _ _ _
      ⟨Owner.automation, rfl, fun _ => rfl⟩ fun m3 => main_loop_leads _ _ m3

/-- C11: in the event trace of `main` (its endless loop cut after any
number of passes, on any machine and operator inputs), no controller frame
(`SEND_BUTTON_SEQUENCE`, `send_update`, `pause_automation`) lies between a
`switch_controller(VIRT_TO_REAL)` and the next
`switch_controller(REAL_TO_VIRT)`, and every `switch_controller(REAL_TO_VIRT)`
that follows a `switch_controller(VIRT_TO_REAL)` is separated from it by a
completed `wait_for_confirm`. -/
theorem main_hands_over_cleanly (budget iterations : Nat) (m : Machine) :
    (∀ pre mid post : List Event,
      (main budget iterations m).events
        = pre ++ Event.switch_controller VIRT_TO_REAL :: mid ++ post →
      Event.switch_controller REAL_TO_VIRT ∉ mid →
      ∀ e ∈ mid, e.is_frame = false) ∧
    (∀ pre mid post : List Event,
      (main budget iterations m).events
        = pre ++ Event.switch_controller VIRT_TO_REAL :: mid ++
            Event.switch_controller REAL_TO_VIRT :: post →
      Event.switch_controller REAL_TO_VIRT ∉ mid →
      Event.wait_for_confirm ∈ mid) := by
  obtain ⟨o, ho, -⟩ := main_leads budget iterations m
  exact ⟨fun pre mid post e hno => handoff_no_frame _ _ _ pre mid post ho e hno,
    fun pre mid post e hno => handoff_confirmed _ _ _ pre mid post ho e hno⟩


/-- The trace of `main` on `menu_session`: a hand-over at start-up and one at
the end of `release_box_sequence`. -/
theorem main_events_menu_session :
    (main 10 1 menu_session).events =
      [Event.init_automation, Event.beep 2, Event.beep 0, Event.beep 1, Event.beep 2,
       Event.select_number 1, Event.switch_controller VIRT_TO_REAL, Event.beep 1,
       Event.wait_for_confirm, Event.switch_controller REAL_TO_VIRT,
       Event.set_leds BOTH_LEDS, Event.pause_automation,
       Event.set_leds BOTH_LEDS, Event.pause_automation,
       Event.beep 0, Event.beep 0, Event.beep 1, Event.beep 2, Event.beep 2,
       Event.select_number 2, Event.beep 1, Event.select_number 0,
       Event.set_leds NO_LEDS, Event.switch_controller VIRT_TO_REAL, Event.beep 1,
       Event.wait_for_confirm, Event.switch_controller REAL_TO_VIRT] := by
  decide

theorem main_hands_over_cleanly_witness :
    Event.wait_for_confirm ∈ [Event.beep 1, Event.wait_for_confirm] :=
  (main_hands_over_cleanly 10 1 menu_session).2
    [Event.init_automation, Event.beep 2, Event.beep 0, Event.beep 1, Event.beep 2,
     Event.select_number 1]
    [Event.beep 1, Event.wait_for_confirm]
    [Event.set_leds BOTH_LEDS, Event.pause_automation,
     Event.set_leds BOTH_LEDS, Event.pause_automation,
     Event.beep 0, Event.beep 0, Event.beep 1, Event.beep 2, Event.beep 2,
     Event.select_number 2, Event.beep 1, Event.select_number 0,
     Event.set_leds NO_LEDS, Event.switch_controller VIRT_TO_REAL, Event.beep 1,
     Event.wait_for_confirm, Event.switch_controller REAL_TO_VIRT]
    (by decide) (by decide)

theorem move_in_circles_frames_witness :
    ∃ s, circle_table[9 % 8]? = some s ∧
      ((move_in_circles 2).filter Event.is_send_update)[9]?
        = some (Event.send_update BT_NONE DP_NEUTRAL s S_NEUTRAL) :=
  (move_in_circles_frames 2).2.1 9 (by decide)

/-! ## The loop `while (CUR_BOX < MAX_BOX)` of `hatch_eggs_sequence` -/

theorem hatch_loop_succ (num budget : Nat) (m : Machine) (h : m.CUR_BOX < m.MAX_BOX) :
    hatch_loop num (budget + 1) m =
      match (swap_eggs m.CUR_COL m).result with
      | none =>
        { events := go_to_PC_at_PC ++ (swap_eggs m.CUR_COL m).events, result := none }
      | some m2 =>
        { events := go_to_PC_at_PC ++ ((swap_eggs m.CUR_COL m).events ++
            ((leave_PC_at_PC ++ hatch_eggs (read_egg_cycles m2 num)) ++
              (hatch_loop num budget m2).events))
          result := (hatch_loop num budget m2).result } := by
  rw [hatch_loop, if_pos h]
  cases hs : (swap_eggs m.CUR_COL m).result with
  | none => simp [Run.andThen, Run.emit, hs]
  | some m2 => simp [Run.andThen, Run.emit, hs]

theorem hatch_loop_done (num budget : Nat) (m : Machine) (h : ¬ m.CUR_BOX < m.MAX_BOX) :
    hatch_loop num budget m = Run.emit [] m := by
  cases budget with
  | zero => rw [hatch_loop, if_neg h]
  | succ b => rw [hatch_loop, if_neg h]

theorem hatch_loop_events_calls (num budget : Nat) (m : Machine) :
    (hatch_loop num budget m).events =
      (hatch_loop_calls budget m).flatMap (hatch_iteration num) := by
  induction budget generalizing m with
  | zero =>
    rw [hatch_loop, hatch_loop_calls]
    split_ifs <;> rfl
  | succ b ih =>
    by_cases h : m.CUR_BOX < m.MAX_BOX
    · rw [hatch_loop_succ num b m h, hatch_loop_calls, if_pos h]
      cases hs : (swap_eggs m.CUR_COL m).result with
      | none => simp [hatch_iteration, hs]
      | some m2 => simp [hatch_iteration, hs, ih m2]
    · rw [hatch_loop_done num _ m h, hatch_loop_calls, if_neg h]
      rfl

theorem swap_eggs_after_calls (n : Nat) (m : Machine) (k : Nat) (hk : k / 6 < 255) :
    (swap_eggs (after_calls n m k).CUR_COL (after_calls n m k)).result =
      some (after_calls n m (k + 1)) := by
  have h6 : k % 6 < 6 := Nat.mod_lt _ (by decide)
  have hcases : k % 6 = 0 ∨ k % 6 = 1 ∨ k % 6 = 2 ∨ k % 6 = 3 ∨ k % 6 = 4 ∨ k % 6 = 5 := by
    omega
  have hbox : (k / 6 + 1) % 256 = k / 6 + 1 := Nat.mod_eq_of_lt (by omega)
  rcases hcases with hc | hc | hc | hc | hc | hc
  all_goals
    have h1 : (k + 1) / 6 = if k % 6 = 5 then k / 6 + 1 else k / 6 := by
      rw [hc]; simp; omega
    have h2 : (k + 1) % 6 = if k % 6 = 5 then 0 else k % 6 + 1 := by
      rw [hc]; simp; omega
    simp [swap_eggs, swap_eggs_body, for_uint8, after_calls, Run.emit, hc, h1, h2, hbox]


theorem after_calls_open (n : Nat) (m : Machine) (k : Nat) (hk : k < 6 * n) :
    (after_calls n m k).CUR_BOX < (after_calls n m k).MAX_BOX := by
  show k / 6 < n
  omega

theorem after_calls_closed (n : Nat) (m : Machine) :
    ¬ (after_calls n m (6 * n)).CUR_BOX < (after_calls n m (6 * n)).MAX_BOX := by
  show ¬ (6 * n) / 6 < n
  omega

theorem hatch_loop_from (num n : Nat) (m : Machine) (hn : n < 256) (r : Nat) :
    ∀ k budget, k + r = 6 * n → r ≤ budget →
      (hatch_loop num budget (after_calls n m k)).result = some (after_calls n m (6 * n)) ∧
      hatch_loop_calls budget (after_calls n m k) = (List.range' k r).map (after_calls n m) := by
  induction r with
  | zero =>
    intro k budget hk _
    have hk6 : k = 6 * n := by omega
    subst hk6
    refine ⟨by rw [hatch_loop_done _ _ _ (after_calls_closed n m)]; rfl, ?_⟩
    cases budget with
    | zero => rfl
    | succ b => rw [hatch_loop_calls, if_neg (after_calls_closed n m)]; rfl
  | succ r ih =>
    intro k budget hk hb
    obtain ⟨b, rfl⟩ : ∃ b, budget = b + 1 := ⟨budget - 1, by omega⟩
    have hopen := after_calls_open n m k (by omega)
    have hswap := swap_eggs_after_calls n m k (by omega)
    obtain ⟨ih1, ih2⟩ := ih (k + 1) b (by omega) (by omega)
    constructor
    · rw [hatch_loop_succ num b _ hopen, hswap]
      exact ih1
    · rw [hatch_loop_calls, if_pos hopen, hswap]
      simp only [ih2, List.range'_succ, List.map_cons]

theorem hatch_loop_short (num n : Nat) (m : Machine) (hn : n < 256) (budget : Nat) :
    ∀ k, k + budget < 6 * n → (hatch_loop num budget (after_calls n m k)).result = none := by
  induction budget with
  | zero =>
    intro k hk
    rw [hatch_loop, if_pos (after_calls_open n m k (by omega))]
  | succ b ih =>
    intro k hk
    rw [hatch_loop_succ num b _ (after_calls_open n m k (by omega)),
      swap_eggs_after_calls n m k (by omega)]
    exact ih (k + 1) (by omega)

/-- C21: in `hatch_eggs_sequence`, whatever value `n` of the `uint8_t` `MAX_BOX`
the loop `while (CUR_BOX < MAX_BOX)` is entered with, the loop returns, with
`CUR_BOX = n` and `CUR_COL = 0`, once it is given `6 * n` iterations and not
with fewer; it calls `swap_eggs` `6 * n` times, the call number `k` in box
`k / 6` with the column `k % 6`, so with the columns 0, 1, 2, 3, 4, 5 in order
in each box; every call returns, with `CUR_COL ≤ MAX_COL = 5`; the events of
the loop are those of the iterations of these calls; and for `n = 0` there is no
call and no event. -/
theorem hatch_loop_six_calls_per_box (num n : Nat) (m : Machine) (hn : n < 256) :
    (∀ budget, 6 * n ≤ budget →
      (hatch_loop num budget (hatch_entry n m)).result =
        some { hatch_entry n m with CUR_BOX := n, CUR_COL := 0 } ∧
      (hatch_loop_calls budget (hatch_entry n m)).length = 6 * n ∧
      (hatch_loop_calls budget (hatch_entry n m)).map (fun c => (c.CUR_BOX, c.CUR_COL)) =
        (List.range (6 * n)).map (fun k => (k / 6, k % 6)) ∧
      (∀ c ∈ hatch_loop_calls budget (hatch_entry n m),
        ∃ m2, (swap_eggs c.CUR_COL c).result = some m2 ∧
          m2.CUR_COL ≤ m2.MAX_COL ∧ m2.MAX_COL = 5) ∧
      (hatch_loop num budget (hatch_entry n m)).events =
        (hatch_loop_calls budget (hatch_entry n m)).flatMap (hatch_iteration num)) ∧
    (∀ budget, budget < 6 * n → (hatch_loop num budget (hatch_entry n m)).result = none) ∧
    (n = 0 → ∀ budget,
      hatch_loop_calls budget (hatch_entry n m) = [] ∧
      hatch_loop num budget (hatch_entry n m) = Run.emit [] (hatch_entry n m)) := by
  have hentry : hatch_entry n m = after_calls n m 0 := rfl
  have hend : after_calls n m (6 * n) = { hatch_entry n m with CUR_BOX := n, CUR_COL := 0 } := by
    simp [after_calls, hatch_entry]
  refine ⟨fun budget hb => ?_, fun budget hb => ?_, fun h0 budget => ?_⟩
  · obtain ⟨h1, h2⟩ := hatch_loop_from num n m hn (6 * n) 0 budget (by omega) hb
    rw [hentry, h1, h2, hend]
    refine ⟨rfl, by simp, ?_, ?_, ?_⟩
    · rw [List.map_map, List.range_eq_range']
      rfl
    · intro c hc
      obtain ⟨k, hk, rfl⟩ := List.mem_map.1 hc
      have hk6 : k < 6 * n := by
        have := (List.mem_range'_1.1 hk).2
        omega
      refine ⟨_, swap_eggs_after_calls n m k (by omega), ?_, rfl⟩
      show (k + 1) % 6 ≤ 5
      omega
    · rw [← h2]
      exact hatch_loop_events_calls num budget _
  · rw [hentry]
    exact hatch_loop_short num n m hn budget 0 (by omega)
  · subst h0
    have hclosed : ¬ (hatch_entry 0 m).CUR_BOX < (hatch_entry 0 m).MAX_BOX := by
      show ¬ (0 < 0)
      omega
    refine ⟨?_, hatch_loop_done num budget _ hclosed⟩
    cases budget with
    | zero => rfl
    | succ b => rw [hatch_loop_calls, if_neg hclosed]

theorem hatch_loop_six_calls_per_box_witness :
    2 < 256 ∧
      (hatch_loop_calls 12 (hatch_entry 2 menu_session)).map (fun c => (c.CUR_BOX, c.CUR_COL)) =
        (List.range (6 * 2)).map (fun k => (k / 6, k % 6)) :=
  ⟨by decide, ((hatch_loop_six_calls_per_box 3 2 menu_session (by decide)).1 12 (by decide)).2.2.1⟩

theorem hatch_eggs_sequence_enters_loop (budget : Nat) (m : Machine) :
    hatch_eggs_sequence budget m =
      (call_select_number m).andThen fun q =>
        (select_egg_cycles budget 255 { q.2 with MAX_BOX := q.1 }).andThen fun s =>
          (Run.emit fly_to_solaceon (hatch_entry s.2.MAX_BOX s.2)).andThen fun m1 =>
            (hatch_loop s.1 budget m1).andThen temporary_control := rfl

/-! ## The release seen with the confirm release, and the polling reads -/

/-- C14 (counterexample): both buttons are pressed at the first wake-up and
both are released at the second, which is the first release of the confirm
button; the accumulator button is released 0 times before it, and
`select_number` returns 1. -/
theorem select_number_counts_release_at_confirm :
    releases PORTB_BUTTON_1 PinState.boot.portbhistory [0xE7] = 0 ∧
    releases PORTB_BUTTON_1 PinState.boot.portbhistory [0xE7, 0xFF] = 1 ∧
    releases PORTB_BUTTON_0 PinState.boot.portbhistory [0xE7] = 0 ∧
    (select_number [Wake.pin_change 0xE7, Wake.pin_change 0xFF] PinState.boot).result
      = some (1, { changedbits := 0x18, portbhistory := 0xFF }, []) := by
  decide

/-! ## The polling reads and the handler -/

theorem handler_runs_snoc (between : List Nat) (v : Nat) (st : PinState) :
    handler_runs (between ++ [v]) st = PCINT0_vect v (handler_runs between st) := by
  simp [handler_runs, List.foldl_append]

/-- C17 (counterexample): the handler ran for the release of the confirm
button and left `(changedbits, portbhistory) = (8, 0xFF)`; the condition on
`PORTB_BUTTON_1` reads `changedbits = 8`, the handler runs again for a press
of the accumulator button and leaves `(0x10, 0xEF)`, and the condition reads
`portbhistory = 0xEF`: the two values tested come from two executions of the
handler, and their pair is the pair left by neither. -/
theorem polled_pair_from_two_handler_runs :
    handler_runs [0xF7, 0xFF] PinState.boot = { changedbits := 8, portbhistory := 0xFF } ∧
    PCINT0_vect 0xEF { changedbits := 8, portbhistory := 0xFF }
      = { changedbits := 0x10, portbhistory := 0xEF } ∧
    polled_reads PORTB_BUTTON_1 [0xEF] { changedbits := 8, portbhistory := 0xFF }
      = (8, some 0xEF) ∧
    (8, 0xEF) ≠ (8, 0xFF) ∧ (8, 0xEF) ≠ (0x10, 0xEF) := by
  decide

/-- C17 (amended): the reads of one condition are not atomic.  `changedbits`
is read first and, when its tested bit is set, `portbhistory` second.  When no
handler run is served between the two reads, both values are those the
globals hold at the first read, and the condition is the one of the
sequential loops; when handler runs are served between them, `changedbits` is
the value held before these runs and `portbhistory` is the value `v` stored
by the last of them. -/
theorem polled_reads_not_atomic (mask : Nat) (st : PinState) (between : List Nat) (v : Nat) :
    polled_condition mask [] st = changed_and_high mask st ∧
    (st.changedbits &&& mask = 0 → ∀ runs,
      polled_reads mask runs st = (st.changedbits, none) ∧
      polled_condition mask runs st = false) ∧
    (st.changedbits &&& mask ≠ 0 →
      polled_reads mask [] st = (st.changedbits, some st.portbhistory) ∧
      polled_reads mask (between ++ [v]) st = (st.changedbits, some v) ∧
      (handler_runs (between ++ [v]) st).portbhistory = v ∧
      polled_condition mask (between ++ [v]) st = (v &&& mask != 0)) := by
  refine ⟨?_, fun h0 runs => ?_, fun h1 => ?_⟩
  · by_cases h : st.changedbits &&& mask = 0
    · simp [polled_condition, polled_reads, changed_and_high, h]
    · simp [polled_condition, polled_reads, changed_and_high, h, handler_runs]
  · simp [polled_condition, polled_reads, h0]
  · have hv : (handler_runs (between ++ [v]) st).portbhistory = v := by
      rw [handler_runs_snoc]; rfl
    refine ⟨?_, ?_, hv, ?_⟩
    · simp [polled_reads, h1, handler_runs]
    · simp only [polled_reads, if_neg h1, hv]
    · simp only [polled_condition, polled_reads, if_neg h1, hv]

theorem polled_reads_not_atomic_witness :
    polled_reads PORTB_BUTTON_1 ([0xE7] ++ [0xEF]) { changedbits := 8, portbhistory := 0xFF }
      = (8, some 0xEF) ∧
    polled_condition PORTB_BUTTON_1 ([0xE7] ++ [0xEF]) { changedbits := 8, portbhistory := 0xFF }
      = (0xEF &&& PORTB_BUTTON_1 != 0) :=
  ⟨((polled_reads_not_atomic PORTB_BUTTON_1 { changedbits := 8, portbhistory := 0xFF }
      [0xE7] 0xEF).2.2 (by decide)).2.1,
   ((polled_reads_not_atomic PORTB_BUTTON_1 { changedbits := 8, portbhistory := 0xFF }
      [0xE7] 0xEF).2.2 (by decide)).2.2.2⟩

end SwitchController
